import Mathlib

/-!
# Mips1.c : expression compiler to MIPS64 instruction records

A shallow embedding of `src/Mips1.c` and theorems about it.

Conventions of the embedding.

* C strings are `List Char` (the characters before the terminating NUL).
* The global arrays `variables`, `instrs`, `tokens`, `rpn_queue` are lists that hold
  the initialised prefix of the array; `var_count`, `instr_count` and `rpn_count` are
  the lengths of those lists, `token_count` is kept as a field because the tokenizer
  writes the `TOK_END` sentinel one slot past it.
* The source checks a capacity only in `emit_instr` (`MAX_INSTR`); that guard is modelled.
  The other arrays (`MAX_VARS`, `MAX_TOKENS`, the 64-byte token text, the 128-byte
  `sprintf` buffers) are written without a bounds check, so the model describes the runs
  that stay inside them. A theorem about the content of such an array carries the
  capacity as a hypothesis (`TOKEN_STR_SIZE`, `NAME_SIZE`, `MAX_VARS`, `tokens_fit`).
* `int64_t` values are integers reduced by `wrap64` after every arithmetic operation
  (two's complement wrap-around where C leaves signed overflow undefined), `int` values
  that come from an `int64_t` are reduced by `wrap32`. Register numbers are natural
  numbers: the counter starts at 1 and only grows.
* `evaluate_rpn` reads `val_stack[stack_count-1]` after both operands were popped; with
  exactly two values on the stack that is `val_stack[-1]`, outside the array. The model
  takes the content of that location as a parameter `stray` (one value per loop index),
  so every theorem holds whatever the memory in front of `val_stack` contains.
* Fields of a token slot that the tokenizer does not assign (the value of an identifier,
  operator or parenthesis, the text and value of the `TOK_END` sentinel) keep what the
  slot held before; the slots of `tokens` behind the sentinel keep their content, and a
  slot that was never written holds zeroes (`zeroToken`).
-/

namespace Mips1

/-! ## Constants -/

def MAX_VARS : Nat := 100
def MAX_INPUT_LEN : Nat := 8192
def MAX_TOKENS : Nat := 500
def MAX_INSTR : Nat := 4096

/-- The size of the array `Token.str`: a token text of at most 63 characters fits with
its terminating NUL. -/
def TOKEN_STR_SIZE : Nat := 64

/-- The size of the array `Variable.name` and of the buffer `name` of
`process_statement`: a name of at most 31 characters fits with its terminating NUL. -/
def NAME_SIZE : Nat := 32

def OPCODE_SPECIAL : Nat := 0x00
def OPCODE_DADDIU : Nat := 0x19
def OPCODE_LD : Nat := 0x37
def OPCODE_SD : Nat := 0x3F
def FUNCT_DADDU : Nat := 0x2D
def FUNCT_DSUBU : Nat := 0x2F
def FUNCT_DMULT : Nat := 0x1C
def FUNCT_DDIV : Nat := 0x1E
def FUNCT_MFLO : Nat := 0x12

/-! ## Data model -/

/-- Record of one declared variable (`Variable` in the source). -/
structure Variable where
  name : List Char
  value : Int
  mem_offset : Int
  is_declared : Bool
deriving DecidableEq, Repr

/-- Record of one emitted instruction (`Instr` in the source). -/
structure Instr where
  assembly : List Char
  binary : List Char
  hex : List Char
deriving DecidableEq, Repr

inductive TokenType where
  | TOK_NUMBER
  | TOK_VARIABLE
  | TOK_PLUS
  | TOK_MINUS
  | TOK_MULT
  | TOK_DIV
  | TOK_LPAREN
  | TOK_RPAREN
  | TOK_END
deriving DecidableEq, Repr

open TokenType

/-- Token of the expression scanner (`Token` in the source). -/
structure Token where
  type : TokenType
  str : List Char
  num_value : Int
deriving DecidableEq, Repr

/-- Global state of the program: the file-scope variables of the source. The array
`variables` is the field `vars` (the source's name is a reserved word here). -/
structure State where
  vars : List Variable
  next_mem_offset : Int
  instrs : List Instr
  error_count : Int
  tokens : List Token
  token_count : Nat
  rpn_queue : List Token
  temp_reg_counter : Nat
deriving DecidableEq, Repr

/-- Initial values of the globals: empty tables, `next_mem_offset = 8`,
`temp_reg_counter = 1`. -/
def State.init : State :=
  { vars := [], next_mem_offset := 8, instrs := [], error_count := 0,
    tokens := [], token_count := 0, rpn_queue := [], temp_reg_counter := 1 }

def State.var_count (s : State) : Nat := s.vars.length

def State.instr_count (s : State) : Nat := s.instrs.length

def State.rpn_count (s : State) : Nat := s.rpn_queue.length

/-! ## Machine integers -/

/-- Reduction of an integer to the range of `int64_t` (two's complement). -/
def wrap64 (x : Int) : Int := (x + 2 ^ 63) % 2 ^ 64 - 2 ^ 63

/-- Reduction of an integer to the range of `int` (32 bits, two's complement). -/
def wrap32 (x : Int) : Int := (x + 2 ^ 31) % 2 ^ 32 - 2 ^ 31

def INT64_MAX : Int := 2 ^ 63 - 1

def INT64_MIN : Int := -(2 ^ 63)

/-! ## Utility functions -/

/-- The source's `report_error`: the message goes to `stderr`, the tally goes up by one. -/
def report_error (s : State) : State :=
  { s with error_count := s.error_count + 1 }

/-- The source's `int_to_bin_32`: bit `i` of `val` for `i = 31` down to `0`. -/
def int_to_bin_32 (val : Nat) : List Char :=
  (List.range 32).map fun k => if (val >>> (31 - k)) &&& 1 ≠ 0 then '1' else '0'

/-- Uppercase hexadecimal digit of a value below 16, as `printf` writes it for `%X`. -/
def hexDigit (n : Nat) : Char :=
  if n < 10 then Char.ofNat (48 + n) else Char.ofNat (55 + n)

/-- Output of `sprintf(..., "%08X", encoding)` for a 32-bit `encoding`: eight uppercase
hexadecimal digits, most significant first. -/
def fmt_08X (val : Nat) : List Char :=
  (List.range 8).map fun k => hexDigit ((val >>> (4 * (7 - k))) % 16)

/-- Output of `%d` for a non-negative `int`. -/
def fmt_nat (n : Nat) : List Char := Nat.toDigits 10 n

/-- Output of `%d` for an `int`. -/
def fmt_d (n : Int) : List Char :=
  if n < 0 then '-' :: Nat.toDigits 10 n.natAbs else Nat.toDigits 10 n.natAbs

/-! ## Instruction emission -/

/-- The record `emit_instr` fills in: `strcpy` of the text, `int_to_bin_32` of the
encoding, `sprintf` of the encoding with `%08X`. -/
def instr_record (assembly : List Char) (encoding : Nat) : Instr :=
  { assembly := assembly, binary := int_to_bin_32 encoding, hex := fmt_08X encoding }

/-- The source's `emit_instr`: nothing happens when the list is full, otherwise the
record is appended. -/
def emit_instr (s : State) (assembly : List Char) (encoding : Nat) : State :=
  if s.instr_count ≥ MAX_INSTR then s
  else { s with instrs := s.instrs ++ [instr_record assembly encoding] }

/-- Conversion of the `int` expression that builds an encoding to `uint32_t`. -/
def toU32 (x : Nat) : Nat := x % 2 ^ 32

/-- The C expression `imm & 0xFFFF` on an `int`, as a natural number. -/
def low16 (imm : Int) : Nat := (Int.land imm 0xFFFF).toNat

def enc_daddiu (rt rs : Nat) (imm : Int) : Nat :=
  toU32 ((OPCODE_DADDIU <<< 26) ||| (rs <<< 21) ||| (rt <<< 16) ||| low16 imm)

def enc_daddu (rd rs rt : Nat) : Nat :=
  toU32 ((OPCODE_SPECIAL <<< 26) ||| (rs <<< 21) ||| (rt <<< 16) ||| (rd <<< 11) ||| FUNCT_DADDU)

def enc_dsubu (rd rs rt : Nat) : Nat :=
  toU32 ((OPCODE_SPECIAL <<< 26) ||| (rs <<< 21) ||| (rt <<< 16) ||| (rd <<< 11) ||| FUNCT_DSUBU)

def enc_dmult (rs rt : Nat) : Nat :=
  toU32 ((OPCODE_SPECIAL <<< 26) ||| (rs <<< 21) ||| (rt <<< 16) ||| FUNCT_DMULT)

def enc_ddiv (rs rt : Nat) : Nat :=
  toU32 ((OPCODE_SPECIAL <<< 26) ||| (rs <<< 21) ||| (rt <<< 16) ||| FUNCT_DDIV)

def enc_mflo (rd : Nat) : Nat :=
  toU32 ((OPCODE_SPECIAL <<< 26) ||| (rd <<< 11) ||| FUNCT_MFLO)

def enc_ld (rt : Nat) (offset : Int) : Nat :=
  toU32 ((OPCODE_LD <<< 26) ||| (29 <<< 21) ||| (rt <<< 16) ||| low16 offset)

def enc_sd (rt : Nat) (offset : Int) : Nat :=
  toU32 ((OPCODE_SD <<< 26) ||| (29 <<< 21) ||| (rt <<< 16) ||| low16 offset)

def asm_daddiu (rt rs : Nat) (imm : Int) : List Char :=
  "DADDIU r".toList ++ fmt_nat rt ++ ", r".toList ++ fmt_nat rs ++ ", ".toList ++ fmt_d imm

def asm_daddu (rd rs rt : Nat) : List Char :=
  "DADDU r".toList ++ fmt_nat rd ++ ", r".toList ++ fmt_nat rs ++ ", r".toList ++ fmt_nat rt

def asm_dsubu (rd rs rt : Nat) : List Char :=
  "DSUBU r".toList ++ fmt_nat rd ++ ", r".toList ++ fmt_nat rs ++ ", r".toList ++ fmt_nat rt

def asm_dmult (rs rt : Nat) : List Char :=
  "DMULT r".toList ++ fmt_nat rs ++ ", r".toList ++ fmt_nat rt

def asm_ddiv (rs rt : Nat) : List Char :=
  "DDIV r".toList ++ fmt_nat rs ++ ", r".toList ++ fmt_nat rt

def asm_mflo (rd : Nat) : List Char := "MFLO r".toList ++ fmt_nat rd

def asm_ld (rt : Nat) (var_name : List Char) : List Char :=
  "LD r".toList ++ fmt_nat rt ++ ", ".toList ++ var_name ++ "(r29)".toList

def asm_sd (rt : Nat) (var_name : List Char) : List Char :=
  "SD r".toList ++ fmt_nat rt ++ ", ".toList ++ var_name ++ "(r29)".toList

def emit_daddiu (s : State) (rt rs : Nat) (imm : Int) : State :=
  emit_instr s (asm_daddiu rt rs imm) (enc_daddiu rt rs imm)

def emit_daddu (s : State) (rd rs rt : Nat) : State :=
  emit_instr s (asm_daddu rd rs rt) (enc_daddu rd rs rt)

def emit_dsubu (s : State) (rd rs rt : Nat) : State :=
  emit_instr s (asm_dsubu rd rs rt) (enc_dsubu rd rs rt)

def emit_dmult (s : State) (rs rt rd : Nat) : State :=
  emit_instr (emit_instr s (asm_dmult rs rt) (enc_dmult rs rt)) (asm_mflo rd) (enc_mflo rd)

def emit_ddiv (s : State) (rs rt rd : Nat) : State :=
  emit_instr (emit_instr s (asm_ddiv rs rt) (enc_ddiv rs rt)) (asm_mflo rd) (enc_mflo rd)

def emit_ld (s : State) (rt : Nat) (var_name : List Char) (offset : Int) : State :=
  emit_instr s (asm_ld rt var_name) (enc_ld rt offset)

def emit_sd (s : State) (rt : Nat) (var_name : List Char) (offset : Int) : State :=
  emit_instr s (asm_sd rt var_name) (enc_sd rt offset)

/-! ## Variable management -/

/-- The source's `get_variable`: the first record whose name is `name`, if any. -/
def get_variable (s : State) (name : List Char) : Option Variable :=
  s.vars.find? fun v => v.name = name

/-- The source's `declare_variable`: a known name changes nothing, a new name gets the
next offset and the value `0`. The source writes the record at `variables[var_count]`
without a test against `MAX_VARS` and copies the name without a test against the 32
bytes of `Variable.name`; this is the call with a free record and a name that fits. -/
def declare_variable (s : State) (name : List Char) : State :=
  match get_variable s name with
  | some _ => s
  | none =>
    { s with
      vars := s.vars ++
        [{ name := name, value := 0, mem_offset := s.next_mem_offset, is_declared := true }],
      next_mem_offset := s.next_mem_offset + 8 }

/-! ## Infix to RPN (shunting yard) -/

/-- The source's `get_precedence`. -/
def get_precedence (op : TokenType) : Nat :=
  if op = TOK_PLUS ∨ op = TOK_MINUS then 1
  else if op = TOK_MULT ∨ op = TOK_DIV then 2
  else 0

/-- Inner loop of the `TOK_RPAREN` branch: operators move from the top of the operator
stack (head of the list) to the output until the stack is empty or a `TOK_LPAREN` is on
top. -/
def pop_to_lparen : List Token → List Token → List Token × List Token
  | [], out => ([], out)
  | t :: ops, out =>
    if t.type ≠ TOK_LPAREN then pop_to_lparen ops (out ++ [t]) else (t :: ops, out)

/-- Inner loop of the operator branch: operators of precedence at least that of `tok`
move to the output, stopping at a `TOK_LPAREN`. -/
def pop_higher (tok : Token) : List Token → List Token → List Token × List Token
  | [], out => ([], out)
  | t :: ops, out =>
    if t.type ≠ TOK_LPAREN ∧ get_precedence t.type ≥ get_precedence tok.type then
      pop_higher tok ops (out ++ [t])
    else (t :: ops, out)

/-- Body of the main loop of `convert_to_rpn` on the pair (operator stack, output). -/
def rpn_step (st : List Token × List Token) (tok : Token) : List Token × List Token :=
  if tok.type = TOK_NUMBER ∨ tok.type = TOK_VARIABLE then (st.1, st.2 ++ [tok])
  else if tok.type = TOK_LPAREN then (tok :: st.1, st.2)
  else if tok.type = TOK_RPAREN then
    let r := pop_to_lparen st.1 st.2
    (r.1.tail, r.2)
  else if tok.type = TOK_PLUS ∨ tok.type = TOK_MINUS ∨
          tok.type = TOK_MULT ∨ tok.type = TOK_DIV then
    let r := pop_higher tok st.1 st.2
    (tok :: r.1, r.2)
  else st

/-- Final loop of `convert_to_rpn`: everything left on the operator stack moves to the
output, top first. -/
def pop_all : List Token → List Token → List Token
  | [], out => out
  | t :: ops, out => pop_all ops (out ++ [t])

/-- The conversion on a token list: main loop from the empty stack and output, then the
final loop. -/
def rpn_of (toks : List Token) : List Token :=
  let r := toks.foldl rpn_step ([], [])
  pop_all r.1 r.2

/-- The source's `convert_to_rpn`: reads `tokens[0 .. token_count)`, writes `rpn_queue`. -/
def convert_to_rpn (s : State) : State :=
  { s with rpn_queue := rpn_of (s.tokens.take s.token_count) }

/-! ## Character classes (`<ctype.h>`, "C" locale) -/

def isspace (c : Char) : Bool :=
  c = ' ' || c = '\t' || c = '\n' || c = '\x0b' || c = '\x0c' || c = '\r'

def isdigit (c : Char) : Bool := decide ('0' ≤ c ∧ c ≤ '9')

def isalpha (c : Char) : Bool := decide (('a' ≤ c ∧ c ≤ 'z') ∨ ('A' ≤ c ∧ c ≤ 'Z'))

def isalnum (c : Char) : Bool := isalpha c || isdigit c

/-- Value of a run of decimal digits. -/
def digitsVal (ds : List Char) : Nat :=
  ds.foldl (fun acc c => 10 * acc + (c.toNat - '0'.toNat)) 0

/-- The library function `atoll` as `strtoll(..., 10)` computes it: leading white space,
an optional sign, the longest run of digits; a value outside `int64_t` is clamped to the
nearest bound. -/
def atoll (str : List Char) : Int :=
  match str.dropWhile isspace with
  | '-' :: ds => max INT64_MIN (-(digitsVal (ds.takeWhile isdigit) : Int))
  | '+' :: ds => min INT64_MAX (digitsVal (ds.takeWhile isdigit) : Int)
  | ds => min INT64_MAX (digitsVal (ds.takeWhile isdigit) : Int)

/-! ## Tokenizer -/

/-- Characters that continue an identifier: `isalnum(c) || c == '_'`. -/
def isIdentChar (c : Char) : Bool := isalnum c || c = '_'

/-- Token of a one-character operator or parenthesis in a slot that held nothing
before. -/
def opToken (ty : TokenType) (c : Char) : Token := { type := ty, str := [c], num_value := 0 }

/-- The content of a slot of the zero-initialised global array `tokens` that was never
written: type 0, the empty text, value 0. -/
def zeroToken : Token := { type := TOK_NUMBER, str := [], num_value := 0 }

/-- The content of `tokens[i]` before a call of the tokenizer, `old` being the part of
the array written by earlier calls. -/
def slot (old : List Token) (i : Nat) : Token := old.getD i zeroToken

/-- The test `i+1 < len && isdigit(expr[i+1])` on the text after a `-`. -/
def starts_with_digit (rest : List Char) : Bool :=
  match rest with
  | d :: _ => isdigit d
  | [] => false

/-- One iteration of the loop of `tokenize_expression` at the character `c` that follows
the white space, with `rest` after it and `cur` the content of `tokens[token_count]`
before the iteration: the token written there, if any, the text that is left to read, and
the number of calls of `report_error`. A number assigns type, text and value; an
identifier, operator or parenthesis assigns type and text and leaves the value the slot
held; an unknown character writes nothing. -/
def scan_token (cur : Token) (c : Char) (rest : List Char) : Option Token × List Char × Nat :=
  if isdigit c || (c = '-' && starts_with_digit rest) then
    let body := if c = '-' then rest else c :: rest
    let text := if c = '-' then '-' :: body.takeWhile isdigit else body.takeWhile isdigit
    (some { type := TOK_NUMBER, str := text, num_value := atoll text },
      body.dropWhile isdigit, 0)
  else if isalpha c || c = '_' then
    (some { cur with type := TOK_VARIABLE, str := (c :: rest).takeWhile isIdentChar },
      (c :: rest).dropWhile isIdentChar, 0)
  else if c = '+' then (some { cur with type := TOK_PLUS, str := ['+'] }, rest, 0)
  else if c = '-' then (some { cur with type := TOK_MINUS, str := ['-'] }, rest, 0)
  else if c = '*' then (some { cur with type := TOK_MULT, str := ['*'] }, rest, 0)
  else if c = '/' then (some { cur with type := TOK_DIV, str := ['/'] }, rest, 0)
  else if c = '(' then (some { cur with type := TOK_LPAREN, str := ['('] }, rest, 0)
  else if c = ')' then (some { cur with type := TOK_RPAREN, str := [')'] }, rest, 0)
  else (none, rest, 1)

/-- Main loop of `tokenize_expression` on the text that is still to be read, `i` being
`token_count` and `old` the content of the array `tokens` before the call. The result is
the list of tokens written to `tokens[i ..]` and the number of calls of `report_error`.
Every iteration that does not stop reads at least one character, so a fuel equal to the
length of the text is never exhausted. -/
def tokenize_loop (old : List Token) : Nat → Nat → List Char → List Token × Nat
  | 0, _, _ => ([], 0)
  | fuel + 1, i, cs =>
    match cs.dropWhile isspace with
    | [] => ([], 0)
    | c :: rest =>
      let r := scan_token (slot old i) c rest
      let next := tokenize_loop old fuel (i + r.1.toList.length) r.2.1
      (r.1.toList ++ next.1, next.2 + r.2.2)

/-- The sentinel written at `tokens[token_count]` in a slot that held nothing before. -/
def endToken : Token := { type := TOK_END, str := [], num_value := 0 }

/-- The array `tokens` after a call of the tokenizer that wrote `toks` over the content
`old`: the tokens, then the slot behind them, which gets the type `TOK_END` and keeps its
text and value, then the old content of the slots after it. -/
def tokens_after (old toks : List Token) : List Token :=
  toks ++ { slot old toks.length with type := TOK_END } :: old.drop (toks.length + 1)

/-- The source's `tokenize_expression`: the slots `tokens[0 .. token_count)` hold the
tokens, the slot `tokens[token_count]` is the sentinel, and the error tally grows by one
for every unknown character. -/
def tokenize_expression (s : State) (expr : List Char) : State :=
  let r := tokenize_loop s.tokens expr.length 0 expr
  { s with
    tokens := tokens_after s.tokens r.1,
    token_count := r.1.length,
    error_count := s.error_count + r.2 }

/-! ## Expression evaluation with code generation -/

/-- Result of `evaluate_rpn`: the returned register, the content of `*result_value`
after the call, and the globals after the call. -/
structure EvalResult where
  reg : Nat
  result_value : Int
  state : State
deriving DecidableEq, Repr

/-- The three error exits of `evaluate_rpn`: `report_error(...)` and
`return temp_reg_counter++`, with `*result_value` untouched. -/
def eval_fail (s : State) (result_value : Int) : EvalResult :=
  { reg := s.temp_reg_counter, result_value := result_value,
    state := { report_error s with temp_reg_counter := s.temp_reg_counter + 1 } }

/-- Folded value of a binary operator on `int64_t` operands. Signed overflow, which C
leaves undefined, wraps; this includes the one overflowing quotient, of the least value by
-1. Division truncates toward zero and a zero divisor gives 0. -/
def fold_op (ty : TokenType) (left_val right_val : Int) : Int :=
  if ty = TOK_PLUS then wrap64 (left_val + right_val)
  else if ty = TOK_MINUS then wrap64 (left_val - right_val)
  else if ty = TOK_MULT then wrap64 (left_val * right_val)
  else if ty = TOK_DIV then (if right_val ≠ 0 then wrap64 (Int.tdiv left_val right_val) else 0)
  else 0

/-- Code of a binary operator into `result_reg`. -/
def emit_op (s : State) (ty : TokenType) (result_reg left_reg right_reg : Nat) : State :=
  if ty = TOK_PLUS then emit_daddu s result_reg left_reg right_reg
  else if ty = TOK_MINUS then emit_dsubu s result_reg left_reg right_reg
  else if ty = TOK_MULT then emit_dmult s left_reg right_reg result_reg
  else if ty = TOK_DIV then emit_ddiv s left_reg right_reg result_reg
  else s

/-- The read `val_stack[stack_count-1]` of the operator branch, made after both operands
were popped: the value in the slot below the left operand, or, when the two operands were
alone on the stack, the content `stray i` of the memory in front of the array. -/
def read_below (stray : Nat → Int) (i : Nat) (below : List (Nat × Int)) : Int :=
  match below with
  | under :: _ => under.2
  | [] => stray i

/-- One iteration of the main loop of `evaluate_rpn` at loop index `i`: the new stack
and globals, or `none` when the iteration takes an error exit. The two arrays `reg_stack`
and `val_stack` move in lockstep and are one list of pairs, top of the stack first. In the
operator branch the source decrements `stack_count` twice and then reads
`val_stack[stack_count]` as the right value and `val_stack[stack_count-1]` as the left
value: these are the slot of the left operand and the slot below it (`read_below`). A
token of another type (a parenthesis left over by the conversion) matches no branch. -/
def eval_step (stray : Nat → Int) (tok : Token) (i : Nat) (stack : List (Nat × Int))
    (s : State) : Option (List (Nat × Int) × State) :=
  if tok.type = TOK_NUMBER then
    let reg := s.temp_reg_counter
    let s1 := emit_daddiu { s with temp_reg_counter := reg + 1 } reg 0 (wrap32 tok.num_value)
    some ((reg, tok.num_value) :: stack, s1)
  else if tok.type = TOK_VARIABLE then
    match get_variable s tok.str with
    | none => none
    | some var =>
      let reg := s.temp_reg_counter
      let s1 := emit_ld { s with temp_reg_counter := reg + 1 } reg tok.str var.mem_offset
      some ((reg, var.value) :: stack, s1)
  else if tok.type = TOK_PLUS ∨ tok.type = TOK_MINUS ∨
          tok.type = TOK_MULT ∨ tok.type = TOK_DIV then
    match stack with
    | right :: left :: below =>
      let right_reg := right.1
      let left_reg := left.1
      let right_val := left.2
      let left_val := read_below stray i below
      let result_reg := s.temp_reg_counter
      let s1 := emit_op { s with temp_reg_counter := result_reg + 1 } tok.type
                  result_reg left_reg right_reg
      some ((result_reg, fold_op tok.type left_val right_val) :: below, s1)
    | _ => none
  else some (stack, s)

/-- The end of `evaluate_rpn`: with exactly one value on the stack it is written to
`*result_value` and its register is returned, otherwise the error exit is taken. -/
def eval_finish (stack : List (Nat × Int)) (s : State) (result_value : Int) : EvalResult :=
  match stack with
  | [top] => { reg := top.1, result_value := top.2, state := s }
  | _ => eval_fail s result_value

/-- Main loop of `evaluate_rpn` from loop index `i` on the tokens `rpn_queue[i ..]`,
followed by the end of the function. -/
def eval_loop (stray : Nat → Int) :
    List Token → Nat → List (Nat × Int) → State → Int → EvalResult
  | [], _, stack, s, result_value => eval_finish stack s result_value
  | tok :: rest, i, stack, s, result_value =>
    match eval_step stray tok i stack s with
    | none => eval_fail s result_value
    | some next => eval_loop stray rest (i + 1) next.1 next.2 result_value

/-- The source's `evaluate_rpn(&result_value)`: `result_value` is the content of the
caller's variable before the call. -/
def evaluate_rpn (stray : Nat → Int) (s : State) (result_value : Int) : EvalResult :=
  eval_loop stray s.rpn_queue 0 [] s result_value

/-! ## Statement processing -/

/-- The assignment `var->value = v` on the record `get_variable` returns for `name`. -/
def set_value : List Variable → List Char → Int → List Variable
  | [], _, _ => []
  | x :: xs, name, v =>
    if x.name = name then { x with value := v } :: xs else x :: set_value xs name v

/-- The target name of a declaration: the characters of the text after `int ` up to
the first `=`, the first white space or 31 characters, whichever comes first. -/
def extract_name (stmt : List Char) : List Char :=
  ((stmt.takeWhile fun c => c ≠ '=').takeWhile fun c => !isspace c).take 31

/-- The right-hand side of a declaration: the text after the first `=`, leading white
space skipped. -/
def extract_expr (stmt : List Char) : List Char :=
  ((stmt.dropWhile fun c => c ≠ '=').drop 1).dropWhile isspace

/-- The test `!isalpha(name[0]) && name[0] != '_'` on the extracted name; the empty name
has the terminating NUL as `name[0]` and is rejected. -/
def name_rejected (name : List Char) : Bool :=
  match name with
  | c :: _ => !isalpha c && c ≠ '_'
  | [] => true

/-- The sequence both branches of `process_statement` run on an expression text:
`tokenize_expression`, `convert_to_rpn`, a result variable initialised to 0,
`temp_reg_counter = 1`, `evaluate_rpn`. -/
def compile_expr (stray : Nat → Int) (s : State) (expr : List Char) : EvalResult :=
  evaluate_rpn stray { convert_to_rpn (tokenize_expression s expr) with temp_reg_counter := 1 } 0

/-- The end of the declaration branch of `process_statement` (under `// Store result`):
the folded value is stored in the record of `name`, the result register is moved to
register 3 unless it is 3, and register 3 is stored at the offset of the variable. -/
def store_result (r : EvalResult) (name : List Char) : State :=
  match get_variable r.state name with
  | some var =>
    let s3 := { r.state with vars := set_value r.state.vars name r.result_value }
    let s4 := if r.reg ≠ 3 then emit_daddu s3 3 r.reg 0 else s3
    emit_sd s4 3 name var.mem_offset
  | none => r.state

/-- The source's `process_statement`. -/
def process_statement (stray : Nat → Int) (s : State) (stmt : List Char) : State :=
  let stmt := stmt.dropWhile isspace
  if stmt = [] then s
  else if stmt.take 4 ≠ "int ".toList then (compile_expr stray s stmt).state
  else
    let stmt := stmt.drop 4
    if '=' ∉ stmt then report_error s
    else
      let name := extract_name stmt
      if name_rejected name then report_error s
      else
        store_result (compile_expr stray (declare_variable s name) (extract_expr stmt)) name

/-- The statement loop of `main`: the statements are processed in order; statement
number `k` sees the stray memory `stray k`. -/
def process_all (stray : Nat → Nat → Int) : Nat → State → List (List Char) → State
  | _, s, [] => s
  | k, s, stmt :: rest => process_all stray (k + 1) (process_statement (stray k) s stmt) rest

/-! ## Expression trees (specification of the conversion) -/

/-- Derivation tree of the grammar `E ::= operand | E op E | ( E )`; the nodes carry
the tokens of the sequence. -/
inductive Expr where
  | operand (t : Token)
  | binop (op : Token) (l r : Expr)
  | paren (lp rp : Token) (e : Expr)
deriving DecidableEq, Repr

/-- The token sequence a tree derives, left to right. -/
def Expr.flatten : Expr → List Token
  | .operand t => [t]
  | .binop op l r => l.flatten ++ op :: r.flatten
  | .paren lp rp e => lp :: e.flatten ++ [rp]

/-- Post-order traversal: left subtree, right subtree, operator; parentheses vanish. -/
def Expr.postorder : Expr → List Token
  | .operand t => [t]
  | .binop op l r => l.postorder ++ r.postorder ++ [op]
  | .paren _ _ e => e.postorder

def isOperandType (ty : TokenType) : Bool := ty = TOK_NUMBER || ty = TOK_VARIABLE

def isBinopType (ty : TokenType) : Bool :=
  ty = TOK_PLUS || ty = TOK_MINUS || ty = TOK_MULT || ty = TOK_DIV

/-- Every node carries a token of the right kind. -/
def Expr.typed : Expr → Bool
  | .operand t => isOperandType t.type
  | .binop op l r => isBinopType op.type && l.typed && r.typed
  | .paren lp rp e => (lp.type = TOK_LPAREN) && (rp.type = TOK_RPAREN) && e.typed

/-- The usual binding strength of the binary operators: `*` and `/` bind tighter than
`+` and `-`. A token that is no operator has strength 0. -/
def binding : TokenType → Nat
  | .TOK_MULT => 2
  | .TOK_DIV => 2
  | .TOK_PLUS => 1
  | .TOK_MINUS => 1
  | _ => 0

/-- Binding strength of the root: that of the operator of a binary node, and more than
any operator for an operand or a parenthesised expression. -/
def Expr.level : Expr → Nat
  | .binop op _ _ => binding op.type
  | _ => 3

/-- The tree is the one the usual precedence and left associativity give to its own
token sequence: the left operand of an operator binds at least as tightly as the
operator, the right operand strictly tighter. -/
def Expr.precOK : Expr → Bool
  | .operand _ => true
  | .binop op l r =>
    decide (binding op.type ≤ l.level) && decide (binding op.type < r.level) &&
      l.precOK && r.precOK
  | .paren _ _ e => e.precOK

/-- Operators of the tree still on the operator stack after its tokens were read. -/
def Expr.pending : Expr → List Token
  | .binop op _ r => r.pending ++ [op]
  | _ => []

/-- Output written while the tokens of the tree were read. -/
def Expr.written : Expr → List Token
  | .operand t => [t]
  | .binop _ l r => l.postorder ++ r.written
  | .paren _ _ e => e.postorder

/-- The stack below does not interfere with a tree of level `n`: its top, if any, is
weaker than `n`. -/
def stackBelow (ops : List Token) (n : Nat) : Prop :=
  ∀ t, ops.head? = some t → binding t.type < n

/-- Appends `op r` to the right of a tree: the operator goes down the right spine of
`l` past every weaker operator. -/
def Expr.graft : Expr → Token → Expr → Expr
  | .binop op1 l1 r1, op, r =>
    if binding op1.type < binding op.type then .binop op1 l1 (Expr.graft r1 op r)
    else .binop op (.binop op1 l1 r1) r
  | l, op, r => .binop op l r

/-- Joins two trees with an operator between them; the left spine of `r` is re-attached
operator by operator when `r` does not bind tighter than `op`. -/
def Expr.attach (l : Expr) (op : Token) : Expr → Expr
  | .binop op2 l2 r2 =>
    if binding op.type < binding op2.type then l.graft op (.binop op2 l2 r2)
    else (Expr.attach l op l2).graft op2 r2
  | r => l.graft op r

/-- The parse tree that precedence and left associativity give to the token sequence of
a derivation tree. -/
def Expr.canon : Expr → Expr
  | .operand t => .operand t
  | .binop op l r => l.canon.attach op r.canon
  | .paren lp rp e => .paren lp rp e.canon

/-! ## Reading instruction records -/

/-- The mnemonic of a record: its assembly text up to the first blank. -/
def mnemonic (r : Instr) : List Char := r.assembly.takeWhile fun c => c ≠ ' '

/-- The mnemonics `evaluate_rpn` can emit. -/
def evalMnemonics : List (List Char) :=
  ["DADDIU".toList, "LD".toList, "DADDU".toList, "DSUBU".toList, "DMULT".toList,
    "DDIV".toList, "MFLO".toList]

/-- The part of the globals that `evaluate_rpn` never writes, and the shape of what it
adds: records with the mnemonics of the evaluator, and at most one error. -/
structure EvalFrame (s t : State) : Prop where
  vars : t.vars = s.vars
  next_mem_offset : t.next_mem_offset = s.next_mem_offset
  tokens : t.tokens = s.tokens
  token_count : t.token_count = s.token_count
  rpn_queue : t.rpn_queue = s.rpn_queue
  errors_ge : s.error_count ≤ t.error_count
  errors_le : t.error_count ≤ s.error_count + 1
  instrs : ∃ added, t.instrs = s.instrs ++ added ∧ ∀ x ∈ added, mnemonic x ∈ evalMnemonics


/-! ## Shapes of expression text -/

/-- An identifier: a letter or underscore followed by letters, digits and underscores. -/
def isIdentifier (v : List Char) : Bool :=
  match v with
  | c :: cs => (isalpha c || c = '_') && cs.all isIdentChar
  | [] => false

/-- A non-empty run of decimal digits. -/
def isDigits (d : List Char) : Bool := !d.isEmpty && d.all isdigit

/-! ## Fields of an instruction word -/

/-- Bits `hi` down to `lo` of the word `w`, as a number. -/
def field (w hi lo : Nat) : Nat := (w >>> lo) % 2 ^ (hi + 1 - lo)

/-- Layout of a register-format word: opcode in bits 31-26, `rs` in 25-21, `rt` in 20-16,
`rd` in 15-11, shift amount in 10-6, function code in 5-0. -/
def RFormat (w opcode rs rt rd shamt funct : Nat) : Prop :=
  w < 2 ^ 32 ∧ field w 31 26 = opcode ∧ field w 25 21 = rs ∧ field w 20 16 = rt ∧
    field w 15 11 = rd ∧ field w 10 6 = shamt ∧ field w 5 0 = funct

/-- Layout of an immediate-format word: opcode in bits 31-26, `rs` in 25-21, `rt` in
20-16, a 16-bit immediate in 15-0. -/
def IFormat (w opcode rs rt imm16 : Nat) : Prop :=
  w < 2 ^ 32 ∧ field w 31 26 = opcode ∧ field w 25 21 = rs ∧ field w 20 16 = rt ∧
    field w 15 0 = imm16

/-! ## Reading the two renderings of a word -/

/-- The number a string of binary digits denotes, most significant digit first. -/
def binValue (cs : List Char) : Nat :=
  cs.foldl (fun acc c => 2 * acc + (if c = '1' then 1 else 0)) 0

/-- The value of an uppercase hexadecimal digit. -/
def hexDigitValue (c : Char) : Nat :=
  if c.toNat ≤ '9'.toNat then c.toNat - '0'.toNat else c.toNat - 'A'.toNat + 10

/-- The number a string of hexadecimal digits denotes, most significant digit first. -/
def hexValue (cs : List Char) : Nat :=
  cs.foldl (fun acc c => 16 * acc + hexDigitValue c) 0

/-- One of the sixteen uppercase hexadecimal digits. -/
def isUpperHexDigit (c : Char) : Bool := "0123456789ABCDEF".toList.contains c

/-! ## The layout of the symbol table -/

/-- The names and offsets of the table, in declaration order. -/
def layout (s : State) : List (List Char × Int) := s.vars.map fun v => (v.name, v.mem_offset)

/-- Invariant of the symbol table: the names are pairwise distinct, the variable at
position `i` (counted from 0) has offset `8 * (i + 1)`, and the next offset to hand out is
`8 * (var_count + 1)`. -/
def TableInv (s : State) : Prop :=
  ((layout s).map Prod.fst).Nodup ∧
    (∀ (i : Nat) (p : List Char × Int), (layout s)[i]? = some p → p.2 = 8 * ((i : Int) + 1)) ∧
    s.next_mem_offset = 8 * ((s.var_count : Int) + 1)

/-- Every variable of `s` is still at its position in `t`, with its name and offset. -/
def OffsetsKept (s t : State) : Prop :=
  ∀ (i : Nat) (p : List Char × Int), (layout s)[i]? = some p → (layout t)[i]? = some p

/-- The tokens of the last expression fit the arrays of the source: with the END
sentinel they are at most `MAX_TOKENS`, and the text of each fits the 64 bytes of
`Token.str`. -/
def tokens_fit (s : State) : Prop :=
  s.token_count < MAX_TOKENS ∧
    ∀ t ∈ s.tokens.take s.token_count, t.str.length < TOKEN_STR_SIZE

instance (s : State) : Decidable (tokens_fit s) := by
  unfold tokens_fit
  infer_instance

/-! ## Statements and their targets -/

/-- The globals `evaluate_rpn` starts from when `process_statement` compiles the
expression text `expr` in the state `s`. -/
def eval_input (s : State) (expr : List Char) : State :=
  { convert_to_rpn (tokenize_expression s expr) with temp_reg_counter := 1 }

/-- The target of a statement: the extracted name when the statement starts with `int `,
contains `=` and its name passes the check, so that it is processed as a declaration;
`none` for every other statement. -/
def decl_target (stmt : List Char) : Option (List Char) :=
  if (stmt.dropWhile isspace).take 4 = "int ".toList ∧
      '=' ∈ (stmt.dropWhile isspace).drop 4 ∧
      name_rejected (extract_name ((stmt.dropWhile isspace).drop 4)) = false then
    some (extract_name ((stmt.dropWhile isspace).drop 4))
  else none

/-- The right-hand side text of a declaration statement. -/
def decl_expr (stmt : List Char) : List Char :=
  extract_expr ((stmt.dropWhile isspace).drop 4)

/-! ## Runs of the evaluation loop -/

/-- The main loop of `evaluate_rpn` on a run of tokens starting at loop index `i`,
without the end of the function: the stack and the globals after the run, or `none` when
one of the tokens takes an error exit. -/
def eval_steps (stray : Nat → Int) :
    List Token → Nat → List (Nat × Int) → State → Option (List (Nat × Int) × State)
  | [], _, stack, s => some (stack, s)
  | tok :: rest, i, stack, s =>
    match eval_step stray tok i stack s with
    | none => none
    | some next => eval_steps stray rest (i + 1) next.1 next.2

/-- A token that pushes a value when it is evaluated: a literal, a variable or a binary
operator. -/
def isValueType (ty : TokenType) : Bool := isOperandType ty || isBinopType ty

/-- Number of value-producing tokens of a sequence. -/
def valueCount (toks : List Token) : Nat := toks.countP fun t => isValueType t.type

/-- Stack discipline of a postfix sequence from a stack of `d` values: an operand adds
one value, an operator needs two values and leaves one; the result is the number of
values at the end, or `none` when an operator finds fewer than two. -/
def rpn_depth : List Token → Nat → Option Nat
  | [], d => some d
  | tok :: rest, d =>
    if isBinopType tok.type then (if 2 ≤ d then rpn_depth rest (d - 1) else none)
    else if isOperandType tok.type then rpn_depth rest (d + 1)
    else rpn_depth rest d

/-- Valid postfix: every operator finds two values and exactly one value remains. -/
def validRpn (toks : List Token) : Bool := rpn_depth toks 0 = some 1

/-! ## The records an evaluation is expected to append -/

/-- The records of a binary operator with destination `rd`, left operand in `rs` and
right operand in `rt`: one DADDU for PLUS, one DSUBU for MINUS, a DMULT then an MFLO for
MULT, a DDIV then an MFLO for DIV. -/
def op_records (ty : TokenType) (rd rs rt : Nat) : List Instr :=
  if ty = TOK_PLUS then [instr_record (asm_daddu rd rs rt) (enc_daddu rd rs rt)]
  else if ty = TOK_MINUS then [instr_record (asm_dsubu rd rs rt) (enc_dsubu rd rs rt)]
  else if ty = TOK_MULT then
    [instr_record (asm_dmult rs rt) (enc_dmult rs rt), instr_record (asm_mflo rd) (enc_mflo rd)]
  else if ty = TOK_DIV then
    [instr_record (asm_ddiv rs rt) (enc_ddiv rs rt), instr_record (asm_mflo rd) (enc_mflo rd)]
  else []

/-- The records of one postfix token when `c` is the next free register and `regs` are
the registers of the values on the stack, top first; with them the next free register and
the registers on the stack afterwards. One DADDIU per NUMBER, one LD per VARIABLE of the
table `vars`, the records of the operator on the two registers on top (the right
operand on top, the left one below it), nothing for a token of another type; `none` for
an unknown name or an operator on fewer than two values. -/
def token_records (vars : List Variable) (tok : Token) (c : Nat) (regs : List Nat) :
    Option (List Instr × Nat × List Nat) :=
  if tok.type = TOK_NUMBER then
    some ([instr_record (asm_daddiu c 0 (wrap32 tok.num_value))
        (enc_daddiu c 0 (wrap32 tok.num_value))], c + 1, c :: regs)
  else if tok.type = TOK_VARIABLE then
    match vars.find? fun v => v.name = tok.str with
    | some var =>
      some ([instr_record (asm_ld c tok.str) (enc_ld c var.mem_offset)], c + 1, c :: regs)
    | none => none
  else if isBinopType tok.type then
    match regs with
    | right :: left :: below => some (op_records tok.type c left right, c + 1, c :: below)
    | _ => none
  else some ([], c, regs)

/-- The records expected from a postfix sequence: the concatenation, over the tokens in
order, of the records of each token; the sequence ends at a token without records. -/
def expected_records (vars : List Variable) : List Token → Nat → List Nat → List Instr
  | [], _, _ => []
  | tok :: rest, c, regs =>
    match token_records vars tok c regs with
    | none => []
    | some out => out.1 ++ expected_records vars rest out.2.1 out.2.2

/-! ## The shapes of emitted instructions -/

/-- The instructions the emitters write, with the register numbers, immediate, name and
offset they are called with. -/
inductive Emitted where
  | daddiu (rt rs : Nat) (imm : Int)
  | daddu (rd rs rt : Nat)
  | dsubu (rd rs rt : Nat)
  | dmult (rs rt : Nat)
  | ddiv (rs rt : Nat)
  | mflo (rd : Nat)
  | ld (rt : Nat) (name : List Char) (offset : Int)
  | sd (rt : Nat) (name : List Char) (offset : Int)
deriving DecidableEq, Repr

/-- The assembly text of an emitted instruction. -/
def Emitted.text : Emitted → List Char
  | .daddiu rt rs imm => asm_daddiu rt rs imm
  | .daddu rd rs rt => asm_daddu rd rs rt
  | .dsubu rd rs rt => asm_dsubu rd rs rt
  | .dmult rs rt => asm_dmult rs rt
  | .ddiv rs rt => asm_ddiv rs rt
  | .mflo rd => asm_mflo rd
  | .ld rt name _ => asm_ld rt name
  | .sd rt name _ => asm_sd rt name

/-- The encoded word of an emitted instruction. -/
def Emitted.word : Emitted → Nat
  | .daddiu rt rs imm => enc_daddiu rt rs imm
  | .daddu rd rs rt => enc_daddu rd rs rt
  | .dsubu rd rs rt => enc_dsubu rd rs rt
  | .dmult rs rt => enc_dmult rs rt
  | .ddiv rs rt => enc_ddiv rs rt
  | .mflo rd => enc_mflo rd
  | .ld rt _ offset => enc_ld rt offset
  | .sd rt _ offset => enc_sd rt offset

/-- The record `emit_instr` writes for an emitted instruction. -/
def Emitted.record (e : Emitted) : Instr := instr_record e.text e.word

/-- The register numbers printed in the assembly text, the base register 29 of a load
or store included. -/
def Emitted.regs : Emitted → List Nat
  | .daddiu rt rs _ => [rt, rs]
  | .daddu rd rs rt => [rd, rs, rt]
  | .dsubu rd rs rt => [rd, rs, rt]
  | .dmult rs rt => [rs, rt]
  | .ddiv rs rt => [rs, rt]
  | .mflo rd => [rd]
  | .ld rt _ _ => [rt, 29]
  | .sd rt _ _ => [rt, 29]

/-- The opcode field of the word is the opcode of the mnemonic (0x19 for DADDIU, 0x37 for
LD, 0x3F for SD, 0 for DADDU, DSUBU, DMULT, DDIV and MFLO) and the `rs`, `rt` and `rd`
fields are the register numbers printed in the assembly text. -/
def Emitted.fieldsMatch : Emitted → Prop
  | .daddiu rt rs imm =>
    field (enc_daddiu rt rs imm) 31 26 = 0x19 ∧ field (enc_daddiu rt rs imm) 25 21 = rs ∧
      field (enc_daddiu rt rs imm) 20 16 = rt
  | .daddu rd rs rt =>
    field (enc_daddu rd rs rt) 31 26 = 0 ∧ field (enc_daddu rd rs rt) 25 21 = rs ∧
      field (enc_daddu rd rs rt) 20 16 = rt ∧ field (enc_daddu rd rs rt) 15 11 = rd
  | .dsubu rd rs rt =>
    field (enc_dsubu rd rs rt) 31 26 = 0 ∧ field (enc_dsubu rd rs rt) 25 21 = rs ∧
      field (enc_dsubu rd rs rt) 20 16 = rt ∧ field (enc_dsubu rd rs rt) 15 11 = rd
  | .dmult rs rt =>
    field (enc_dmult rs rt) 31 26 = 0 ∧ field (enc_dmult rs rt) 25 21 = rs ∧
      field (enc_dmult rs rt) 20 16 = rt
  | .ddiv rs rt =>
    field (enc_ddiv rs rt) 31 26 = 0 ∧ field (enc_ddiv rs rt) 25 21 = rs ∧
      field (enc_ddiv rs rt) 20 16 = rt
  | .mflo rd => field (enc_mflo rd) 31 26 = 0 ∧ field (enc_mflo rd) 15 11 = rd
  | .ld rt _ offset =>
    field (enc_ld rt offset) 31 26 = 0x37 ∧ field (enc_ld rt offset) 25 21 = 29 ∧
      field (enc_ld rt offset) 20 16 = rt
  | .sd rt _ offset =>
    field (enc_sd rt offset) 31 26 = 0x3F ∧ field (enc_sd rt offset) 25 21 = 29 ∧
      field (enc_sd rt offset) 20 16 = rt

/-- The right operand of an addition is in a register numbered `lo` or higher; nothing
is asked of another instruction. -/
def Emitted.rtFrom (lo : Nat) : Emitted → Prop
  | .daddu _ _ rt => lo ≤ rt
  | _ => True

/-- From `s` to `t` the instruction list grows by records of emitted instructions whose
printed registers are all below `b` and whose additions take their right operand from a
register numbered `lo` or higher. -/
def EmitsBelow (lo b : Nat) (s t : State) : Prop :=
  ∃ shapes : List Emitted, t.instrs = s.instrs ++ shapes.map Emitted.record ∧
    ∀ sh ∈ shapes, (∀ r ∈ sh.regs, r < b) ∧ sh.rtFrom lo

/-! ## Tokens kept by the conversion -/

/-- The tokens that carry an operand or a binary operator. -/
def isKept (t : Token) : Bool := isOperandType t.type || isBinopType t.type

/-- The number of opening parentheses that are still open after the tokens: an opening
parenthesis opens one, a closing parenthesis closes the last one that is open, if any. -/
def open_parens (toks : List Token) : Nat :=
  toks.foldl
    (fun d t => if t.type = TOK_LPAREN then d + 1 else if t.type = TOK_RPAREN then d - 1 else d) 0

/-- What the main loop of the conversion maintains after the tokens `pre`: the output
holds operands and operators only, the operator stack operators and opening parentheses
only, together they hold the operands and operators read so far, the operands in the
order read, and the stack holds one opening parenthesis for each one that is still
open. -/
structure ConvInv (pre : List Token) (st : List Token × List Token) : Prop where
  out_kept : ∀ t ∈ st.2, isKept t = true
  ops_kind : ∀ t ∈ st.1, t.type = TOK_LPAREN ∨ isBinopType t.type = true
  perm : ((st.2 ++ st.1).filter isKept).Perm (pre.filter isKept)
  operands : st.2.filter (fun t => isOperandType t.type) =
    pre.filter (fun t => isOperandType t.type)
  parens : st.1.countP (fun t => t.type = TOK_LPAREN) = open_parens pre

/-! ## Unknown characters of an expression text -/

/-- A character that is neither white space, nor part of a number or identifier, nor one
of `+ - * / ( )`. -/
def isUnknown (c : Char) : Bool :=
  !isspace c && !isdigit c && !isalpha c && c ≠ '_' && c ≠ '+' && c ≠ '-' && c ≠ '*' &&
    c ≠ '/' && c ≠ '(' && c ≠ ')'

/-- A space for an unknown character, the character itself otherwise. -/
def blank_char (c : Char) : Char := if isUnknown c then ' ' else c

/-- The text with each unknown character replaced by a space. -/
def blank_unknown (cs : List Char) : List Char := cs.map blank_char

/-! ## Reading the assembly text of a record

The MIPS64 reading of an instruction text, written from the instruction set and not from
the emitters: the mnemonic is the text up to the first blank, the operands follow,
separated by a comma and a blank, a register is written `r` and its decimal number. The
operand order is the one of the assembler: `DADDU rd, rs, rt` and `DSUBU rd, rs, rt`,
`DADDIU rt, rs, immediate`, `DMULT rs, rt` and `DDIV rs, rt`, `MFLO rd`,
`LD rt, offset(base)` and `SD rt, offset(base)` with the base register as `rs`. -/

/-- The number a non-empty string of decimal digits denotes; `none` for another text. -/
def read_decimal (cs : List Char) : Option Nat :=
  if cs ≠ [] ∧ cs.all (fun c => decide (48 ≤ c.toNat ∧ c.toNat ≤ 57)) = true then
    some (cs.foldl (fun n c => 10 * n + (c.toNat - 48)) 0)
  else none

/-- The number of the register a text `r<digits>` names. -/
def read_reg : List Char → Option Nat
  | 'r' :: ds => read_decimal ds
  | _ => none

/-- The operands of an instruction text: what follows the first blank. -/
def operands (text : List Char) : List Char := (text.dropWhile fun c => c ≠ ' ').drop 1

/-- The first operand of a list of operands: the text up to the first comma. -/
def first_operand (ops : List Char) : List Char := ops.takeWhile fun c => c ≠ ','

/-- The operands after the first one: the text behind the first comma and its blank. -/
def after_operand (ops : List Char) : List Char := (ops.dropWhile fun c => c ≠ ',').drop 2

/-- The base register of a memory operand `offset(base)` that ends the text: what stands
between the last `(` and the closing `)`. -/
def base_operand (text : List Char) : List Char :=
  match text.reverse with
  | ')' :: r => (r.takeWhile fun c => c ≠ '(').reverse
  | _ => []

/-- What an instruction text says: its mnemonic and the numbers of the registers it
prints, each under the field of the word that holds it; `none` is a field for which the
instruction prints no register. -/
structure Reading where
  mnemonic : List Char
  rs : Option Nat
  rt : Option Nat
  rd : Option Nat
deriving DecidableEq, Repr

/-- The reading of an instruction text; `none` for a text that is not one of the eight
instructions with every register it must print. -/
def read_asm (text : List Char) : Option Reading :=
  let mn := text.takeWhile fun c => c ≠ ' '
  let o1 := read_reg (first_operand (operands text))
  let o2 := read_reg (first_operand (after_operand (operands text)))
  let o3 := read_reg (after_operand (after_operand (operands text)))
  if mn = "DADDU".toList ∨ mn = "DSUBU".toList then
    match o1, o2, o3 with
    | some rd, some rs, some rt => some { mnemonic := mn, rs := some rs, rt := some rt, rd := some rd }
    | _, _, _ => none
  else if mn = "DADDIU".toList then
    match o1, o2 with
    | some rt, some rs => some { mnemonic := mn, rs := some rs, rt := some rt, rd := none }
    | _, _ => none
  else if mn = "DMULT".toList ∨ mn = "DDIV".toList then
    match o1, o2 with
    | some rs, some rt => some { mnemonic := mn, rs := some rs, rt := some rt, rd := none }
    | _, _ => none
  else if mn = "MFLO".toList then
    match o1 with
    | some rd => some { mnemonic := mn, rs := none, rt := none, rd := some rd }
    | none => none
  else if mn = "LD".toList ∨ mn = "SD".toList then
    match o1, read_reg (base_operand text) with
    | some rt, some base => some { mnemonic := mn, rs := some base, rt := some rt, rd := none }
    | _, _ => none
  else none

/-- The opcode of a mnemonic in the MIPS64 instruction set: 0x19 for DADDIU, 0x37 for LD,
0x3F for SD, 0 (SPECIAL) for DADDU, DSUBU, DMULT, DDIV and MFLO. -/
def mips_opcode (mn : List Char) : Nat :=
  if mn = "DADDIU".toList then 0x19
  else if mn = "LD".toList then 0x37
  else if mn = "SD".toList then 0x3F
  else 0

/-- The field of bits `hi` down to `lo` of the word `w` holds the register number `r`
when the text prints one for it. -/
def field_holds (w hi lo : Nat) (r : Option Nat) : Bool :=
  match r with
  | some n => decide (field w hi lo = n)
  | none => true

/-- The word of a record agrees with its assembly text: the text reads as an
instruction, bits 31-26 of the word written in the binary string are the opcode of the
mnemonic, and the `rs` (25-21), `rt` (20-16) and `rd` (15-11) fields are the register
numbers the text prints. -/
def fields_agree (x : Instr) : Bool :=
  match read_asm x.assembly with
  | none => false
  | some r =>
    decide (field (binValue x.binary) 31 26 = mips_opcode r.mnemonic) &&
      field_holds (binValue x.binary) 25 21 r.rs &&
      field_holds (binValue x.binary) 20 16 r.rt &&
      field_holds (binValue x.binary) 15 11 r.rd

/-! ## The readings an evaluation is expected to produce -/

/-- The reading of a load of a literal into `rt`: DADDIU with the zero register as `rs`. -/
def reading_daddiu (rt : Nat) : Reading :=
  { mnemonic := "DADDIU".toList, rs := some 0, rt := some rt, rd := none }

/-- The reading of a load of a variable into `rt`: LD with the base register 29. -/
def reading_ld (rt : Nat) : Reading :=
  { mnemonic := "LD".toList, rs := some 29, rt := some rt, rd := none }

/-- The readings of a binary operator with destination `rd`, left operand in `left` and
right operand in `right`: one DADDU for PLUS, one DSUBU for MINUS, a DMULT then an MFLO
for MULT, a DDIV then an MFLO for DIV; `rs` is the left operand, `rt` the right one. -/
def op_readings (ty : TokenType) (rd left right : Nat) : List Reading :=
  match ty with
  | .TOK_PLUS =>
    [{ mnemonic := "DADDU".toList, rs := some left, rt := some right, rd := some rd }]
  | .TOK_MINUS =>
    [{ mnemonic := "DSUBU".toList, rs := some left, rt := some right, rd := some rd }]
  | .TOK_MULT =>
    [{ mnemonic := "DMULT".toList, rs := some left, rt := some right, rd := none },
     { mnemonic := "MFLO".toList, rs := none, rt := none, rd := some rd }]
  | .TOK_DIV =>
    [{ mnemonic := "DDIV".toList, rs := some left, rt := some right, rd := none },
     { mnemonic := "MFLO".toList, rs := none, rt := none, rd := some rd }]
  | _ => []

/-- The readings of one postfix token when `c` is the next free register and `regs` are
the registers of the values on the stack, top first; with them the next free register
and the registers on the stack afterwards: one DADDIU per NUMBER, one LD per VARIABLE
that is in the table `vars`, the readings of the operator on the two registers on top
(the right operand on top, the left one below it), nothing for a token of another type;
`none` for an unknown name or an operator on fewer than two values. -/
def token_readings (vars : List Variable) (tok : Token) (c : Nat) (regs : List Nat) :
    Option (List Reading × Nat × List Nat) :=
  match tok.type with
  | .TOK_NUMBER => some ([reading_daddiu c], c + 1, c :: regs)
  | .TOK_VARIABLE =>
    if vars.any (fun v => decide (v.name = tok.str)) then some ([reading_ld c], c + 1, c :: regs)
    else none
  | .TOK_PLUS | .TOK_MINUS | .TOK_MULT | .TOK_DIV =>
    match regs with
    | right :: left :: below => some (op_readings tok.type c left right, c + 1, c :: below)
    | _ => none
  | _ => some ([], c, regs)

/-- The readings expected from a postfix sequence: the concatenation, over the tokens in
order, of the readings of each token; the sequence ends at a token without readings. -/
def expected_readings (vars : List Variable) : List Token → Nat → List Nat → List Reading
  | [], _, _ => []
  | tok :: rest, c, regs =>
    match token_readings vars tok c regs with
    | none => []
    | some out => out.1 ++ expected_readings vars rest out.2.1 out.2.2

/-- The reading of an emitted instruction, from the numbers the emitter is called with. -/
def Emitted.reading : Emitted → Reading
  | .daddiu rt rs _ => { mnemonic := "DADDIU".toList, rs := some rs, rt := some rt, rd := none }
  | .daddu rd rs rt => { mnemonic := "DADDU".toList, rs := some rs, rt := some rt, rd := some rd }
  | .dsubu rd rs rt => { mnemonic := "DSUBU".toList, rs := some rs, rt := some rt, rd := some rd }
  | .dmult rs rt => { mnemonic := "DMULT".toList, rs := some rs, rt := some rt, rd := none }
  | .ddiv rs rt => { mnemonic := "DDIV".toList, rs := some rs, rt := some rt, rd := none }
  | .mflo rd => { mnemonic := "MFLO".toList, rs := none, rt := none, rd := some rd }
  | .ld rt _ _ => { mnemonic := "LD".toList, rs := some 29, rt := some rt, rd := none }
  | .sd rt _ _ => { mnemonic := "SD".toList, rs := some 29, rt := some rt, rd := none }

/-! # Theorems -/

/-! ## The conversion to RPN is the post-order traversal of the parse tree -/

theorem Expr.written_append_pending (e : Expr) : e.written ++ e.pending = e.postorder := by
  induction e with
  | operand t => rfl
  | binop op l r _ ihr => simp [Expr.written, Expr.pending, Expr.postorder, ← ihr]
  | paren lp rp e _ => simp [Expr.written, Expr.pending, Expr.postorder]

theorem pop_all_eq (ops out : List Token) : pop_all ops out = out ++ ops := by
  induction ops generalizing out with
  | nil => simp [pop_all]
  | cons t ops ih => simp [pop_all, ih]

theorem foldl_rpn_step_append (xs ys : List Token) (st : List Token × List Token) :
    (xs ++ ys).foldl rpn_step st = ys.foldl rpn_step (xs.foldl rpn_step st) := by
  simp

/-- The precedence table of the source is the usual one. -/
theorem get_precedence_eq_binding (ty : TokenType) : get_precedence ty = binding ty := by
  cases ty <;> simp [get_precedence, binding]

theorem binding_pos_of_binop {ty : TokenType} (h : isBinopType ty = true) :
    1 ≤ binding ty := by
  cases ty <;> simp_all [isBinopType, binding]

theorem binding_le_two (ty : TokenType) : binding ty ≤ 2 := by
  cases ty <;> simp [binding]

/-- Operators pending after a well-formed tree are binary operators at least as strong
as its root. -/
theorem Expr.pending_spec (e : Expr) (ht : e.typed = true) (hp : e.precOK = true) :
    ∀ t ∈ e.pending, isBinopType t.type = true ∧ e.level ≤ binding t.type := by
  induction e with
  | operand t => simp [Expr.pending]
  | paren lp rp e _ => simp [Expr.pending]
  | binop op l r _ ihr =>
    simp only [Expr.typed, Expr.precOK, Bool.and_eq_true, decide_eq_true_eq] at ht hp
    intro t htm
    simp only [Expr.pending, List.mem_append, List.mem_singleton] at htm
    rcases htm with h | h
    · have := ihr ht.2 hp.2 t h
      exact ⟨this.1, by simp only [Expr.level]; omega⟩
    · subst h
      exact ⟨ht.1.1, by simp [Expr.level]⟩

theorem pop_higher_pending (tok : Token) (pend ops out : List Token)
    (hpend : ∀ t ∈ pend, isBinopType t.type = true ∧ binding tok.type ≤ binding t.type)
    (hops : stackBelow ops (binding tok.type)) :
    pop_higher tok (pend ++ ops) out = (ops, out ++ pend) := by
  induction pend generalizing out with
  | nil =>
    cases ops with
    | nil => simp [pop_higher]
    | cons t ops =>
      have := hops t rfl
      simp only [List.nil_append, pop_higher, List.append_nil]
      rw [if_neg]
      rw [get_precedence_eq_binding, get_precedence_eq_binding]
      omega
  | cons p pend ih =>
    have hp := hpend p (List.mem_cons_self _ _)
    rw [List.cons_append, pop_higher, if_pos]
    · rw [ih _ (fun t ht => hpend t (List.mem_cons_of_mem _ ht))]
      simp
    · rw [get_precedence_eq_binding, get_precedence_eq_binding]
      refine ⟨?_, hp.2⟩
      intro h
      simp [h, isBinopType] at hp

theorem pop_to_lparen_pending (lp : Token) (hlp : lp.type = TOK_LPAREN)
    (pend ops out : List Token) (hpend : ∀ t ∈ pend, isBinopType t.type = true) :
    pop_to_lparen (pend ++ lp :: ops) out = (lp :: ops, out ++ pend) := by
  induction pend generalizing out with
  | nil => simp [pop_to_lparen, hlp]
  | cons p pend ih =>
    have hp := hpend p (List.mem_cons_self _ _)
    rw [List.cons_append, pop_to_lparen, if_pos]
    · rw [ih _ (fun t ht => hpend t (List.mem_cons_of_mem _ ht))]
      simp
    · intro h
      simp [h, isBinopType] at hp

/-- Reading the tokens of a well-formed tree on top of a stack that does not interfere
writes `written` to the output and leaves `pending` on the stack. -/
theorem foldl_rpn_step_flatten (e : Expr) (ht : e.typed = true) (hp : e.precOK = true) :
    ∀ ops out, stackBelow ops e.level →
      e.flatten.foldl rpn_step (ops, out) = (e.pending ++ ops, out ++ e.written) := by
  induction e with
  | operand t =>
    intro ops out _
    simp only [Expr.typed, isOperandType, Bool.or_eq_true, decide_eq_true_eq] at ht
    simp [Expr.flatten, rpn_step, ht, Expr.pending, Expr.written]
  | paren lp rp e ih =>
    intro ops out _
    simp only [Expr.typed, Bool.and_eq_true, decide_eq_true_eq] at ht
    simp only [Expr.precOK] at hp
    obtain ⟨⟨hl, hr⟩, hte⟩ := ht
    have hstep : rpn_step (ops, out) lp = (lp :: ops, out) := by simp [rpn_step, hl]
    have hbelow : stackBelow (lp :: ops) e.level := by
      intro t h
      simp only [List.head?_cons, Option.some.injEq] at h
      subst h
      have : 1 ≤ e.level ∨ True := Or.inr trivial
      cases e <;> simp [Expr.level, hl, binding]
      all_goals simp only [Expr.typed, Bool.and_eq_true] at hte
      exact binding_pos_of_binop hte.1.1
    simp only [Expr.flatten, List.foldl_cons, List.foldl_append, List.foldl_nil, hstep,
      ih hte hp _ _ hbelow]
    have hpend := fun t h => (Expr.pending_spec e hte hp t h).1
    simp [rpn_step, hr, pop_to_lparen_pending lp hl _ _ _ hpend, Expr.pending, Expr.written,
      ← Expr.written_append_pending e]
  | binop op l r ihl ihr =>
    intro ops out hbelow
    simp only [Expr.typed, Expr.precOK, Bool.and_eq_true, decide_eq_true_eq] at ht hp
    obtain ⟨⟨hop, htl⟩, htr⟩ := ht
    obtain ⟨⟨⟨hll, hlr⟩, hpl⟩, hpr⟩ := hp
    have hbl : stackBelow ops l.level := fun t h => by
      have := hbelow t h
      simp only [Expr.level] at this
      omega
    have hops : stackBelow ops (binding op.type) := fun t h => by
      simpa [Expr.level] using hbelow t h
    have hpendl : ∀ t ∈ l.pending,
        isBinopType t.type = true ∧ binding op.type ≤ binding t.type := by
      intro t h
      have := Expr.pending_spec l htl hpl t h
      exact ⟨this.1, by omega⟩
    have hstep : rpn_step (l.pending ++ ops, out ++ l.written) op
        = (op :: ops, out ++ l.postorder) := by
      have h1 : ¬ (op.type = TOK_NUMBER ∨ op.type = TOK_VARIABLE) := by
        intro h; rcases h with h | h <;> simp [h, isBinopType] at hop
      have h2 : op.type ≠ TOK_LPAREN := by intro h; simp [h, isBinopType] at hop
      have h3 : op.type ≠ TOK_RPAREN := by intro h; simp [h, isBinopType] at hop
      have h4 : op.type = TOK_PLUS ∨ op.type = TOK_MINUS ∨ op.type = TOK_MULT ∨
          op.type = TOK_DIV := by
        simpa [isBinopType, or_assoc] using hop
      simp only [rpn_step, if_neg h1, if_neg h2, if_neg h3, if_pos h4,
        pop_higher_pending op _ _ _ hpendl hops, List.append_assoc,
        Expr.written_append_pending]
    have hbr : stackBelow (op :: ops) r.level := by
      intro t h
      simp only [List.head?_cons, Option.some.injEq] at h
      subst h
      exact hlr
    simp only [Expr.flatten, List.foldl_append, List.foldl_cons, ihl htl hpl _ _ hbl, hstep,
      ihr htr hpr _ _ hbr]
    simp [Expr.pending, Expr.written]

theorem rpn_of_flatten (e : Expr) (ht : e.typed = true) (hp : e.precOK = true) :
    rpn_of e.flatten = e.postorder := by
  have h := foldl_rpn_step_flatten e ht hp [] [] (by intro t h; simp at h)
  simp [rpn_of, h, pop_all_eq, Expr.written_append_pending]

theorem Expr.level_pos (e : Expr) (ht : e.typed = true) : 1 ≤ e.level := by
  cases e with
  | binop op l r =>
    simp only [Expr.typed, Bool.and_eq_true] at ht
    exact binding_pos_of_binop ht.1.1
  | _ => simp [Expr.level]

theorem Expr.flatten_graft (l : Expr) (op : Token) (r : Expr) :
    (l.graft op r).flatten = l.flatten ++ op :: r.flatten := by
  induction l with
  | binop op1 l1 r1 _ ih2 =>
    simp only [Expr.graft]
    split <;> simp [Expr.flatten, ih2]
  | _ => simp [Expr.graft, Expr.flatten]

theorem Expr.typed_graft (l : Expr) (op : Token) (r : Expr) (hl : l.typed = true)
    (hop : isBinopType op.type = true) (hr : r.typed = true) :
    (l.graft op r).typed = true := by
  induction l with
  | binop op1 l1 r1 _ ih2 =>
    simp only [Expr.typed, Bool.and_eq_true] at hl
    simp only [Expr.graft]
    split <;> simp [Expr.typed, hl, hop, hr, ih2]
  | _ => simp_all [Expr.graft, Expr.typed]

theorem Expr.level_graft (l : Expr) (op : Token) (r : Expr) :
    min l.level (binding op.type) ≤ (l.graft op r).level := by
  cases l with
  | binop op1 l1 r1 =>
    simp only [Expr.graft]
    split <;> simp [Expr.level]
  | _ => simp [Expr.graft, Expr.level]

theorem Expr.precOK_binop (op : Token) (l r : Expr) :
    ((Expr.binop op l r).precOK = true) ↔
      (binding op.type ≤ l.level ∧ binding op.type < r.level ∧
        l.precOK = true ∧ r.precOK = true) := by
  simp [Expr.precOK, and_assoc]

theorem Expr.precOK_graft (l : Expr) (op : Token) (r : Expr) (hl : l.precOK = true)
    (hr : r.precOK = true) (hlt : binding op.type < r.level) :
    (l.graft op r).precOK = true := by
  induction l with
  | binop op1 l1 r1 _ ih2 =>
    have hl1 := (Expr.precOK_binop op1 l1 r1).1 hl
    simp only [Expr.graft]
    split
    · rename_i h
      have := Expr.level_graft r1 op r
      rw [Expr.precOK_binop]
      exact ⟨hl1.1, by omega, hl1.2.2.1, ih2 hl1.2.2.2⟩
    · rename_i h
      rw [Expr.precOK_binop]
      exact ⟨by simp only [Expr.level]; omega, hlt, hl, hr⟩
  | operand t =>
    have := binding_le_two op.type
    simp only [Expr.graft]
    rw [Expr.precOK_binop]
    exact ⟨by simp only [Expr.level]; omega, hlt, hl, hr⟩
  | paren lp rp e _ =>
    have := binding_le_two op.type
    simp only [Expr.graft]
    rw [Expr.precOK_binop]
    exact ⟨by simp only [Expr.level]; omega, hlt, hl, hr⟩

theorem Expr.flatten_attach (l : Expr) (op : Token) (r : Expr) :
    (l.attach op r).flatten = l.flatten ++ op :: r.flatten := by
  induction r with
  | binop op2 l2 r2 ih1 _ =>
    simp only [Expr.attach]
    split <;> simp [Expr.flatten_graft, Expr.flatten, ih1]
  | _ => simp [Expr.attach, Expr.flatten_graft]

theorem Expr.typed_attach (l : Expr) (op : Token) (r : Expr) (hl : l.typed = true)
    (hop : isBinopType op.type = true) (hr : r.typed = true) :
    (l.attach op r).typed = true := by
  induction r with
  | binop op2 l2 r2 ih1 _ =>
    simp only [Expr.attach]
    split
    · exact Expr.typed_graft _ _ _ hl hop hr
    · simp only [Expr.typed, Bool.and_eq_true] at hr
      exact Expr.typed_graft _ _ _ (ih1 hr.1.2) hr.1.1 hr.2
  | operand t => exact Expr.typed_graft _ _ _ hl hop hr
  | paren lp rp e _ => exact Expr.typed_graft _ _ _ hl hop hr

theorem Expr.precOK_attach (l : Expr) (op : Token) (r : Expr) (hl : l.precOK = true)
    (hr : r.precOK = true) :
    (l.attach op r).precOK = true := by
  induction r with
  | binop op2 l2 r2 ih1 _ =>
    simp only [Expr.attach]
    split
    · rename_i h
      exact Expr.precOK_graft _ _ _ hl hr (by simpa [Expr.level] using h)
    · have hr1 := (Expr.precOK_binop op2 l2 r2).1 hr
      exact Expr.precOK_graft _ _ _ (ih1 hr1.2.2.1) hr1.2.2.2 hr1.2.1
  | operand t =>
    have := binding_le_two op.type
    exact Expr.precOK_graft _ _ _ hl hr (by simp only [Expr.level]; omega)
  | paren lp rp e _ =>
    have := binding_le_two op.type
    exact Expr.precOK_graft _ _ _ hl hr (by simp only [Expr.level]; omega)

theorem Expr.flatten_canon (e : Expr) : e.canon.flatten = e.flatten := by
  induction e with
  | operand t => rfl
  | binop op l r ihl ihr => simp [Expr.canon, Expr.flatten_attach, Expr.flatten, ihl, ihr]
  | paren lp rp e ih => simp [Expr.canon, Expr.flatten, ih]

theorem Expr.typed_canon (e : Expr) (ht : e.typed = true) : e.canon.typed = true := by
  induction e with
  | operand t => exact ht
  | binop op l r ihl ihr =>
    simp only [Expr.typed, Bool.and_eq_true] at ht
    exact Expr.typed_attach _ _ _ (ihl ht.1.2) ht.1.1 (ihr ht.2)
  | paren lp rp e ih =>
    simp only [Expr.typed, Bool.and_eq_true] at ht
    simp [Expr.canon, Expr.typed, ht, ih ht.2]

theorem Expr.precOK_canon (e : Expr) : e.canon.precOK = true := by
  induction e with
  | operand t => rfl
  | binop op l r ihl ihr => exact Expr.precOK_attach _ _ _ ihl ihr
  | paren lp rp e ih => simpa [Expr.canon, Expr.precOK] using ih

theorem Expr.graft_of_le (l : Expr) (op : Token) (r : Expr) (hl : l.precOK = true)
    (h : binding op.type ≤ l.level) : l.graft op r = .binop op l r := by
  cases l with
  | binop op1 l1 r1 =>
    simp only [Expr.level] at h
    simp only [Expr.graft]
    rw [if_neg (by omega)]
  | _ => rfl

theorem Expr.attach_of_lt (l : Expr) (op : Token) (r : Expr)
    (h : binding op.type < r.level) : l.attach op r = l.graft op r := by
  cases r with
  | binop op2 l2 r2 =>
    simp only [Expr.level] at h
    simp only [Expr.attach]
    rw [if_pos h]
  | _ => rfl

/-- A tree that already respects precedence and associativity is its own parse tree. -/
theorem Expr.canon_of_precOK (e : Expr) (hp : e.precOK = true) : e.canon = e := by
  induction e with
  | operand t => rfl
  | binop op l r ihl ihr =>
    simp only [Expr.precOK, Bool.and_eq_true, decide_eq_true_eq] at hp
    simp only [Expr.canon, ihl hp.1.2, ihr hp.2]
    rw [Expr.attach_of_lt _ _ _ hp.1.1.2, Expr.graft_of_le _ _ _ hp.1.2 hp.1.1.1]
  | paren lp rp e ih =>
    simp only [Expr.precOK] at hp
    simp [Expr.canon, ih hp]

/-- C1: for every token sequence derived by a derivation tree `e` of the grammar
`E ::= operand | E op E | ( E )` (operands NUMBER or VARIABLE, the four binary
operators, matching parentheses), `convert_to_rpn` writes the post-order traversal of
the parse tree `e.canon` of that sequence: the tree with the same token sequence in which
`*` and `/` bind tighter than `+` and `-` (`binding`, the usual table, not the one of
the source) and equal strength associates to the left (`precOK`). A tree that already
has this shape is its own parse tree. The tokens are those of the array `tokens`, which
holds fewer than `MAX_TOKENS` of them before the sentinel. -/
theorem convert_to_rpn_postorder (s : State) (e : Expr) (ht : e.typed = true)
    (htok : s.tokens.take s.token_count = e.flatten) (hcap : s.token_count < MAX_TOKENS) :
    (convert_to_rpn s).rpn_queue = e.canon.postorder ∧
      e.canon.flatten = e.flatten ∧ e.canon.typed = true ∧ e.canon.precOK = true ∧
      (e.precOK = true → e.canon = e) := by
  refine ⟨?_, Expr.flatten_canon e, Expr.typed_canon e ht, Expr.precOK_canon e,
    Expr.canon_of_precOK e⟩
  have h := rpn_of_flatten e.canon (Expr.typed_canon e ht) (Expr.precOK_canon e)
  rw [Expr.flatten_canon] at h
  simp only [convert_to_rpn, htok, h]

/-- Witness of C1: the tokens of `3+4*2`, given with the derivation `(3+4)*2` that
ignores precedence, are converted to `3 4 2 * +`; those of `1+6/3`, given with the
derivation `(1+6)/3`, to `1 6 3 / +`; those of `8 - 2 - 3`, given with the derivation
`8-(2-3)` that ignores associativity, to `8 2 - 3 -`. -/
theorem convert_to_rpn_postorder_witness :
    (Expr.binop (opToken TOK_MULT '*')
        (Expr.binop (opToken TOK_PLUS '+')
          (Expr.operand { type := TOK_NUMBER, str := ['3'], num_value := 3 })
          (Expr.operand { type := TOK_NUMBER, str := ['4'], num_value := 4 }))
        (Expr.operand { type := TOK_NUMBER, str := ['2'], num_value := 2 })).typed = true ∧
    (tokenize_expression State.init "3+4*2".toList).tokens.take
        (tokenize_expression State.init "3+4*2".toList).token_count =
      [{ type := TOK_NUMBER, str := ['3'], num_value := 3 }, opToken TOK_PLUS '+',
        { type := TOK_NUMBER, str := ['4'], num_value := 4 }, opToken TOK_MULT '*',
        { type := TOK_NUMBER, str := ['2'], num_value := 2 }] ∧
    (convert_to_rpn (tokenize_expression State.init "3+4*2".toList)).rpn_queue =
      [{ type := TOK_NUMBER, str := ['3'], num_value := 3 },
        { type := TOK_NUMBER, str := ['4'], num_value := 4 },
        { type := TOK_NUMBER, str := ['2'], num_value := 2 },
        opToken TOK_MULT '*', opToken TOK_PLUS '+'] ∧
    (convert_to_rpn (tokenize_expression State.init "1+6/3".toList)).rpn_queue =
      [{ type := TOK_NUMBER, str := ['1'], num_value := 1 },
        { type := TOK_NUMBER, str := ['6'], num_value := 6 },
        { type := TOK_NUMBER, str := ['3'], num_value := 3 },
        opToken TOK_DIV '/', opToken TOK_PLUS '+'] ∧
    (convert_to_rpn (tokenize_expression State.init "8 - 2 - 3".toList)).rpn_queue =
      [{ type := TOK_NUMBER, str := ['8'], num_value := 8 },
        { type := TOK_NUMBER, str := ['2'], num_value := 2 }, opToken TOK_MINUS '-',
        { type := TOK_NUMBER, str := ['3'], num_value := 3 }, opToken TOK_MINUS '-'] :=
  ⟨by decide, by decide,
    (convert_to_rpn_postorder (tokenize_expression State.init "3+4*2".toList)
      (Expr.binop (opToken TOK_MULT '*')
        (Expr.binop (opToken TOK_PLUS '+')
          (Expr.operand { type := TOK_NUMBER, str := ['3'], num_value := 3 })
          (Expr.operand { type := TOK_NUMBER, str := ['4'], num_value := 4 }))
        (Expr.operand { type := TOK_NUMBER, str := ['2'], num_value := 2 }))
      (by decide) (by decide) (by decide)).1.trans (by decide),
    (convert_to_rpn_postorder (tokenize_expression State.init "1+6/3".toList)
      (Expr.binop (opToken TOK_DIV '/')
        (Expr.binop (opToken TOK_PLUS '+')
          (Expr.operand { type := TOK_NUMBER, str := ['1'], num_value := 1 })
          (Expr.operand { type := TOK_NUMBER, str := ['6'], num_value := 6 }))
        (Expr.operand { type := TOK_NUMBER, str := ['3'], num_value := 3 }))
      (by decide) (by decide) (by decide)).1.trans (by decide),
    (convert_to_rpn_postorder (tokenize_expression State.init "8 - 2 - 3".toList)
      (Expr.binop (opToken TOK_MINUS '-')
        (Expr.operand { type := TOK_NUMBER, str := ['8'], num_value := 8 })
        (Expr.binop (opToken TOK_MINUS '-')
          (Expr.operand { type := TOK_NUMBER, str := ['2'], num_value := 2 })
          (Expr.operand { type := TOK_NUMBER, str := ['3'], num_value := 3 })))
      (by decide) (by decide) (by decide)).1.trans (by decide)⟩

/-! ## The branches of the statement driver -/

theorem process_statement_empty (stray : Nat → Int) (s : State) (stmt : List Char)
    (h : stmt.dropWhile isspace = []) : process_statement stray s stmt = s := by
  simp [process_statement, h]

/-- A statement that does not start with `int ` is compiled as an expression. -/
theorem process_statement_bare (stray : Nat → Int) (s : State) (stmt : List Char)
    (hne : stmt.dropWhile isspace ≠ [])
    (hint : (stmt.dropWhile isspace).take 4 ≠ "int ".toList) :
    process_statement stray s stmt = (compile_expr stray s (stmt.dropWhile isspace)).state := by
  simp only [process_statement, if_neg hne]
  rw [if_pos hint]

theorem drop_int_prefix (stmt rest : List Char)
    (hstmt : stmt.dropWhile isspace = "int ".toList ++ rest) :
    stmt.dropWhile isspace ≠ [] ∧ ¬ ((stmt.dropWhile isspace).take 4 ≠ "int ".toList) ∧
      (stmt.dropWhile isspace).drop 4 = rest := by
  rw [hstmt]
  simp

theorem process_statement_no_eq (stray : Nat → Int) (s : State) (stmt rest : List Char)
    (hstmt : stmt.dropWhile isspace = "int ".toList ++ rest) (heq : '=' ∉ rest) :
    process_statement stray s stmt = report_error s := by
  obtain ⟨hne, hint, hdrop⟩ := drop_int_prefix stmt rest hstmt
  simp only [process_statement, if_neg hne, if_neg hint, hdrop]
  rw [if_pos heq]

theorem process_statement_bad_name (stray : Nat → Int) (s : State) (stmt rest : List Char)
    (hstmt : stmt.dropWhile isspace = "int ".toList ++ rest) (heq : '=' ∈ rest)
    (hname : name_rejected (extract_name rest) = true) :
    process_statement stray s stmt = report_error s := by
  obtain ⟨hne, hint, hdrop⟩ := drop_int_prefix stmt rest hstmt
  simp only [process_statement, if_neg hne, if_neg hint, hdrop]
  rw [if_neg (not_not.mpr heq), if_pos hname]

/-- A declaration that passes the two checks declares the name, compiles the right-hand
side and stores the result. -/
theorem process_statement_decl (stray : Nat → Int) (s : State) (stmt rest : List Char)
    (hstmt : stmt.dropWhile isspace = "int ".toList ++ rest) (heq : '=' ∈ rest)
    (hname : name_rejected (extract_name rest) = false) :
    process_statement stray s stmt =
      store_result (compile_expr stray (declare_variable s (extract_name rest))
        (extract_expr rest)) (extract_name rest) := by
  obtain ⟨hne, hint, hdrop⟩ := drop_int_prefix stmt rest hstmt
  simp only [process_statement, if_neg hne, if_neg hint, hdrop]
  rw [if_neg (not_not.mpr heq), if_neg (by simp [hname])]

theorem declare_variable_tokens (s : State) (name : List Char) :
    (declare_variable s name).tokens = s.tokens := by
  unfold declare_variable
  split <;> rfl

/-- The globals `evaluate_rpn` starts from inside `compile_expr`. -/
theorem compile_expr_eq (stray : Nat → Int) (s : State) (expr : List Char) :
    compile_expr stray s expr =
      eval_loop stray (rpn_of (tokenize_loop s.tokens expr.length 0 expr).1) 0 []
        { s with
          tokens := tokens_after s.tokens (tokenize_loop s.tokens expr.length 0 expr).1,
          token_count := (tokenize_loop s.tokens expr.length 0 expr).1.length,
          error_count := s.error_count + (tokenize_loop s.tokens expr.length 0 expr).2,
          rpn_queue := rpn_of (tokenize_loop s.tokens expr.length 0 expr).1,
          temp_reg_counter := 1 } 0 := by
  simp [compile_expr, evaluate_rpn, convert_to_rpn, tokenize_expression, tokens_after]

/-- A declaration whose pieces are known: the statement is the evaluation of the
converted tokens of its right-hand side in the table extended by its target, followed by
the store of the result. -/
theorem process_statement_decl_run (stray : Nat → Int) (s : State)
    (stmt rest name expr : List Char) (toks : List Token) (errs : Nat) (rpn : List Token)
    (hstmt : stmt.dropWhile isspace = "int ".toList ++ rest) (heq : '=' ∈ rest)
    (hname : extract_name rest = name) (hok : name_rejected name = false)
    (hexpr : extract_expr rest = expr)
    (htok : tokenize_loop s.tokens expr.length 0 expr = (toks, errs))
    (hrpn : rpn_of toks = rpn) :
    process_statement stray s stmt =
      store_result
        (eval_loop stray rpn 0 []
          { declare_variable s name with
            tokens := tokens_after s.tokens toks,
            token_count := toks.length,
            error_count := (declare_variable s name).error_count + errs,
            rpn_queue := rpn,
            temp_reg_counter := 1 } 0) name := by
  subst hname
  rw [process_statement_decl stray s stmt rest hstmt heq hok, hexpr, compile_expr_eq,
    declare_variable_tokens, htok]
  simp only [hrpn]

/-- A bare expression whose pieces are known. -/
theorem process_statement_bare_run (stray : Nat → Int) (s : State)
    (stmt expr : List Char) (toks : List Token) (errs : Nat) (rpn : List Token)
    (hexpr : stmt.dropWhile isspace = expr) (hne : expr ≠ [])
    (hint : expr.take 4 ≠ "int ".toList)
    (htok : tokenize_loop s.tokens expr.length 0 expr = (toks, errs))
    (hrpn : rpn_of toks = rpn) :
    process_statement stray s stmt =
      (eval_loop stray rpn 0 []
          { s with
            tokens := tokens_after s.tokens toks,
            token_count := toks.length,
            error_count := s.error_count + errs,
            rpn_queue := rpn,
            temp_reg_counter := 1 } 0).state := by
  subst hexpr
  rw [process_statement_bare stray s stmt hne hint, compile_expr_eq, htok]
  simp only [hrpn]

/-! ## What the emitters leave alone -/

theorem emit_instr_vars (s : State) (a : List Char) (e : Nat) :
    (emit_instr s a e).vars = s.vars := by
  unfold emit_instr; split <;> rfl

theorem emit_instr_next_mem_offset (s : State) (a : List Char) (e : Nat) :
    (emit_instr s a e).next_mem_offset = s.next_mem_offset := by
  unfold emit_instr; split <;> rfl

theorem emit_instr_error_count (s : State) (a : List Char) (e : Nat) :
    (emit_instr s a e).error_count = s.error_count := by
  unfold emit_instr; split <;> rfl

theorem emit_instr_temp_reg_counter (s : State) (a : List Char) (e : Nat) :
    (emit_instr s a e).temp_reg_counter = s.temp_reg_counter := by
  unfold emit_instr; split <;> rfl

theorem emit_instr_tokens (s : State) (a : List Char) (e : Nat) :
    (emit_instr s a e).tokens = s.tokens ∧ (emit_instr s a e).token_count = s.token_count ∧
      (emit_instr s a e).rpn_queue = s.rpn_queue := by
  unfold emit_instr; split <;> exact ⟨rfl, rfl, rfl⟩

/-- With room in the list `emit_instr` appends exactly one record. -/
theorem emit_instr_instrs (s : State) (a : List Char) (e : Nat) (h : s.instrs.length < MAX_INSTR) :
    (emit_instr s a e).instrs = s.instrs ++ [instr_record a e] := by
  unfold emit_instr
  rw [if_neg (by simp only [State.instr_count]; omega)]

/-- In every case `emit_instr` appends at most the one record. -/
theorem emit_instr_instrs_cases (s : State) (a : List Char) (e : Nat) :
    (emit_instr s a e).instrs =
      s.instrs ++ (if s.instrs.length < MAX_INSTR then [instr_record a e] else []) := by
  unfold emit_instr
  by_cases h : s.instr_count ≥ MAX_INSTR
  · rw [if_pos h, if_neg (by simp only [State.instr_count] at h; omega)]; simp
  · rw [if_neg h, if_pos (by simp only [State.instr_count] at h; omega)]

theorem emit_op_vars (s : State) (ty : TokenType) (a b c : Nat) :
    (emit_op s ty a b c).vars = s.vars := by
  unfold emit_op emit_daddu emit_dsubu emit_dmult emit_ddiv
  split_ifs <;> simp only [emit_instr_vars]

theorem emit_op_next_mem_offset (s : State) (ty : TokenType) (a b c : Nat) :
    (emit_op s ty a b c).next_mem_offset = s.next_mem_offset := by
  unfold emit_op emit_daddu emit_dsubu emit_dmult emit_ddiv
  split_ifs <;> simp only [emit_instr_next_mem_offset]

theorem emit_op_error_count (s : State) (ty : TokenType) (a b c : Nat) :
    (emit_op s ty a b c).error_count = s.error_count := by
  unfold emit_op emit_daddu emit_dsubu emit_dmult emit_ddiv
  split_ifs <;> simp only [emit_instr_error_count]

theorem emit_op_temp_reg_counter (s : State) (ty : TokenType) (a b c : Nat) :
    (emit_op s ty a b c).temp_reg_counter = s.temp_reg_counter := by
  unfold emit_op emit_daddu emit_dsubu emit_dmult emit_ddiv
  split_ifs <;> simp only [emit_instr_temp_reg_counter]

theorem emit_op_tokens (s : State) (ty : TokenType) (a b c : Nat) :
    (emit_op s ty a b c).tokens = s.tokens ∧ (emit_op s ty a b c).token_count = s.token_count ∧
      (emit_op s ty a b c).rpn_queue = s.rpn_queue := by
  unfold emit_op emit_daddu emit_dsubu emit_dmult emit_ddiv
  split_ifs <;> simp only [emit_instr_tokens, and_self]

/-! ## What `evaluate_rpn` leaves alone -/

theorem mnemonic_daddiu (rt rs : Nat) (imm : Int) (e : Nat) :
    mnemonic (instr_record (asm_daddiu rt rs imm) e) = "DADDIU".toList := rfl

theorem mnemonic_daddu (rd rs rt e : Nat) :
    mnemonic (instr_record (asm_daddu rd rs rt) e) = "DADDU".toList := rfl

theorem mnemonic_dsubu (rd rs rt e : Nat) :
    mnemonic (instr_record (asm_dsubu rd rs rt) e) = "DSUBU".toList := rfl

theorem mnemonic_dmult (rs rt e : Nat) :
    mnemonic (instr_record (asm_dmult rs rt) e) = "DMULT".toList := rfl

theorem mnemonic_ddiv (rs rt e : Nat) :
    mnemonic (instr_record (asm_ddiv rs rt) e) = "DDIV".toList := rfl

theorem mnemonic_mflo (rd e : Nat) :
    mnemonic (instr_record (asm_mflo rd) e) = "MFLO".toList := rfl

theorem mnemonic_ld (rt : Nat) (name : List Char) (e : Nat) :
    mnemonic (instr_record (asm_ld rt name) e) = "LD".toList := rfl

theorem mnemonic_sd (rt : Nat) (name : List Char) (e : Nat) :
    mnemonic (instr_record (asm_sd rt name) e) = "SD".toList := rfl

theorem EvalFrame.refl (s : State) : EvalFrame s s :=
  ⟨rfl, rfl, rfl, rfl, rfl, le_refl _, by omega, [], by simp, by simp⟩

theorem EvalFrame.of_eval_fail (s : State) (rv : Int) : EvalFrame s (Mips1.eval_fail s rv).state :=
  ⟨rfl, rfl, rfl, rfl, rfl, by simp [Mips1.eval_fail, report_error], by simp [Mips1.eval_fail, report_error],
    [], by simp [Mips1.eval_fail, report_error], by simp⟩

/-- Composition of a step that counts no error with what follows it. -/
theorem EvalFrame.step {s t u : State} (h1 : EvalFrame s t)
    (he : t.error_count = s.error_count) (h2 : EvalFrame t u) : EvalFrame s u := by
  obtain ⟨a1, ha1, hm1⟩ := h1.instrs
  obtain ⟨a2, ha2, hm2⟩ := h2.instrs
  refine ⟨h2.vars.trans h1.vars, h2.next_mem_offset.trans h1.next_mem_offset,
    h2.tokens.trans h1.tokens, h2.token_count.trans h1.token_count,
    h2.rpn_queue.trans h1.rpn_queue, le_trans h1.errors_ge h2.errors_ge,
    by have := h2.errors_le; omega,
    a1 ++ a2, by rw [ha2, ha1, List.append_assoc], ?_⟩
  intro x hx
  rcases List.mem_append.1 hx with h | h
  · exact hm1 x h
  · exact hm2 x h

theorem EvalFrame.set_counter (s : State) (n : Nat) :
    EvalFrame s { s with temp_reg_counter := n } :=
  ⟨rfl, rfl, rfl, rfl, rfl, le_refl _, by simp, [], by simp, by simp⟩

/-- One `emit_instr` of a record with an evaluator mnemonic. -/
theorem EvalFrame.of_emit (s : State) (a : List Char) (e : Nat)
    (hm : mnemonic (instr_record a e) ∈ evalMnemonics) :
    EvalFrame s (emit_instr s a e) := by
  refine ⟨by rw [emit_instr_vars], by rw [emit_instr_next_mem_offset],
    by rw [(emit_instr_tokens _ _ _).1], by rw [(emit_instr_tokens _ _ _).2.1],
    by rw [(emit_instr_tokens _ _ _).2.2], by rw [emit_instr_error_count],
    by rw [emit_instr_error_count]; simp, ?_⟩
  rw [emit_instr_instrs_cases]
  refine ⟨_, rfl, ?_⟩
  intro x hx
  split at hx
  · simp only [List.mem_singleton] at hx
    subst hx
    exact hm
  · simp at hx

theorem EvalFrame.of_emit_op (s : State) (ty : TokenType) (a b c : Nat) :
    EvalFrame s (emit_op s ty a b c) := by
  unfold emit_op emit_daddu emit_dsubu emit_dmult emit_ddiv
  split_ifs
  · exact EvalFrame.of_emit s _ _ (by rw [mnemonic_daddu]; decide)
  · exact EvalFrame.of_emit s _ _ (by rw [mnemonic_dsubu]; decide)
  · exact EvalFrame.step (EvalFrame.of_emit s _ _ (by rw [mnemonic_dmult]; decide))
      (emit_instr_error_count _ _ _) (EvalFrame.of_emit _ _ _ (by rw [mnemonic_mflo]; decide))
  · exact EvalFrame.step (EvalFrame.of_emit s _ _ (by rw [mnemonic_ddiv]; decide))
      (emit_instr_error_count _ _ _) (EvalFrame.of_emit _ _ _ (by rw [mnemonic_mflo]; decide))
  · exact EvalFrame.refl s

theorem EvalFrame.counter_emit (s : State) (n : Nat) (a : List Char) (e : Nat)
    (hm : mnemonic (instr_record a e) ∈ evalMnemonics) :
    EvalFrame s (emit_instr { s with temp_reg_counter := n } a e) ∧
      (emit_instr { s with temp_reg_counter := n } a e).error_count = s.error_count :=
  ⟨EvalFrame.step (EvalFrame.set_counter s n) rfl (EvalFrame.of_emit _ a e hm),
    by rw [emit_instr_error_count]⟩

theorem EvalFrame.counter_emit_op (s : State) (n : Nat) (ty : TokenType) (a b c : Nat) :
    EvalFrame s (emit_op { s with temp_reg_counter := n } ty a b c) ∧
      (emit_op { s with temp_reg_counter := n } ty a b c).error_count = s.error_count :=
  ⟨EvalFrame.step (EvalFrame.set_counter s n) rfl (EvalFrame.of_emit_op _ ty a b c),
    by rw [emit_op_error_count]⟩

/-- One iteration of the evaluation loop that does not fail adds records of the
evaluator and counts no error. -/
theorem eval_step_frame (stray : Nat → Int) (tok : Token) (i : Nat)
    (stack : List (Nat × Int)) (s : State) (next : List (Nat × Int) × State)
    (h : eval_step stray tok i stack s = some next) :
    EvalFrame s next.2 ∧ next.2.error_count = s.error_count := by
  unfold eval_step at h
  split_ifs at h with h1 h2 h3
  · simp only [Option.some.injEq] at h
    subst h
    exact EvalFrame.counter_emit s _ _ _ (by rw [mnemonic_daddiu]; decide)
  · split at h
    · simp at h
    · simp only [Option.some.injEq] at h
      subst h
      exact EvalFrame.counter_emit s _ _ _ (by rw [mnemonic_ld]; decide)
  · split at h
    · simp only [Option.some.injEq] at h
      subst h
      exact EvalFrame.counter_emit_op s _ _ _ _ _
    · simp at h
  · simp only [Option.some.injEq] at h
    subst h
    exact ⟨EvalFrame.refl s, rfl⟩

theorem eval_finish_frame (stack : List (Nat × Int)) (s : State) (rv : Int) :
    EvalFrame s (eval_finish stack s rv).state := by
  unfold eval_finish
  split
  · exact EvalFrame.refl s
  · exact EvalFrame.of_eval_fail s rv

/-- Whatever the tokens, the stack and the stray memory, `evaluate_rpn` leaves the
symbol table, the token arrays and the instructions already emitted as they are. -/
theorem eval_loop_frame (stray : Nat → Int) (toks : List Token) :
    ∀ (i : Nat) (stack : List (Nat × Int)) (s : State) (rv : Int),
      EvalFrame s (eval_loop stray toks i stack s rv).state := by
  induction toks with
  | nil =>
    intro i stack s rv
    exact eval_finish_frame stack s rv
  | cons tok rest ih =>
    intro i stack s rv
    simp only [eval_loop]
    cases h : eval_step stray tok i stack s with
    | none => exact EvalFrame.of_eval_fail s rv
    | some next =>
      have hs := eval_step_frame stray tok i stack s next h
      exact EvalFrame.step hs.1 hs.2 (ih _ _ _ _)

theorem evaluate_rpn_frame (stray : Nat → Int) (s : State) (rv : Int) :
    EvalFrame s (evaluate_rpn stray s rv).state :=
  eval_loop_frame stray _ _ _ _ _

/-! ## The evaluation loop, one token at a time -/

theorem eval_loop_nil (stray : Nat → Int) (i : Nat) (stack : List (Nat × Int)) (s : State)
    (rv : Int) : eval_loop stray [] i stack s rv = eval_finish stack s rv := rfl

theorem eval_finish_one (top : Nat × Int) (s : State) (rv : Int) :
    eval_finish [top] s rv = { reg := top.1, result_value := top.2, state := s } := rfl

theorem eval_finish_nil (s : State) (rv : Int) : eval_finish [] s rv = eval_fail s rv := rfl

theorem eval_finish_two (a b : Nat × Int) (l : List (Nat × Int)) (s : State) (rv : Int) :
    eval_finish (a :: b :: l) s rv = eval_fail s rv := rfl

/-- A NUMBER token: a fresh register, a DADDIU of the literal, a push. -/
theorem eval_loop_number (stray : Nat → Int) (tok : Token) (rest : List Token) (i : Nat)
    (stack : List (Nat × Int)) (s : State) (rv : Int) (h : tok.type = TOK_NUMBER) :
    eval_loop stray (tok :: rest) i stack s rv =
      eval_loop stray rest (i + 1) ((s.temp_reg_counter, tok.num_value) :: stack)
        (emit_daddiu { s with temp_reg_counter := s.temp_reg_counter + 1 } s.temp_reg_counter 0
          (wrap32 tok.num_value)) rv := by
  simp [eval_loop, eval_step, h]

/-- A VARIABLE token: an error exit for an unknown name, otherwise a fresh register, an
LD from the offset of the variable, and a push of its recorded value. -/
theorem eval_loop_variable (stray : Nat → Int) (tok : Token) (rest : List Token) (i : Nat)
    (stack : List (Nat × Int)) (s : State) (rv : Int) (h : tok.type = TOK_VARIABLE) :
    eval_loop stray (tok :: rest) i stack s rv =
      match get_variable s tok.str with
      | none => eval_fail s rv
      | some var =>
        eval_loop stray rest (i + 1) ((s.temp_reg_counter, var.value) :: stack)
          (emit_ld { s with temp_reg_counter := s.temp_reg_counter + 1 } s.temp_reg_counter
            tok.str var.mem_offset) rv := by
  simp only [eval_loop, eval_step, h]
  rw [if_neg (by decide), if_pos trivial]
  cases get_variable s tok.str <;> rfl

/-- An operator token with fewer than two values on the stack: the error exit. -/
theorem eval_loop_op_underflow (stray : Nat → Int) (tok : Token) (rest : List Token) (i : Nat)
    (stack : List (Nat × Int)) (s : State) (rv : Int) (h : isBinopType tok.type = true)
    (hs : stack.length < 2) :
    eval_loop stray (tok :: rest) i stack s rv = eval_fail s rv := by
  have h1 : tok.type ≠ TOK_NUMBER := by intro e; simp [e, isBinopType] at h
  have h2 : tok.type ≠ TOK_VARIABLE := by intro e; simp [e, isBinopType] at h
  have h3 : tok.type = TOK_PLUS ∨ tok.type = TOK_MINUS ∨ tok.type = TOK_MULT ∨
      tok.type = TOK_DIV := by simpa [isBinopType, or_assoc] using h
  simp only [eval_loop, eval_step, if_neg h1, if_neg h2, if_pos h3]
  match stack, hs with
  | [], _ => rfl
  | [_], _ => rfl

/-- An operator token with two or more values on the stack: the registers are those of
the two operands on top, the right value is the value in the slot of the left operand and
the left value is the value in the slot below it, or the stray value when there is no
slot below. -/
theorem eval_loop_op (stray : Nat → Int) (tok : Token) (rest : List Token) (i : Nat)
    (right left : Nat × Int) (below : List (Nat × Int)) (s : State) (rv : Int)
    (h : isBinopType tok.type = true) :
    eval_loop stray (tok :: rest) i (right :: left :: below) s rv =
      eval_loop stray rest (i + 1)
        ((s.temp_reg_counter,
          fold_op tok.type (read_below stray i below) left.2) :: below)
        (emit_op { s with temp_reg_counter := s.temp_reg_counter + 1 } tok.type
          s.temp_reg_counter left.1 right.1) rv := by
  have h1 : tok.type ≠ TOK_NUMBER := by intro e; simp [e, isBinopType] at h
  have h2 : tok.type ≠ TOK_VARIABLE := by intro e; simp [e, isBinopType] at h
  have h3 : tok.type = TOK_PLUS ∨ tok.type = TOK_MINUS ∨ tok.type = TOK_MULT ∨
      tok.type = TOK_DIV := by simpa [isBinopType, or_assoc] using h
  simp only [eval_loop, eval_step, if_neg h1, if_neg h2, if_pos h3]

/-- A token of another type is skipped. -/
theorem eval_loop_other (stray : Nat → Int) (tok : Token) (rest : List Token) (i : Nat)
    (stack : List (Nat × Int)) (s : State) (rv : Int)
    (h1 : isOperandType tok.type = false) (h2 : isBinopType tok.type = false) :
    eval_loop stray (tok :: rest) i stack s rv = eval_loop stray rest (i + 1) stack s rv := by
  simp only [isOperandType, isBinopType, Bool.or_eq_false_iff, decide_eq_false_iff_not] at h1 h2
  simp only [eval_loop, eval_step, if_neg h1.1, if_neg h1.2]
  rw [if_neg (by tauto)]

/-! ## Folded values: the value reads of the operator branch are one slot too low -/

theorem fold_one_plus_two (stray : Nat → Int) (s : State) (hv : s.vars = [])
    (ht : s.tokens = []) :
    (process_statement stray s "int x = 1 + 2".toList).vars =
      [{ name := ['x'], value := wrap64 (stray 2 + 1), mem_offset := s.next_mem_offset,
         is_declared := true }] ∧
    (process_statement stray s "int x = 1 + 2".toList).error_count = s.error_count := by
  rw [process_statement_decl_run stray s _ "x = 1 + 2".toList ['x'] "1 + 2".toList
    [{ type := TOK_NUMBER, str := ['1'], num_value := 1 }, opToken TOK_PLUS '+',
      { type := TOK_NUMBER, str := ['2'], num_value := 2 }] 0
    [{ type := TOK_NUMBER, str := ['1'], num_value := 1 },
      { type := TOK_NUMBER, str := ['2'], num_value := 2 }, opToken TOK_PLUS '+']
    (by decide) (by decide) (by decide) (by decide) (by decide) (by rw [ht]; decide)
    (by decide)]
  simp [eval_loop_number, eval_loop_op, eval_loop_nil, eval_finish_one, read_below, isBinopType,
    store_result, declare_variable, get_variable, emit_daddiu, emit_sd, emit_daddu,
    emit_op_vars, emit_op_error_count, emit_op_temp_reg_counter, emit_instr_vars,
    emit_instr_error_count, emit_instr_temp_reg_counter, hv, opToken,
    fold_op, set_value]

theorem fold_seven_minus_two (stray : Nat → Int) (s : State) (hv : s.vars = [])
    (ht : s.tokens = []) :
    (process_statement stray s "int x = 7 - 2".toList).vars =
      [{ name := ['x'], value := wrap64 (stray 2 - 7), mem_offset := s.next_mem_offset,
         is_declared := true }] := by
  rw [process_statement_decl_run stray s _ "x = 7 - 2".toList ['x'] "7 - 2".toList
    [{ type := TOK_NUMBER, str := ['7'], num_value := 7 }, opToken TOK_MINUS '-',
      { type := TOK_NUMBER, str := ['2'], num_value := 2 }] 0
    [{ type := TOK_NUMBER, str := ['7'], num_value := 7 },
      { type := TOK_NUMBER, str := ['2'], num_value := 2 }, opToken TOK_MINUS '-']
    (by decide) (by decide) (by decide) (by decide) (by decide) (by rw [ht]; decide)
    (by decide)]
  simp [eval_loop_number, eval_loop_op, eval_loop_nil, eval_finish_one, read_below, isBinopType,
    store_result, declare_variable, get_variable, emit_daddiu, emit_sd, emit_daddu,
    emit_op_vars, emit_op_error_count, emit_op_temp_reg_counter, emit_instr_vars,
    emit_instr_error_count, emit_instr_temp_reg_counter, hv, opToken,
    fold_op, set_value]

theorem fold_five_minus_three (stray : Nat → Int) (s : State) (hv : s.vars = [])
    (ht : s.tokens = []) :
    (process_statement stray s "int y = 5-3".toList).vars =
      [{ name := ['y'], value := 0, mem_offset := s.next_mem_offset, is_declared := true }] ∧
    (process_statement stray s "int y = 5-3".toList).error_count = s.error_count + 1 := by
  rw [process_statement_decl_run stray s _ "y = 5-3".toList ['y'] "5-3".toList
    [{ type := TOK_NUMBER, str := ['5'], num_value := 5 },
      { type := TOK_NUMBER, str := ['-', '3'], num_value := -3 }] 0
    [{ type := TOK_NUMBER, str := ['5'], num_value := 5 },
      { type := TOK_NUMBER, str := ['-', '3'], num_value := -3 }]
    (by decide) (by decide) (by decide) (by decide) (by decide) (by rw [ht]; decide)
    (by decide)]
  simp [eval_loop_number, eval_loop_nil, eval_finish_two, eval_fail, report_error,
    store_result, declare_variable, get_variable, emit_daddiu, emit_sd, emit_daddu,
    emit_instr_vars, emit_instr_error_count, emit_instr_temp_reg_counter, hv, set_value]

/-- C2 (evaluation at failing inputs): for `int x = 1 + 2` the operator `+` finds two
values on the stack, reads slot 0 (the value 1 of the left operand) as the right value and
the slot in front of the array as the left value, so `x` gets `stray + 1` and not 3;
likewise `int x = 7 - 2` stores `stray - 7` and not 5. For `int y = 5-3` the scanner
reads `-3` as a literal, two operands are left without an operator, one error is counted
and `y` gets 0 and not 2. -/
theorem process_statement_literal_fold (stray : Nat → Int) :
    (process_statement stray State.init "int x = 1 + 2".toList).vars =
      [{ name := ['x'], value := wrap64 (stray 2 + 1), mem_offset := 8, is_declared := true }] ∧
    (process_statement stray State.init "int x = 1 + 2".toList).error_count = 0 ∧
    (process_statement stray State.init "int x = 7 - 2".toList).vars =
      [{ name := ['x'], value := wrap64 (stray 2 - 7), mem_offset := 8, is_declared := true }] ∧
    (process_statement stray State.init "int y = 5-3".toList).vars =
      [{ name := ['y'], value := 0, mem_offset := 8, is_declared := true }] ∧
    (process_statement stray State.init "int y = 5-3".toList).error_count = 1 :=
  ⟨(fold_one_plus_two stray State.init rfl rfl).1,
    (fold_one_plus_two stray State.init rfl rfl).2,
    fold_seven_minus_two stray State.init rfl rfl,
    (fold_five_minus_three stray State.init rfl rfl).1,
    (fold_five_minus_three stray State.init rfl rfl).2⟩

theorem run_decl_a (stray : Nat → Int) (s : State) (hv : s.vars = [])
    (hn : s.next_mem_offset = 8) (he : s.error_count = 0) (ht : s.tokens = []) :
    (process_statement stray s "int a = -50".toList).vars =
      [{ name := ['a'], value := -50, mem_offset := 8, is_declared := true }] ∧
    (process_statement stray s "int a = -50".toList).next_mem_offset = 16 ∧
    (process_statement stray s "int a = -50".toList).error_count = 0 ∧
    (process_statement stray s "int a = -50".toList).tokens =
      [{ type := TOK_NUMBER, str := "-50".toList, num_value := -50 }, endToken] := by
  rw [process_statement_decl_run stray s _ "a = -50".toList ['a'] "-50".toList
    [{ type := TOK_NUMBER, str := "-50".toList, num_value := -50 }] 0
    [{ type := TOK_NUMBER, str := "-50".toList, num_value := -50 }]
    (by decide) (by decide) (by decide) (by decide) (by decide) (by rw [ht]; decide)
    (by decide)]
  simp [eval_loop_number, eval_loop_nil, eval_finish_one, store_result, declare_variable,
    get_variable, emit_daddiu, emit_sd, emit_daddu, emit_instr_vars, emit_instr_error_count,
    emit_instr_next_mem_offset, emit_instr_temp_reg_counter, emit_instr_tokens,
    hv, hn, he, ht, set_value, tokens_after, slot, zeroToken, endToken]

theorem run_decl_b (stray : Nat → Int) (s : State)
    (hv : s.vars = [{ name := ['a'], value := -50, mem_offset := 8, is_declared := true }])
    (hn : s.next_mem_offset = 16) (he : s.error_count = 0)
    (ht : s.tokens = [{ type := TOK_NUMBER, str := "-50".toList, num_value := -50 }, endToken]) :
    (process_statement stray s "int b = a + 10".toList).vars =
      [{ name := ['a'], value := -50, mem_offset := 8, is_declared := true },
       { name := ['b'], value := wrap64 (stray 2 + -50), mem_offset := 16,
         is_declared := true }] ∧
    (process_statement stray s "int b = a + 10".toList).next_mem_offset = 24 ∧
    (process_statement stray s "int b = a + 10".toList).error_count = 0 ∧
    (process_statement stray s "int b = a + 10".toList).tokens =
      [{ type := TOK_VARIABLE, str := ['a'], num_value := -50 }, opToken TOK_PLUS '+',
        { type := TOK_NUMBER, str := "10".toList, num_value := 10 }, endToken] := by
  rw [process_statement_decl_run stray s _ "b = a + 10".toList ['b'] "a + 10".toList
    [{ type := TOK_VARIABLE, str := ['a'], num_value := -50 }, opToken TOK_PLUS '+',
      { type := TOK_NUMBER, str := "10".toList, num_value := 10 }] 0
    [{ type := TOK_VARIABLE, str := ['a'], num_value := -50 },
      { type := TOK_NUMBER, str := "10".toList, num_value := 10 }, opToken TOK_PLUS '+']
    (by decide) (by decide) (by decide) (by decide) (by decide) (by rw [ht]; decide)
    (by decide)]
  simp [eval_loop_number, eval_loop_variable, eval_loop_op, eval_loop_nil, eval_finish_one,
    read_below, isBinopType, store_result, declare_variable, get_variable, emit_daddiu, emit_ld,
    emit_sd, emit_daddu, emit_op_vars, emit_op_error_count, emit_op_next_mem_offset,
    emit_op_temp_reg_counter, emit_op_tokens, emit_instr_vars, emit_instr_next_mem_offset,
    emit_instr_error_count, emit_instr_temp_reg_counter, emit_instr_tokens,
    hv, hn, he, ht, opToken, fold_op, set_value, tokens_after, slot, zeroToken, endToken]

theorem run_decl_c (stray : Nat → Int) (s : State) (vb : Int)
    (hv : s.vars = [{ name := ['a'], value := -50, mem_offset := 8, is_declared := true },
       { name := ['b'], value := vb, mem_offset := 16, is_declared := true }])
    (hn : s.next_mem_offset = 24) (he : s.error_count = 0)
    (ht : s.tokens =
      [{ type := TOK_VARIABLE, str := ['a'], num_value := -50 }, opToken TOK_PLUS '+',
        { type := TOK_NUMBER, str := "10".toList, num_value := 10 }, endToken]) :
    (process_statement stray s "int c = b * 2 + 5".toList).vars =
      [{ name := ['a'], value := -50, mem_offset := 8, is_declared := true },
       { name := ['b'], value := vb, mem_offset := 16, is_declared := true },
       { name := ['c'], value := wrap64 (stray 4 + wrap64 (stray 2 * vb)), mem_offset := 24,
         is_declared := true }] ∧
    (process_statement stray s "int c = b * 2 + 5".toList).next_mem_offset = 32 ∧
    (process_statement stray s "int c = b * 2 + 5".toList).error_count = 0 := by
  rw [process_statement_decl_run stray s _ "c = b * 2 + 5".toList ['c'] "b * 2 + 5".toList
    [{ type := TOK_VARIABLE, str := ['b'], num_value := -50 }, opToken TOK_MULT '*',
      { type := TOK_NUMBER, str := ['2'], num_value := 2 }, opToken TOK_PLUS '+',
      { type := TOK_NUMBER, str := ['5'], num_value := 5 }] 0
    [{ type := TOK_VARIABLE, str := ['b'], num_value := -50 },
      { type := TOK_NUMBER, str := ['2'], num_value := 2 }, opToken TOK_MULT '*',
      { type := TOK_NUMBER, str := ['5'], num_value := 5 }, opToken TOK_PLUS '+']
    (by decide) (by decide) (by decide) (by decide) (by decide) (by rw [ht]; decide)
    (by decide)]
  simp [eval_loop_number, eval_loop_variable, eval_loop_op, eval_loop_nil, eval_finish_one,
    read_below, isBinopType, store_result, declare_variable, get_variable, emit_daddiu, emit_ld,
    emit_sd, emit_daddu, emit_op_vars, emit_op_error_count, emit_op_next_mem_offset,
    emit_op_temp_reg_counter, emit_instr_vars, emit_instr_next_mem_offset,
    emit_instr_error_count, emit_instr_temp_reg_counter, hv, hn, he, opToken, fold_op, set_value]

/-- C3 (evaluation at the input of the claim): after `int a = -50`, `int b = a + 10`,
`int c = b * 2 + 5` the table holds a, b, c at offsets 8, 16, 24 and no error is
counted, but the values of b and c are computed from the slot of the left operand and
the stray slot in front of the value stack: b is `stray + a` and c is
`stray + stray * b`, not -40 and -75. -/
theorem process_all_three_statements (stray : Nat → Nat → Int) :
    (process_all stray 0 State.init
        ["int a = -50".toList, "int b = a + 10".toList, "int c = b * 2 + 5".toList]).vars =
      [{ name := ['a'], value := -50, mem_offset := 8, is_declared := true },
       { name := ['b'], value := wrap64 (stray 1 2 + -50), mem_offset := 16,
         is_declared := true },
       { name := ['c'],
         value := wrap64 (stray 2 4 + wrap64 (stray 2 2 * wrap64 (stray 1 2 + -50))),
         mem_offset := 24, is_declared := true }] ∧
    (process_all stray 0 State.init
        ["int a = -50".toList, "int b = a + 10".toList, "int c = b * 2 + 5".toList]).error_count
      = 0 := by
  have h1 := run_decl_a (stray 0) State.init rfl rfl rfl rfl
  have h2 := run_decl_b (stray 1) _ h1.1 h1.2.1 h1.2.2.1 h1.2.2.2
  have h3 := run_decl_c (stray 2) _ _ h2.1 h2.2.1 h2.2.2.1 h2.2.2.2
  exact ⟨h3.1, h3.2.2⟩

/-! ## Character classes by code -/

theorem isdigit_iff (c : Char) : isdigit c = true ↔ 48 ≤ c.toNat ∧ c.toNat ≤ 57 := by
  simp only [isdigit, decide_eq_true_eq]
  exact Iff.rfl

theorem isalpha_iff (c : Char) :
    isalpha c = true ↔ (97 ≤ c.toNat ∧ c.toNat ≤ 122) ∨ (65 ≤ c.toNat ∧ c.toNat ≤ 90) := by
  simp only [isalpha, decide_eq_true_eq]
  exact Iff.rfl

theorem isspace_code (c : Char) (h : isspace c = true) :
    c.toNat = 32 ∨ (9 ≤ c.toNat ∧ c.toNat ≤ 13) := by
  simp only [isspace, Bool.or_eq_true, decide_eq_true_eq] at h
  rcases h with ((((h | h) | h) | h) | h) | h <;> subst h <;> decide

theorem not_isspace_of_code (c : Char) (h : 33 ≤ c.toNat) : isspace c = false := by
  cases hs : isspace c with
  | false => rfl
  | true => have := isspace_code c hs; omega

theorem not_isdigit_of_code (c : Char) (h : c.toNat < 48 ∨ 57 < c.toNat) : isdigit c = false := by
  cases hs : isdigit c with
  | false => rfl
  | true => have := (isdigit_iff c).1 hs; omega

theorem not_isalpha_of_code (c : Char) (h : c.toNat < 65 ∨ (90 < c.toNat ∧ c.toNat < 97) ∨
    122 < c.toNat) : isalpha c = false := by
  cases hs : isalpha c with
  | false => rfl
  | true => have := (isalpha_iff c).1 hs; omega

theorem takeWhile_append_stop {α : Type} (p : α → Bool) (l : List α) (y : α) (r : List α)
    (hl : ∀ x ∈ l, p x = true) (hy : p y = false) :
    (l ++ y :: r).takeWhile p = l ∧ (l ++ y :: r).dropWhile p = y :: r := by
  induction l with
  | nil => simp [List.takeWhile, List.dropWhile, hy]
  | cons a l ih =>
    have ha := hl a (List.mem_cons_self _ _)
    have := ih (fun x hx => hl x (List.mem_cons_of_mem _ hx))
    simp [List.takeWhile, List.dropWhile, ha, this]

theorem takeWhile_all {α : Type} (p : α → Bool) (l : List α) (hl : ∀ x ∈ l, p x = true) :
    l.takeWhile p = l ∧ l.dropWhile p = [] := by
  induction l with
  | nil => simp
  | cons a l ih =>
    have ha := hl a (List.mem_cons_self _ _)
    have := ih (fun x hx => hl x (List.mem_cons_of_mem _ hx))
    simp [List.takeWhile, List.dropWhile, ha, this]

theorem dropWhile_append_all (p : Char → Bool) (ws l : List Char)
    (h : ∀ x ∈ ws, p x = true) : (ws ++ l).dropWhile p = l.dropWhile p := by
  induction ws with
  | nil => rfl
  | cons w ws ih =>
    rw [List.cons_append, List.dropWhile_cons, if_pos (h w (List.mem_cons_self _ _))]
    exact ih (fun x hx => h x (List.mem_cons_of_mem _ hx))

theorem tokenize_loop_nil (old : List Token) (fuel i : Nat) :
    tokenize_loop old fuel i [] = ([], 0) := by
  cases fuel <;> simp [tokenize_loop]

/-- The loop of the tokenizer, one iteration at a time. -/
theorem tokenize_loop_step (old : List Token) (fuel i : Nat) (cs : List Char) (c : Char)
    (rest : List Char) (h : cs.dropWhile isspace = c :: rest) :
    tokenize_loop old (fuel + 1) i cs =
      ((scan_token (slot old i) c rest).1.toList ++
          (tokenize_loop old fuel (i + (scan_token (slot old i) c rest).1.toList.length)
            (scan_token (slot old i) c rest).2.1).1,
        (tokenize_loop old fuel (i + (scan_token (slot old i) c rest).1.toList.length)
            (scan_token (slot old i) c rest).2.1).2 + (scan_token (slot old i) c rest).2.2) := by
  rw [tokenize_loop, h]

theorem tokenize_loop_blank (old : List Token) (fuel i : Nat) (cs : List Char)
    (h : cs.dropWhile isspace = []) : tokenize_loop old fuel i cs = ([], 0) := by
  cases fuel with
  | zero => rfl
  | succ n => rw [tokenize_loop, h]

theorem isIdentifier_spec (v : List Char) (h : isIdentifier v = true) :
    ∃ c cs, v = c :: cs ∧ (isalpha c = true ∨ c = '_') ∧ ∀ x ∈ c :: cs, isIdentChar x = true := by
  cases v with
  | nil => simp [isIdentifier] at h
  | cons c cs =>
    simp only [isIdentifier, Bool.and_eq_true, Bool.or_eq_true, decide_eq_true_eq,
      List.all_eq_true] at h
    refine ⟨c, cs, rfl, h.1, ?_⟩
    intro x hx
    rcases List.mem_cons.1 hx with hx | hx
    · subst hx
      rcases h.1 with h1 | h1
      · simp [isIdentChar, isalnum, h1]
      · simp [isIdentChar, h1]
    · exact h.2 x hx

theorem isDigits_spec (d : List Char) (h : isDigits d = true) :
    ∃ c cs, d = c :: cs ∧ isdigit c = true ∧ ∀ x ∈ c :: cs, isdigit x = true := by
  cases d with
  | nil => simp [isDigits] at h
  | cons c cs =>
    simp only [isDigits, List.isEmpty_cons, Bool.not_false, Bool.true_and, List.all_eq_true] at h
    exact ⟨c, cs, rfl, h c (List.mem_cons_self _ _), h⟩

/-- An identifier at the head of the text, followed by a character that cannot continue
it, is scanned as one VARIABLE token with that text; the value of the slot is kept. -/
theorem scan_token_identifier (cur : Token) (c : Char) (cs : List Char) (y : Char)
    (r : List Char) (hv : isIdentifier (c :: cs) = true) (hy : isIdentChar y = false) :
    isspace c = false ∧
    scan_token cur c (cs ++ y :: r) =
      (some { cur with type := TOK_VARIABLE, str := c :: cs }, y :: r, 0) := by
  obtain ⟨c1, cs1, heq, hc, hall⟩ := isIdentifier_spec (c :: cs) hv
  simp only [List.cons.injEq] at heq
  obtain ⟨rfl, rfl⟩ := heq
  have hcode : (97 ≤ c.toNat ∧ c.toNat ≤ 122) ∨ (65 ≤ c.toNat ∧ c.toNat ≤ 90) ∨ c.toNat = 95 := by
    rcases hc with h | h
    · have := (isalpha_iff c).1 h; omega
    · subst h; decide
  have hsp : isspace c = false := not_isspace_of_code c (by omega)
  have hdg : isdigit c = false := not_isdigit_of_code c (by omega)
  have hminus : c ≠ '-' := by intro h; subst h; revert hcode; decide
  have hal : (isalpha c || decide (c = '_')) = true := by
    rcases hc with h | h <;> simp [h]
  obtain ⟨ht, hd⟩ := takeWhile_append_stop isIdentChar (c :: cs) y r hall hy
  simp only [List.cons_append] at ht hd
  refine ⟨hsp, ?_⟩
  simp only [scan_token, hdg, hminus, decide_False, Bool.false_and, Bool.or_false,
    Bool.false_eq_true, if_false, hal, if_true, ht, hd]

/-- An identifier that ends the text is scanned as one VARIABLE token. -/
theorem scan_token_identifier_end (cur : Token) (c : Char) (cs : List Char)
    (hv : isIdentifier (c :: cs) = true) :
    isspace c = false ∧
    scan_token cur c cs = (some { cur with type := TOK_VARIABLE, str := c :: cs }, [], 0) := by
  obtain ⟨c1, cs1, heq, hc, hall⟩ := isIdentifier_spec (c :: cs) hv
  simp only [List.cons.injEq] at heq
  obtain ⟨rfl, rfl⟩ := heq
  have hcode : (97 ≤ c.toNat ∧ c.toNat ≤ 122) ∨ (65 ≤ c.toNat ∧ c.toNat ≤ 90) ∨ c.toNat = 95 := by
    rcases hc with h | h
    · have := (isalpha_iff c).1 h; omega
    · subst h; decide
  have hsp : isspace c = false := not_isspace_of_code c (by omega)
  have hdg : isdigit c = false := not_isdigit_of_code c (by omega)
  have hminus : c ≠ '-' := by intro h; subst h; revert hcode; decide
  have hal : (isalpha c || decide (c = '_')) = true := by
    rcases hc with h | h <;> simp [h]
  obtain ⟨ht, hd⟩ := takeWhile_all isIdentChar (c :: cs) hall
  refine ⟨hsp, ?_⟩
  simp only [scan_token, hdg, hminus, decide_False, Bool.false_and, Bool.or_false,
    Bool.false_eq_true, if_false, hal, if_true, ht, hd]

/-- A `-` directly followed by digits that end the text is scanned as one NUMBER token
whose text starts with the `-`: type, text and value of the slot are all assigned. -/
theorem scan_token_minus_digits_end (cur : Token) (d : List Char) (hd : isDigits d = true) :
    scan_token cur '-' d =
      (some { type := TOK_NUMBER, str := '-' :: d, num_value := atoll ('-' :: d) }, [], 0) := by
  obtain ⟨c, cs, rfl, hc, hall⟩ := isDigits_spec d hd
  obtain ⟨ht, hdr⟩ := takeWhile_all isdigit (c :: cs) hall
  have hdm : isdigit '-' = false := by decide
  simp only [scan_token, starts_with_digit, hdm, hc, decide_True, Bool.and_self,
    Bool.or_true, if_true, ht, hdr, Bool.false_or]

/-- A `+` is scanned as a PLUS token; the value of the slot is kept. -/
theorem scan_token_plus (cur : Token) (r : List Char) :
    scan_token cur '+' r = (some { cur with type := TOK_PLUS, str := ['+'] }, r, 0) := by
  have hdm : isdigit '+' = false := by decide
  have hal : isalpha '+' = false := by decide
  simp [scan_token, hdm, hal]

/-- The value `atoll` gives to a `-` followed by digits: minus the decimal value of the
digits, clamped at the least `int64_t`. -/
theorem atoll_minus_digits (d : List Char) (hd : isDigits d = true) :
    atoll ('-' :: d) = max INT64_MIN (-(digitsVal d : Int)) := by
  obtain ⟨c, cs, rfl, _, hall⟩ := isDigits_spec d hd
  have hsp : isspace '-' = false := by decide
  simp only [atoll, List.dropWhile_cons, hsp, Bool.false_eq_true, if_false,
    (takeWhile_all isdigit (c :: cs) hall).1]

/-- C4: for every identifier `v` and every non-empty digit string `d` whose texts fit
the 64 bytes of `Token.str`, the text `v-d` is scanned as the VARIABLE `v`, one NUMBER
token with the text `-d` whose value is minus the decimal value of `d` (the least 64-bit
integer when that is out of range, as `atoll` returns it), and the END sentinel: two
tokens, no MINUS token among them, no error. For identifiers `v` and `w` that fit, the
text `v+w` is scanned as VARIABLE `v`, PLUS, VARIABLE `w`, END. The fields the source
does not assign (the value of a VARIABLE or PLUS token, text and value of the sentinel)
are those the slot held before, and the slots behind the sentinel are unchanged
(`tokens_after`). -/
theorem tokenize_minus_before_digit (s : State) (v w d : List Char)
    (hv : isIdentifier v = true) (hw : isIdentifier w = true) (hd : isDigits d = true)
    (hvl : v.length < TOKEN_STR_SIZE) (hwl : w.length < TOKEN_STR_SIZE)
    (hdl : ('-' :: d).length < TOKEN_STR_SIZE) :
    ((tokenize_expression s (v ++ '-' :: d)).tokens =
        tokens_after s.tokens
          [{ slot s.tokens 0 with type := TOK_VARIABLE, str := v },
           { type := TOK_NUMBER, str := '-' :: d,
             num_value := max INT64_MIN (-(digitsVal d : Int)) }] ∧
      (tokenize_expression s (v ++ '-' :: d)).tokens.map (fun t => (t.type, t.str)) =
        [(TOK_VARIABLE, v), (TOK_NUMBER, '-' :: d), (TOK_END, (slot s.tokens 2).str)] ++
          (s.tokens.drop 3).map (fun t => (t.type, t.str)) ∧
      (tokenize_expression s (v ++ '-' :: d)).token_count = 2 ∧
      (tokenize_expression s (v ++ '-' :: d)).error_count = s.error_count ∧
      (∀ t ∈ (tokenize_expression s (v ++ '-' :: d)).tokens.take
          ((tokenize_expression s (v ++ '-' :: d)).token_count + 1), t.type ≠ TOK_MINUS) ∧
      ((digitsVal d : Int) ≤ 2 ^ 63 → max INT64_MIN (-(digitsVal d : Int)) = -(digitsVal d : Int))) ∧
    ((tokenize_expression s (v ++ '+' :: w)).tokens =
        tokens_after s.tokens
          [{ slot s.tokens 0 with type := TOK_VARIABLE, str := v },
           { slot s.tokens 1 with type := TOK_PLUS, str := ['+'] },
           { slot s.tokens 2 with type := TOK_VARIABLE, str := w }] ∧
      (tokenize_expression s (v ++ '+' :: w)).tokens.map (fun t => (t.type, t.str)) =
        [(TOK_VARIABLE, v), (TOK_PLUS, ['+']), (TOK_VARIABLE, w),
          (TOK_END, (slot s.tokens 3).str)] ++
          (s.tokens.drop 4).map (fun t => (t.type, t.str)) ∧
      (tokenize_expression s (v ++ '+' :: w)).token_count = 3 ∧
      (tokenize_expression s (v ++ '+' :: w)).error_count = s.error_count) := by
  obtain ⟨cv, csv, hveq, _, _⟩ := isIdentifier_spec v hv
  obtain ⟨cw, csw, hweq, _, _⟩ := isIdentifier_spec w hw
  obtain ⟨cd, csd, hdeq, _, _⟩ := isDigits_spec d hd
  subst hveq hweq
  have hminus : isIdentChar '-' = false := by decide
  have hplus : isIdentChar '+' = false := by decide
  have hms : isspace '-' = false := by decide
  have hps : isspace '+' = false := by decide
  obtain ⟨hvs, hscan1⟩ := scan_token_identifier (slot s.tokens 0) cv csv '-' d hv hminus
  obtain ⟨_, hscan2⟩ := scan_token_identifier (slot s.tokens 0) cv csv '+' (cw :: csw) hv hplus
  obtain ⟨hws, hscan3⟩ := scan_token_identifier_end (slot s.tokens 2) cw csw hw
  have h1 : tokenize_loop s.tokens (cv :: csv ++ '-' :: d).length 0 (cv :: csv ++ '-' :: d) =
      ([{ slot s.tokens 0 with type := TOK_VARIABLE, str := cv :: csv },
        { type := TOK_NUMBER, str := '-' :: d,
          num_value := max INT64_MIN (-(digitsVal d : Int)) }], 0) := by
    have hlen : (cv :: csv ++ '-' :: d).length = (csv.length + csd.length + 1) + 1 + 1 := by
      simp [hdeq]; omega
    rw [hlen, tokenize_loop_step _ _ _ _ cv (csv ++ '-' :: d)
        (by rw [List.cons_append, List.dropWhile_cons, if_neg (by simp [hvs])]),
      hscan1]
    simp only [Option.toList, List.length_singleton, Nat.zero_add]
    rw [tokenize_loop_step _ _ _ _ '-' d (by rw [List.dropWhile_cons, if_neg (by simp [hms])]),
      scan_token_minus_digits_end _ d hd, atoll_minus_digits d hd]
    simp only [Option.toList, tokenize_loop_nil]
    rfl
  have h2 : tokenize_loop s.tokens (cv :: csv ++ '+' :: cw :: csw).length 0
      (cv :: csv ++ '+' :: cw :: csw) =
      ([{ slot s.tokens 0 with type := TOK_VARIABLE, str := cv :: csv },
        { slot s.tokens 1 with type := TOK_PLUS, str := ['+'] },
        { slot s.tokens 2 with type := TOK_VARIABLE, str := cw :: csw }], 0) := by
    have hlen : (cv :: csv ++ '+' :: cw :: csw).length =
        (csv.length + csw.length) + 1 + 1 + 1 := by
      simp; omega
    rw [hlen, tokenize_loop_step _ _ _ _ cv (csv ++ '+' :: cw :: csw)
        (by rw [List.cons_append, List.dropWhile_cons, if_neg (by simp [hvs])]),
      hscan2]
    simp only [Option.toList, List.length_singleton, Nat.zero_add]
    rw [tokenize_loop_step _ _ _ _ '+' (cw :: csw)
        (by rw [List.dropWhile_cons, if_neg (by simp [hps])]),
      scan_token_plus]
    simp only [Option.toList, List.length_singleton]
    rw [tokenize_loop_step _ _ _ _ cw csw
        (by rw [List.dropWhile_cons, if_neg (by simp [hws])]),
      hscan3]
    simp only [Option.toList, tokenize_loop_nil]
    rfl
  refine ⟨⟨?_, ?_, ?_, ?_, ?_, ?_⟩, ?_, ?_, ?_, ?_⟩
  · simp only [tokenize_expression, h1]
  · simp only [tokenize_expression, h1, tokens_after]
    simp
  · simp only [tokenize_expression, h1]; rfl
  · simp only [tokenize_expression, h1]; simp
  · intro t ht
    simp only [tokenize_expression, h1, tokens_after, List.length_cons, List.length_nil] at ht
    simp only [List.cons_append, List.nil_append, List.take_succ_cons, List.take_zero,
      List.mem_cons, List.not_mem_nil, or_false] at ht
    rcases ht with h | h | h <;> subst h <;> simp
  · intro h
    simp only [INT64_MIN]
    omega
  · simp only [tokenize_expression, h2]
  · simp only [tokenize_expression, h2, tokens_after]
    simp
  · simp only [tokenize_expression, h2]; rfl
  · simp only [tokenize_expression, h2]; simp

set_option maxRecDepth 20000 in
/-- Witness of C4: from the initial state `a-5` is scanned as VARIABLE a, NUMBER -5, END
and `a+b` as VARIABLE a, PLUS, VARIABLE b, END; after `7 8 9` was scanned, the tokens of
`a+b` keep the values 7, 8 and 9 of the three slots they are written to. -/
theorem tokenize_minus_before_digit_witness :
    isIdentifier ['a'] = true ∧ isIdentifier ['b'] = true ∧ isDigits ['5'] = true ∧
    (tokenize_expression State.init "a-5".toList).tokens =
      [{ type := TOK_VARIABLE, str := ['a'], num_value := 0 },
       { type := TOK_NUMBER, str := ['-', '5'], num_value := -5 }, endToken] ∧
    (tokenize_expression State.init "a+b".toList).tokens =
      [{ type := TOK_VARIABLE, str := ['a'], num_value := 0 }, opToken TOK_PLUS '+',
       { type := TOK_VARIABLE, str := ['b'], num_value := 0 }, endToken] ∧
    (tokenize_expression (tokenize_expression State.init "7 8 9".toList) "a+b".toList).tokens =
      [{ type := TOK_VARIABLE, str := ['a'], num_value := 7 },
       { type := TOK_PLUS, str := ['+'], num_value := 8 },
       { type := TOK_VARIABLE, str := ['b'], num_value := 9 }, endToken] :=
  ⟨by decide, by decide, by decide,
    (tokenize_minus_before_digit State.init ['a'] ['b'] ['5'] (by decide) (by decide)
      (by decide) (by decide) (by decide) (by decide)).1.1.trans (by decide),
    (tokenize_minus_before_digit State.init ['a'] ['b'] ['5'] (by decide) (by decide)
      (by decide) (by decide) (by decide) (by decide)).2.1.trans (by decide),
    (tokenize_minus_before_digit (tokenize_expression State.init "7 8 9".toList) ['a'] ['b']
      ['5'] (by decide) (by decide) (by decide) (by decide) (by decide)
      (by decide)).2.1.trans (by decide)⟩

/-! ## Bit layout of the encoded words -/

theorem or_eq_add_of_lt (a b k : Nat) (hb : b < 2 ^ k) (ha : 2 ^ k ∣ a) : a ||| b = a + b := by
  obtain ⟨c, rfl⟩ := ha
  exact (Nat.mul_add_lt_is_or hb c).symm

theorem ldiff_mask (m : Nat) : Nat.ldiff 65535 m = 65535 - m % 65536 := by
  apply Nat.eq_of_testBit_eq
  intro i
  have h1 : (65535 : Nat) = 2 ^ 16 - 1 := by norm_num
  have h2 : (65535 - m % 65536 : Nat) = 2 ^ 16 - (m % 2 ^ 16 + 1) := by
    have : m % 65536 < 65536 := Nat.mod_lt _ (by norm_num)
    norm_num
    omega
  rw [Nat.testBit_ldiff, h2, Nat.testBit_two_pow_sub_succ (Nat.mod_lt _ (by norm_num)), h1,
    Nat.testBit_two_pow_sub_one, Nat.testBit_mod_two_pow]
  by_cases hi : i < 16 <;> simp [hi]

/-- The C expression `imm & 0xFFFF` is `imm` modulo 2^16. -/
theorem low16_eq (imm : Int) : low16 imm = (imm % 65536).toNat := by
  unfold low16
  cases imm with
  | ofNat m =>
    have h : Int.land (Int.ofNat m) 0xFFFF = ((m &&& 65535 : Nat) : Int) := rfl
    have h2 : (m &&& 65535 : Nat) = m % 65536 := Nat.and_pow_two_sub_one_eq_mod m 16
    rw [h, h2]
    simp only [Int.ofNat_eq_coe, Int.toNat_ofNat]
    omega
  | negSucc m =>
    have h : Int.land (Int.negSucc m) 0xFFFF = ((Nat.ldiff 65535 m : Nat) : Int) := rfl
    rw [h, ldiff_mask]
    simp only [Int.toNat_ofNat]
    have : (Int.negSucc m) = -((m : Int) + 1) := rfl
    omega

theorem low16_lt (imm : Int) : low16 imm < 65536 := by
  rw [low16_eq]
  omega

/-- An immediate-format word as a sum of its fields. -/
theorem enc_imm_eq (op rs rt v : Nat) (hop : op < 64) (hrs : rs < 32) (hrt : rt < 32)
    (hv : v < 65536) :
    toU32 ((op <<< 26) ||| (rs <<< 21) ||| (rt <<< 16) ||| v) =
      op * 67108864 + rs * 2097152 + rt * 65536 + v := by
  simp only [Nat.shiftLeft_eq]
  norm_num
  rw [or_eq_add_of_lt (op * 67108864) (rs * 2097152) 26 (by norm_num; omega) (by norm_num),
    or_eq_add_of_lt _ (rt * 65536) 21 (by norm_num; omega) (by norm_num; omega),
    or_eq_add_of_lt _ v 16 (by norm_num; omega) (by norm_num; omega)]
  unfold toU32
  norm_num
  omega

/-- A register-format word as a sum of its fields. -/
theorem enc_reg_eq (op rs rt rd f : Nat) (hop : op < 64) (hrs : rs < 32) (hrt : rt < 32)
    (hrd : rd < 32) (hf : f < 64) :
    toU32 ((op <<< 26) ||| (rs <<< 21) ||| (rt <<< 16) ||| (rd <<< 11) ||| f) =
      op * 67108864 + rs * 2097152 + rt * 65536 + rd * 2048 + f := by
  simp only [Nat.shiftLeft_eq]
  norm_num
  rw [or_eq_add_of_lt (op * 67108864) (rs * 2097152) 26 (by norm_num; omega) (by norm_num),
    or_eq_add_of_lt _ (rt * 65536) 21 (by norm_num; omega) (by norm_num; omega),
    or_eq_add_of_lt _ (rd * 2048) 16 (by norm_num; omega) (by norm_num; omega),
    or_eq_add_of_lt _ f 11 (by norm_num; omega) (by norm_num; omega)]
  unfold toU32
  norm_num
  omega

theorem iformat_of_sum (op rs rt v : Nat) (hop : op < 64) (hrs : rs < 32) (hrt : rt < 32)
    (hv : v < 65536) :
    IFormat (op * 67108864 + rs * 2097152 + rt * 65536 + v) op rs rt v := by
  simp only [IFormat, field, Nat.shiftRight_eq_div_pow]
  norm_num
  omega

theorem rformat_of_sum (op rs rt rd f : Nat) (hop : op < 64) (hrs : rs < 32) (hrt : rt < 32)
    (hrd : rd < 32) (hf : f < 64) :
    RFormat (op * 67108864 + rs * 2097152 + rt * 65536 + rd * 2048 + f) op rs rt rd 0 f := by
  simp only [RFormat, field, Nat.shiftRight_eq_div_pow]
  norm_num
  omega

theorem enc_daddiu_format (rt rs : Nat) (imm : Int) (hrt : rt < 32) (hrs : rs < 32) :
    IFormat (enc_daddiu rt rs imm) 0x19 rs rt (imm % 65536).toNat := by
  rw [← low16_eq]
  unfold enc_daddiu OPCODE_DADDIU
  rw [enc_imm_eq 0x19 rs rt _ (by norm_num) hrs hrt (low16_lt imm)]
  exact iformat_of_sum 0x19 rs rt _ (by norm_num) hrs hrt (low16_lt imm)

theorem enc_ld_format (rt : Nat) (offset : Int) (hrt : rt < 32) :
    IFormat (enc_ld rt offset) 0x37 29 rt (offset % 65536).toNat := by
  rw [← low16_eq]
  unfold enc_ld OPCODE_LD
  rw [enc_imm_eq 0x37 29 rt _ (by norm_num) (by norm_num) hrt (low16_lt offset)]
  exact iformat_of_sum 0x37 29 rt _ (by norm_num) (by norm_num) hrt (low16_lt offset)

theorem enc_sd_format (rt : Nat) (offset : Int) (hrt : rt < 32) :
    IFormat (enc_sd rt offset) 0x3F 29 rt (offset % 65536).toNat := by
  rw [← low16_eq]
  unfold enc_sd OPCODE_SD
  rw [enc_imm_eq 0x3F 29 rt _ (by norm_num) (by norm_num) hrt (low16_lt offset)]
  exact iformat_of_sum 0x3F 29 rt _ (by norm_num) (by norm_num) hrt (low16_lt offset)

theorem enc_daddu_format (rd rs rt : Nat) (hrd : rd < 32) (hrs : rs < 32) (hrt : rt < 32) :
    RFormat (enc_daddu rd rs rt) 0 rs rt rd 0 0x2D := by
  unfold enc_daddu OPCODE_SPECIAL FUNCT_DADDU
  rw [enc_reg_eq 0 rs rt rd 0x2D (by norm_num) hrs hrt hrd (by norm_num)]
  exact rformat_of_sum 0 rs rt rd 0x2D (by norm_num) hrs hrt hrd (by norm_num)

theorem enc_dsubu_format (rd rs rt : Nat) (hrd : rd < 32) (hrs : rs < 32) (hrt : rt < 32) :
    RFormat (enc_dsubu rd rs rt) 0 rs rt rd 0 0x2F := by
  unfold enc_dsubu OPCODE_SPECIAL FUNCT_DSUBU
  rw [enc_reg_eq 0 rs rt rd 0x2F (by norm_num) hrs hrt hrd (by norm_num)]
  exact rformat_of_sum 0 rs rt rd 0x2F (by norm_num) hrs hrt hrd (by norm_num)

theorem enc_dmult_format (rs rt : Nat) (hrs : rs < 32) (hrt : rt < 32) :
    RFormat (enc_dmult rs rt) 0 rs rt 0 0 0x1C := by
  have h : enc_dmult rs rt =
      toU32 ((0 <<< 26) ||| (rs <<< 21) ||| (rt <<< 16) ||| (0 <<< 11) ||| 0x1C) := by
    simp [enc_dmult, OPCODE_SPECIAL, FUNCT_DMULT]
  rw [h, enc_reg_eq 0 rs rt 0 0x1C (by norm_num) hrs hrt (by norm_num) (by norm_num)]
  exact rformat_of_sum 0 rs rt 0 0x1C (by norm_num) hrs hrt (by norm_num) (by norm_num)

theorem enc_ddiv_format (rs rt : Nat) (hrs : rs < 32) (hrt : rt < 32) :
    RFormat (enc_ddiv rs rt) 0 rs rt 0 0 0x1E := by
  have h : enc_ddiv rs rt =
      toU32 ((0 <<< 26) ||| (rs <<< 21) ||| (rt <<< 16) ||| (0 <<< 11) ||| 0x1E) := by
    simp [enc_ddiv, OPCODE_SPECIAL, FUNCT_DDIV]
  rw [h, enc_reg_eq 0 rs rt 0 0x1E (by norm_num) hrs hrt (by norm_num) (by norm_num)]
  exact rformat_of_sum 0 rs rt 0 0x1E (by norm_num) hrs hrt (by norm_num) (by norm_num)

theorem enc_mflo_format (rd : Nat) (hrd : rd < 32) :
    RFormat (enc_mflo rd) 0 0 0 rd 0 0x12 := by
  have h : enc_mflo rd =
      toU32 ((0 <<< 26) ||| (0 <<< 21) ||| (0 <<< 16) ||| (rd <<< 11) ||| 0x12) := by
    simp [enc_mflo, OPCODE_SPECIAL, FUNCT_MFLO]
  rw [h, enc_reg_eq 0 0 0 rd 0x12 (by norm_num) (by norm_num) (by norm_num) hrd (by norm_num)]
  exact rformat_of_sum 0 0 0 rd 0x12 (by norm_num) (by norm_num) (by norm_num) hrd (by norm_num)

/-- C5: for register numbers in 0..31 and every integer immediate or offset, each
emitter hands `emit_instr` a 32-bit word with the documented layout: DADDIU has opcode
0x19, `rs`, `rt` and the immediate modulo 2^16; DADDU and DSUBU have opcode 0, `rs`, `rt`,
`rd`, shift amount 0 and function codes 0x2D and 0x2F; DMULT and DDIV emit a word with
opcode 0, `rs`, `rt`, `rd` = 0, function codes 0x1C and 0x1E, followed by an MFLO word
with `rs` = `rt` = 0, `rd` and function code 0x12; LD and SD have opcodes 0x37 and 0x3F,
`rs` = 29, `rt` and the offset modulo 2^16. -/
theorem emitters_field_layout (s : State) (rs rt rd : Nat) (imm offset : Int)
    (name : List Char) (hrs : rs < 32) (hrt : rt < 32) (hrd : rd < 32) :
    (emit_daddiu s rt rs imm = emit_instr s (asm_daddiu rt rs imm) (enc_daddiu rt rs imm) ∧
      IFormat (enc_daddiu rt rs imm) 0x19 rs rt (imm % 2 ^ 16).toNat) ∧
    (emit_daddu s rd rs rt = emit_instr s (asm_daddu rd rs rt) (enc_daddu rd rs rt) ∧
      RFormat (enc_daddu rd rs rt) 0 rs rt rd 0 0x2D) ∧
    (emit_dsubu s rd rs rt = emit_instr s (asm_dsubu rd rs rt) (enc_dsubu rd rs rt) ∧
      RFormat (enc_dsubu rd rs rt) 0 rs rt rd 0 0x2F) ∧
    (emit_dmult s rs rt rd =
        emit_instr (emit_instr s (asm_dmult rs rt) (enc_dmult rs rt)) (asm_mflo rd) (enc_mflo rd) ∧
      RFormat (enc_dmult rs rt) 0 rs rt 0 0 0x1C ∧ RFormat (enc_mflo rd) 0 0 0 rd 0 0x12) ∧
    (emit_ddiv s rs rt rd =
        emit_instr (emit_instr s (asm_ddiv rs rt) (enc_ddiv rs rt)) (asm_mflo rd) (enc_mflo rd) ∧
      RFormat (enc_ddiv rs rt) 0 rs rt 0 0 0x1E ∧ RFormat (enc_mflo rd) 0 0 0 rd 0 0x12) ∧
    (emit_ld s rt name offset = emit_instr s (asm_ld rt name) (enc_ld rt offset) ∧
      IFormat (enc_ld rt offset) 0x37 29 rt (offset % 2 ^ 16).toNat) ∧
    (emit_sd s rt name offset = emit_instr s (asm_sd rt name) (enc_sd rt offset) ∧
      IFormat (enc_sd rt offset) 0x3F 29 rt (offset % 2 ^ 16).toNat) :=
  ⟨⟨rfl, enc_daddiu_format rt rs imm hrt hrs⟩,
    ⟨rfl, enc_daddu_format rd rs rt hrd hrs hrt⟩,
    ⟨rfl, enc_dsubu_format rd rs rt hrd hrs hrt⟩,
    ⟨rfl, enc_dmult_format rs rt hrs hrt, enc_mflo_format rd hrd⟩,
    ⟨rfl, enc_ddiv_format rs rt hrs hrt, enc_mflo_format rd hrd⟩,
    ⟨rfl, enc_ld_format rt offset hrt⟩,
    ⟨rfl, enc_sd_format rt offset hrt⟩⟩

/-- Witness of C5: registers 1, 2, 3, the immediate -50 and the offset 8. -/
theorem emitters_field_layout_witness :
    (1 : Nat) < 32 ∧ (2 : Nat) < 32 ∧ (3 : Nat) < 32 ∧
    IFormat (enc_daddiu 2 1 (-50)) 0x19 1 2 65486 ∧
    RFormat (enc_daddu 3 1 2) 0 1 2 3 0 0x2D ∧
    enc_daddiu 2 1 (-50) = 0x6422FFCE ∧ enc_daddu 3 1 2 = 0x0022182D :=
  ⟨by decide, by decide, by decide,
    (emitters_field_layout State.init 1 2 3 (-50) 8 ['a'] (by decide) (by decide)
      (by decide)).1.2,
    (emitters_field_layout State.init 1 2 3 (-50) 8 ['a'] (by decide) (by decide)
      (by decide)).2.1.2,
    by unfold enc_daddiu; rw [low16_eq]; decide, by decide⟩

/-! ## The binary and the hexadecimal rendering denote the encoding -/

theorem binValue_append (xs : List Char) (c : Char) :
    binValue (xs ++ [c]) = 2 * binValue xs + (if c = '1' then 1 else 0) := by
  simp [binValue, List.foldl_append]

theorem hexValue_append (xs : List Char) (c : Char) :
    hexValue (xs ++ [c]) = 16 * hexValue xs + hexDigitValue c := by
  simp [hexValue, List.foldl_append]

/-- The binary digits of the `n` low bits of `val`, most significant first, denote
`val` modulo 2^n. -/
theorem binValue_bits (n : Nat) : ∀ val : Nat,
    binValue ((List.range n).map fun k => if (val >>> (n - 1 - k)) &&& 1 ≠ 0 then '1' else '0')
      = val % 2 ^ n := by
  induction n with
  | zero => intro val; simp [binValue, Nat.mod_one]
  | succ n ih =>
    intro val
    rw [List.range_succ, List.map_append, List.map_singleton, binValue_append]
    have hpre : ((List.range n).map fun k =>
          if (val >>> (n + 1 - 1 - k)) &&& 1 ≠ 0 then '1' else '0') =
        ((List.range n).map fun k =>
          if ((val >>> 1) >>> (n - 1 - k)) &&& 1 ≠ 0 then '1' else '0') := by
      apply List.map_congr_left
      intro k hk
      have hk' : k < n := List.mem_range.1 hk
      rw [← Nat.shiftRight_add]
      have : 1 + (n - 1 - k) = n + 1 - 1 - k := by omega
      rw [this]
    rw [hpre, ih (val >>> 1)]
    have hlast : (if (val >>> (n + 1 - 1 - n)) &&& 1 ≠ 0 then '1' else '0') =
        (if val % 2 = 1 then '1' else '0') := by
      have : n + 1 - 1 - n = 0 := by omega
      rw [this, Nat.shiftRight_zero, Nat.and_one_is_mod]
      rcases Nat.mod_two_eq_zero_or_one val with h | h <;> simp [h]
    have hs : val >>> 1 = val / 2 := by rw [Nat.shiftRight_eq_div_pow, pow_one]
    rw [hlast, hs, Nat.pow_succ, Nat.mul_comm (2 ^ n) 2, Nat.mod_mul]
    rcases Nat.mod_two_eq_zero_or_one val with h | h
    · simp only [h, show ¬ ((0 : Nat) = 1) by decide, if_false]
      simp only [show ¬ ('0' = '1') by decide, if_false]
      omega
    · simp only [h, if_true]
      omega

theorem hexDigitValue_hexDigit (n : Nat) (h : n < 16) :
    hexDigitValue (hexDigit n) = n ∧ isUpperHexDigit (hexDigit n) = true := by
  interval_cases n <;> decide

/-- The hexadecimal digits of the `n` low nibbles of `val`, most significant first,
denote `val` modulo 16^n. -/
theorem hexValue_nibbles (n : Nat) : ∀ val : Nat,
    hexValue ((List.range n).map fun k => hexDigit ((val >>> (4 * (n - 1 - k))) % 16))
      = val % 16 ^ n := by
  induction n with
  | zero => intro val; simp [hexValue, Nat.mod_one]
  | succ n ih =>
    intro val
    rw [List.range_succ, List.map_append, List.map_singleton, hexValue_append]
    have hpre : ((List.range n).map fun k =>
          hexDigit ((val >>> (4 * (n + 1 - 1 - k))) % 16)) =
        ((List.range n).map fun k => hexDigit (((val >>> 4) >>> (4 * (n - 1 - k))) % 16)) := by
      apply List.map_congr_left
      intro k hk
      have hk' : k < n := List.mem_range.1 hk
      rw [← Nat.shiftRight_add]
      have : 4 + 4 * (n - 1 - k) = 4 * (n + 1 - 1 - k) := by omega
      rw [this]
    have hz : 4 * (n + 1 - 1 - n) = 0 := by omega
    have hs : val >>> 4 = val / 16 := by rw [Nat.shiftRight_eq_div_pow]
    rw [hpre, ih (val >>> 4), hz, Nat.shiftRight_zero,
      (hexDigitValue_hexDigit (val % 16) (Nat.mod_lt _ (by norm_num))).1, hs,
      Nat.pow_succ, Nat.mul_comm (16 ^ n) 16, Nat.mod_mul]
    omega

theorem int_to_bin_32_spec (val : Nat) :
    (int_to_bin_32 val).length = 32 ∧ (∀ c ∈ int_to_bin_32 val, c = '0' ∨ c = '1') ∧
      binValue (int_to_bin_32 val) = val % 2 ^ 32 := by
  refine ⟨by simp [int_to_bin_32], ?_, ?_⟩
  · intro c hc
    simp only [int_to_bin_32, List.mem_map] at hc
    obtain ⟨k, _, hk⟩ := hc
    split at hk <;> simp [← hk]
  · exact binValue_bits 32 val

theorem fmt_08X_spec (val : Nat) :
    (fmt_08X val).length = 8 ∧ (∀ c ∈ fmt_08X val, isUpperHexDigit c = true) ∧
      hexValue (fmt_08X val) = val % 2 ^ 32 := by
  refine ⟨by simp [fmt_08X], ?_, ?_⟩
  · intro c hc
    simp only [fmt_08X, List.mem_map] at hc
    obtain ⟨k, _, hk⟩ := hc
    rw [← hk]
    exact (hexDigitValue_hexDigit _ (Nat.mod_lt _ (by norm_num))).2
  · have := hexValue_nibbles 8 val
    have h : (16 : Nat) ^ 8 = 2 ^ 32 := by norm_num
    rw [h] at this
    exact this

/-- C6: for every 32-bit `encoding` and every state with room in the instruction list,
`emit_instr` appends one record; its binary string has 32 characters, each `0` or `1`,
its hex string has 8 uppercase hexadecimal digits, and read most significant digit first
both strings denote the encoding. -/
theorem emit_instr_renderings (s : State) (assembly : List Char) (encoding : Nat)
    (henc : encoding < 2 ^ 32) (hroom : s.instr_count < MAX_INSTR) :
    ∃ r : Instr, (emit_instr s assembly encoding).instrs = s.instrs ++ [r] ∧
      r.assembly = assembly ∧
      r.binary.length = 32 ∧ (∀ c ∈ r.binary, c = '0' ∨ c = '1') ∧
      r.hex.length = 8 ∧ (∀ c ∈ r.hex, isUpperHexDigit c = true) ∧
      binValue r.binary = encoding ∧ hexValue r.hex = encoding ∧
      hexValue r.hex = binValue r.binary := by
  obtain ⟨hb1, hb2, hb3⟩ := int_to_bin_32_spec encoding
  obtain ⟨hx1, hx2, hx3⟩ := fmt_08X_spec encoding
  rw [Nat.mod_eq_of_lt henc] at hb3 hx3
  exact ⟨instr_record assembly encoding, emit_instr_instrs s assembly encoding hroom, rfl,
    hb1, hb2, hx1, hx2, hb3, hx3, hx3.trans hb3.symm⟩

/-- Witness of C6: the word 0x64010003 of `DADDIU r1, r0, 3` emitted into the empty
list. -/
theorem emit_instr_renderings_witness :
    (0x64010003 : Nat) < 2 ^ 32 ∧ State.init.instr_count < MAX_INSTR ∧
    (∃ r : Instr, (emit_instr State.init (asm_daddiu 1 0 3) 0x64010003).instrs =
        State.init.instrs ++ [r] ∧
      r.assembly = asm_daddiu 1 0 3 ∧
      r.binary.length = 32 ∧ (∀ c ∈ r.binary, c = '0' ∨ c = '1') ∧
      r.hex.length = 8 ∧ (∀ c ∈ r.hex, isUpperHexDigit c = true) ∧
      binValue r.binary = 0x64010003 ∧ hexValue r.hex = 0x64010003 ∧
      hexValue r.hex = binValue r.binary) ∧
    (instr_record (asm_daddiu 1 0 3) 0x64010003).hex = "64010003".toList ∧
    (instr_record (asm_daddiu 1 0 3) 0x64010003).binary =
      "01100100000000010000000000000011".toList :=
  ⟨by decide, by decide,
    emit_instr_renderings State.init (asm_daddiu 1 0 3) 0x64010003 (by decide) (by decide),
    by decide, by decide⟩

/-! ## The symbol table invariant -/

theorem process_statement_cases (stray : Nat → Int) (s : State) (stmt : List Char) :
    process_statement stray s stmt = s ∨
      process_statement stray s stmt = report_error s ∨
      (∃ e, process_statement stray s stmt = (compile_expr stray s e).state) ∨
      (∃ name e, process_statement stray s stmt =
        store_result (compile_expr stray (declare_variable s name) e) name) := by
  by_cases h1 : stmt.dropWhile isspace = []
  · exact Or.inl (process_statement_empty stray s stmt h1)
  by_cases h2 : (stmt.dropWhile isspace).take 4 ≠ "int ".toList
  · exact Or.inr (Or.inr (Or.inl ⟨_, process_statement_bare stray s stmt h1 h2⟩))
  have h3 : stmt.dropWhile isspace = "int ".toList ++ (stmt.dropWhile isspace).drop 4 := by
    rw [← not_not.1 h2, List.take_append_drop]
  by_cases h4 : '=' ∈ (stmt.dropWhile isspace).drop 4
  · cases h5 : name_rejected (extract_name ((stmt.dropWhile isspace).drop 4)) with
    | true => exact Or.inr (Or.inl (process_statement_bad_name stray s stmt _ h3 h4 h5))
    | false =>
      exact Or.inr (Or.inr (Or.inr ⟨_, _, process_statement_decl stray s stmt _ h3 h4 h5⟩))
  · exact Or.inr (Or.inl (process_statement_no_eq stray s stmt _ h3 h4))

/-- Compiling an expression leaves the records of the table and the next offset alone. -/
theorem compile_expr_vars (stray : Nat → Int) (s : State) (e : List Char) :
    (compile_expr stray s e).state.vars = s.vars ∧
      (compile_expr stray s e).state.next_mem_offset = s.next_mem_offset := by
  have h := evaluate_rpn_frame stray
    { convert_to_rpn (tokenize_expression s e) with temp_reg_counter := 1 } 0
  exact ⟨h.vars, h.next_mem_offset⟩

theorem set_value_layout (vars : List Variable) (name : List Char) (x : Int) :
    (set_value vars name x).map (fun v => (v.name, v.mem_offset)) =
      vars.map fun v => (v.name, v.mem_offset) := by
  induction vars with
  | nil => rfl
  | cons v vs ih =>
    simp only [set_value]
    split <;> simp [ih]

theorem set_value_length (vars : List Variable) (name : List Char) (x : Int) :
    (set_value vars name x).length = vars.length := by
  have := congrArg List.length (set_value_layout vars name x)
  simpa using this

theorem emit_daddu_vars (s : State) (a b c : Nat) :
    (emit_daddu s a b c).vars = s.vars ∧
      (emit_daddu s a b c).next_mem_offset = s.next_mem_offset ∧
      (emit_daddu s a b c).error_count = s.error_count :=
  ⟨emit_instr_vars _ _ _, emit_instr_next_mem_offset _ _ _, emit_instr_error_count _ _ _⟩

theorem emit_sd_vars (s : State) (rt : Nat) (name : List Char) (off : Int) :
    (emit_sd s rt name off).vars = s.vars ∧
      (emit_sd s rt name off).next_mem_offset = s.next_mem_offset ∧
      (emit_sd s rt name off).error_count = s.error_count :=
  ⟨emit_instr_vars _ _ _, emit_instr_next_mem_offset _ _ _, emit_instr_error_count _ _ _⟩

/-- The store at the end of a declaration changes at most the value of the target. -/
theorem store_result_vars (r : EvalResult) (name : List Char) :
    ((store_result r name).vars = set_value r.state.vars name r.result_value ∨
        (store_result r name).vars = r.state.vars) ∧
      (store_result r name).next_mem_offset = r.state.next_mem_offset ∧
      (store_result r name).error_count = r.state.error_count := by
  unfold store_result
  split
  · simp only []
    split_ifs
    · refine ⟨Or.inl ?_, ?_, ?_⟩
      · rw [(emit_sd_vars _ _ _ _).1, (emit_daddu_vars _ _ _ _).1]
      · rw [(emit_sd_vars _ _ _ _).2.1, (emit_daddu_vars _ _ _ _).2.1]
      · rw [(emit_sd_vars _ _ _ _).2.2, (emit_daddu_vars _ _ _ _).2.2]
    · refine ⟨Or.inl ?_, ?_, ?_⟩
      · rw [(emit_sd_vars _ _ _ _).1]
      · rw [(emit_sd_vars _ _ _ _).2.1]
      · rw [(emit_sd_vars _ _ _ _).2.2]
  · exact ⟨Or.inr rfl, rfl, rfl⟩

theorem store_result_layout (r : EvalResult) (name : List Char) :
    layout (store_result r name) = layout r.state ∧
      (store_result r name).var_count = r.state.var_count := by
  rcases (store_result_vars r name).1 with h | h
  · simp only [layout, State.var_count, h, set_value_layout, set_value_length, and_self]
  · simp only [layout, State.var_count, h, and_self]

/-- A statement leaves the layout of the table as it is or as `declare_variable` of some
name makes it. -/
theorem process_statement_layout (stray : Nat → Int) (s : State) (stmt : List Char) :
    ∃ t, (t = s ∨ ∃ name, t = declare_variable s name) ∧
      layout (process_statement stray s stmt) = layout t ∧
      (process_statement stray s stmt).var_count = t.var_count ∧
      (process_statement stray s stmt).next_mem_offset = t.next_mem_offset := by
  rcases process_statement_cases stray s stmt with h | h | ⟨e, h⟩ | ⟨name, e, h⟩
  · exact ⟨s, Or.inl rfl, by rw [h], by rw [h], by rw [h]⟩
  · exact ⟨s, Or.inl rfl, by rw [h]; rfl, by rw [h]; rfl, by rw [h]; rfl⟩
  · have hc := compile_expr_vars stray s e
    exact ⟨s, Or.inl rfl, by rw [h]; simp only [layout, hc.1],
      by rw [h]; simp only [State.var_count, hc.1], by rw [h]; exact hc.2⟩
  · have hc := compile_expr_vars stray (declare_variable s name) e
    have hs := store_result_layout (compile_expr stray (declare_variable s name) e) name
    have hv := store_result_vars (compile_expr stray (declare_variable s name) e) name
    refine ⟨declare_variable s name, Or.inr ⟨name, rfl⟩, ?_, ?_, ?_⟩
    · rw [h, hs.1]; simp only [layout, hc.1]
    · rw [h, hs.2]; simp only [State.var_count, hc.1]
    · rw [h, hv.2.1, hc.2]

theorem get_variable_none_iff (s : State) (name : List Char) :
    get_variable s name = none ↔ name ∉ (layout s).map Prod.fst := by
  simp only [get_variable, List.find?_eq_none, decide_eq_true_eq, layout, List.map_map,
    List.mem_map, Function.comp_apply, not_exists, not_and]

theorem layout_length (s : State) : (layout s).length = s.var_count := by
  simp [layout, State.var_count]

/-- What `declare_variable` does to the layout: nothing for a known name, one new entry
at the next offset for a new name. -/
theorem declare_variable_layout (s : State) (name : List Char) :
    (get_variable s name ≠ none ∧ declare_variable s name = s) ∨
      (get_variable s name = none ∧
        layout (declare_variable s name) = layout s ++ [(name, s.next_mem_offset)] ∧
        (declare_variable s name).var_count = s.var_count + 1 ∧
        (declare_variable s name).next_mem_offset = s.next_mem_offset + 8) := by
  unfold declare_variable
  cases h : get_variable s name with
  | some v => exact Or.inl ⟨by simp, rfl⟩
  | none => exact Or.inr ⟨rfl, by simp [layout], by simp [State.var_count], rfl⟩

theorem declare_variable_inv (s : State) (name : List Char) (h : TableInv s) :
    TableInv (declare_variable s name) ∧ OffsetsKept s (declare_variable s name) := by
  rcases declare_variable_layout s name with ⟨_, he⟩ | ⟨hn, hl, hc, hx⟩
  · rw [he]
    exact ⟨h, fun i p hp => hp⟩
  · obtain ⟨h1, h2, h3⟩ := h
    have hlen := layout_length s
    refine ⟨⟨?_, ?_, ?_⟩, ?_⟩
    · rw [hl, List.map_append, List.map_singleton]
      refine List.Nodup.append h1 (List.nodup_singleton _) (fun x hx1 hx2 => ?_)
      have hxn : x = name := List.mem_singleton.1 hx2
      rw [hxn] at hx1
      exact (get_variable_none_iff s name).1 hn hx1
    · intro i p hp
      rw [hl] at hp
      by_cases hi : i < (layout s).length
      · rw [List.getElem?_append_left hi] at hp
        exact h2 i p hp
      · rw [List.getElem?_append_right (by omega)] at hp
        have hi0 : i - (layout s).length = 0 := by
          by_contra hne
          have : [(name, s.next_mem_offset)][i - (layout s).length]? = none := by
            apply List.getElem?_eq_none
            simp only [List.length_singleton]
            omega
          rw [this] at hp
          exact absurd hp (by simp)
        rw [hi0] at hp
        simp only [List.getElem?_cons_zero, Option.some.injEq] at hp
        subst hp
        simp only [h3]
        have : i = s.var_count := by omega
        rw [this]
    · rw [hx, hc, h3]
      push_cast
      ring
    · intro i p hp
      rw [hl]
      have hi : i < (layout s).length := by
        by_contra hne
        rw [List.getElem?_eq_none (by omega)] at hp
        exact absurd hp (by simp)
      rw [List.getElem?_append_left hi]
      exact hp

theorem TableInv.of_layout {s t : State} (h : TableInv t) (hl : layout s = layout t)
    (hc : s.var_count = t.var_count) (hn : s.next_mem_offset = t.next_mem_offset) :
    TableInv s := by
  unfold TableInv at *
  rw [hl, hc, hn]
  exact h

/-- C7: the symbol table invariant (names pairwise distinct, the variable at position `i`
has offset `8 * (i + 1)`, the next offset is `8 * (var_count + 1)`) holds in the initial
state. It is preserved by `declare_variable` for a name that fits the 32 bytes of
`Variable.name`, when the table of `MAX_VARS` records has a free record, and by
`process_statement`, whatever the stray memory, on every statement whose tokens fit the
token array, when the table has a free record; both leave every existing variable at
its position with its name and offset. The source tests none of these capacities, so
that nothing is claimed of a run that writes past an array. -/
theorem table_invariant :
    TableInv State.init ∧
    (∀ (s : State) (name : List Char), TableInv s → s.var_count < MAX_VARS →
      name.length < NAME_SIZE →
      TableInv (declare_variable s name) ∧ OffsetsKept s (declare_variable s name)) ∧
    (∀ (stray : Nat → Int) (s : State) (stmt : List Char), TableInv s →
      s.var_count < MAX_VARS → tokens_fit (process_statement stray s stmt) →
      TableInv (process_statement stray s stmt) ∧
        OffsetsKept s (process_statement stray s stmt)) := by
  refine ⟨?_, fun s name h _ _ => declare_variable_inv s name h, ?_⟩
  · refine ⟨by simp [layout, State.init], ?_, by simp [State.init, State.var_count]⟩
    intro i p hp
    simp [layout, State.init] at hp
  · intro stray s stmt h _ _
    obtain ⟨t, ht, hl, hc, hn⟩ := process_statement_layout stray s stmt
    rcases ht with rfl | ⟨name, rfl⟩
    · exact ⟨h.of_layout hl hc hn, fun i p hp => by rw [hl]; exact hp⟩
    · have hd := declare_variable_inv s name h
      exact ⟨hd.1.of_layout hl hc hn, fun i p hp => by rw [hl]; exact hd.2 i p hp⟩

set_option maxRecDepth 20000 in
/-- Witness of C7: the invariant holds after `declare_variable` of `ab` and after
`int a = 1` from the initial state, and after a second declaration the layout is a at 8,
b at 16. -/
theorem table_invariant_witness :
    TableInv State.init ∧
    State.init.var_count < MAX_VARS ∧ ['a', 'b'].length < NAME_SIZE ∧
    tokens_fit (process_statement (fun _ => 0) State.init "int a = 1".toList) ∧
    TableInv (declare_variable State.init ['a', 'b']) ∧
    TableInv (process_statement (fun _ => 0) State.init "int a = 1".toList) ∧
    layout (process_statement (fun _ => 0)
      (process_statement (fun _ => 0) State.init "int a = 1".toList) "int b = a".toList) =
        [(['a'], 8), (['b'], 16)] :=
  ⟨table_invariant.1, by decide, by decide, by decide,
    (table_invariant.2.1 State.init ['a', 'b'] table_invariant.1 (by decide) (by decide)).1,
    (table_invariant.2.2 (fun _ => 0) State.init "int a = 1".toList
      table_invariant.1 (by decide) (by decide)).1, by decide⟩

/-! ## Re-declaration -/

theorem get_variable_congr (s t : State) (h : t.vars = s.vars) (name : List Char) :
    get_variable t name = get_variable s name := by
  simp only [get_variable, h]

theorem find_set_value_same (vars : List Variable) (n : List Char) (x : Int) :
    (set_value vars n x).find? (fun v => v.name = n) =
      (vars.find? fun v => v.name = n).map fun v => { v with value := x } := by
  induction vars with
  | nil => rfl
  | cons v vs ih =>
    simp only [set_value]
    by_cases h : v.name = n
    · simp [h]
    · simp [h, ih]

theorem find_set_value_other (vars : List Variable) (n m : List Char) (x : Int) (h : m ≠ n) :
    (set_value vars n x).find? (fun v => v.name = m) = vars.find? fun v => v.name = m := by
  induction vars with
  | nil => rfl
  | cons v vs ih =>
    simp only [set_value]
    by_cases hn : v.name = n
    · have hm : ¬ v.name = m := by rw [hn]; exact fun e => h e.symm
      rw [if_pos hn, List.find?_cons_of_neg _ (by simpa using hm),
        List.find?_cons_of_neg _ (by simpa using hm)]
    · rw [if_neg hn]
      by_cases hm : v.name = m
      · rw [List.find?_cons_of_pos _ (by simpa using hm),
          List.find?_cons_of_pos _ (by simpa using hm)]
      · rw [List.find?_cons_of_neg _ (by simpa using hm),
          List.find?_cons_of_neg _ (by simpa using hm), ih]

/-- C9: a non-empty statement that does not start with `int ` is compiled as an
expression and nothing more: the state after it is the state after `evaluate_rpn` on its
converted tokens, the symbol table (records and next offset) is unchanged, the
instructions already emitted stay, and every record appended carries a mnemonic of the
evaluator, none of them SD. -/
theorem bare_expression_statement (stray : Nat → Int) (s : State) (stmt : List Char)
    (hne : stmt.dropWhile isspace ≠ [])
    (hint : (stmt.dropWhile isspace).take 4 ≠ "int ".toList) :
    process_statement stray s stmt =
      (evaluate_rpn stray
        { convert_to_rpn (tokenize_expression s (stmt.dropWhile isspace)) with
          temp_reg_counter := 1 } 0).state ∧
    (process_statement stray s stmt).vars = s.vars ∧
    (process_statement stray s stmt).next_mem_offset = s.next_mem_offset ∧
    ∃ added, (process_statement stray s stmt).instrs = s.instrs ++ added ∧
      ∀ x ∈ added, mnemonic x ∈ evalMnemonics ∧ mnemonic x ≠ "SD".toList := by
  have hp := process_statement_bare stray s stmt hne hint
  have hf := evaluate_rpn_frame stray
    { convert_to_rpn (tokenize_expression s (stmt.dropWhile isspace)) with
      temp_reg_counter := 1 } 0
  obtain ⟨added, ha, hm⟩ := hf.instrs
  refine ⟨hp, ?_, ?_, added, ?_, ?_⟩
  · rw [hp]; exact hf.vars
  · rw [hp]; exact hf.next_mem_offset
  · rw [hp]; exact ha
  · intro x hx
    refine ⟨hm x hx, ?_⟩
    intro h
    have := hm x hx
    rw [h] at this
    revert this
    decide

set_option maxRecDepth 20000 in
/-- Witness of C9: `3+4` from the initial state appends `DADDIU r1, r0, 3`,
`DADDIU r2, r0, 4` and `DADDU r3, r1, r2` and leaves the table empty. -/
theorem bare_expression_statement_witness :
    "3+4".toList.dropWhile isspace ≠ [] ∧
    ("3+4".toList.dropWhile isspace).take 4 ≠ "int ".toList ∧
    (process_statement (fun _ => 0) State.init "3+4".toList).instrs =
      [instr_record (asm_daddiu 1 0 3) (enc_daddiu 1 0 3),
       instr_record (asm_daddiu 2 0 4) (enc_daddiu 2 0 4),
       instr_record (asm_daddu 3 1 2) (enc_daddu 3 1 2)] ∧
    (process_statement (fun _ => 0) State.init "3+4".toList).instrs.map mnemonic =
      ["DADDIU".toList, "DADDIU".toList, "DADDU".toList] ∧
    (process_statement (fun _ => 0) State.init "3+4".toList).vars = [] :=
  ⟨by decide, by decide, by decide, by decide,
    (bare_expression_statement (fun _ => 0) State.init "3+4".toList (by decide)
      (by decide)).2.1⟩

/-! ## Values after a statement whose evaluation fails -/

/-- `evaluate_rpn` either counts no error, or counts exactly one and leaves
`*result_value` as it was. -/
theorem eval_loop_outcome (stray : Nat → Int) (toks : List Token) :
    ∀ (i : Nat) (stack : List (Nat × Int)) (s : State) (rv : Int),
      (eval_loop stray toks i stack s rv).state.error_count = s.error_count ∨
      ((eval_loop stray toks i stack s rv).state.error_count = s.error_count + 1 ∧
        (eval_loop stray toks i stack s rv).result_value = rv) := by
  induction toks with
  | nil =>
    intro i stack s rv
    simp only [eval_loop, eval_finish]
    split
    · exact Or.inl rfl
    · exact Or.inr ⟨rfl, rfl⟩
  | cons tok rest ih =>
    intro i stack s rv
    simp only [eval_loop]
    cases h : eval_step stray tok i stack s with
    | none => exact Or.inr ⟨rfl, rfl⟩
    | some next =>
      have hs := (eval_step_frame stray tok i stack s next h).2
      simp only []
      rw [← hs]
      exact ih _ _ _ _

theorem compile_expr_eq_evaluate (stray : Nat → Int) (s : State) (e : List Char) :
    compile_expr stray s e = evaluate_rpn stray (eval_input s e) 0 := rfl

/-- A failed evaluation leaves the result variable of `process_statement` at its initial
value 0. -/
theorem compile_expr_failed (stray : Nat → Int) (s : State) (e : List Char)
    (h : (compile_expr stray s e).state.error_count = (eval_input s e).error_count + 1) :
    (compile_expr stray s e).result_value = 0 := by
  rw [compile_expr_eq_evaluate] at h ⊢
  rcases eval_loop_outcome stray (eval_input s e).rpn_queue 0 [] (eval_input s e) 0 with h1 | h1
  · simp only [evaluate_rpn] at h
    omega
  · exact h1.2

theorem decl_target_none (stray : Nat → Int) (s : State) (stmt : List Char)
    (h : decl_target stmt = none) :
    (process_statement stray s stmt).vars = s.vars := by
  have hcases : process_statement stray s stmt = s ∨
      process_statement stray s stmt = report_error s ∨
      process_statement stray s stmt = (compile_expr stray s (stmt.dropWhile isspace)).state := by
    by_cases h1 : stmt.dropWhile isspace = []
    · exact Or.inl (process_statement_empty stray s stmt h1)
    by_cases h2 : (stmt.dropWhile isspace).take 4 ≠ "int ".toList
    · exact Or.inr (Or.inr (process_statement_bare stray s stmt h1 h2))
    have h3 : stmt.dropWhile isspace = "int ".toList ++ (stmt.dropWhile isspace).drop 4 := by
      rw [← not_not.1 h2, List.take_append_drop]
    by_cases h4 : '=' ∈ (stmt.dropWhile isspace).drop 4
    · cases h5 : name_rejected (extract_name ((stmt.dropWhile isspace).drop 4)) with
      | true => exact Or.inr (Or.inl (process_statement_bad_name stray s stmt _ h3 h4 h5))
      | false =>
        exfalso
        simp only [decl_target, not_not.1 h2, h4, h5, and_self, if_true] at h
        exact absurd h (by simp)
    · exact Or.inr (Or.inl (process_statement_no_eq stray s stmt _ h3 h4))
  rcases hcases with h | h | h
  · rw [h]
  · rw [h]; rfl
  · rw [h]; exact (compile_expr_vars stray s _).1

theorem decl_target_some (stray : Nat → Int) (s : State) (stmt n : List Char)
    (h : decl_target stmt = some n) :
    process_statement stray s stmt =
      store_result (compile_expr stray (declare_variable s n) (decl_expr stmt)) n := by
  unfold decl_target at h
  split at h
  · rename_i hc
    simp only [Option.some.injEq] at h
    subst h
    have h3 : stmt.dropWhile isspace = "int ".toList ++ (stmt.dropWhile isspace).drop 4 := by
      rw [← hc.1, List.take_append_drop]
    exact process_statement_decl stray s stmt _ h3 hc.2.1 hc.2.2
  · exact absurd h (by simp)

theorem get_variable_declare_other (s : State) (n m : List Char) (h : m ≠ n) :
    get_variable (declare_variable s n) m = get_variable s m := by
  unfold declare_variable
  cases hg : get_variable s n with
  | some v => rfl
  | none =>
    simp only [get_variable, List.find?_append]
    have : List.find? (fun v : Variable => decide (v.name = m))
        [({ name := n, value := 0, mem_offset := s.next_mem_offset, is_declared := true } :
          Variable)] = none := by
      rw [List.find?_cons_of_neg _ (by simpa using fun e => h e.symm)]
      rfl
    rw [this]
    simp

theorem get_variable_declare_same (s : State) (n : List Char) :
    ∃ v, get_variable (declare_variable s n) n = some v := by
  unfold declare_variable
  cases hg : get_variable s n with
  | some v => exact ⟨v, hg⟩
  | none =>
    simp only [get_variable] at hg
    simp only [get_variable, List.find?_append, hg]
    exact ⟨{ name := n, value := 0, mem_offset := s.next_mem_offset, is_declared := true },
      by simp⟩

/-- The table after a declaration with target `n`: the table with `n` declared, with the
returned value stored in the record of `n`. -/
theorem decl_vars (stray : Nat → Int) (s : State) (stmt n : List Char)
    (h : decl_target stmt = some n) :
    (process_statement stray s stmt).vars =
      set_value (declare_variable s n).vars n
        (compile_expr stray (declare_variable s n) (decl_expr stmt)).result_value := by
  rw [decl_target_some stray s stmt n h]
  have hc := compile_expr_vars stray (declare_variable s n) (decl_expr stmt)
  obtain ⟨v, hv⟩ := get_variable_declare_same s n
  have hg : get_variable (compile_expr stray (declare_variable s n) (decl_expr stmt)).state n =
      some v := by
    rw [get_variable_congr _ _ hc.1, hv]
  unfold store_result
  rw [hg]
  simp only []
  split_ifs
  · rw [(emit_sd_vars _ _ _ _).1, (emit_daddu_vars _ _ _ _).1, hc.1]
  · rw [(emit_sd_vars _ _ _ _).1, hc.1]

/-- C10 as stated fails: after `int a = 5` the statement `int a = b` refers to the
undeclared `b`, its evaluation counts one error, and the value of the existing variable
`a` changes from 5 to 0. -/
theorem failed_declaration_changes_value :
    get_variable (process_statement (fun _ => 0) State.init "int a = 5".toList) ['a'] =
      some { name := ['a'], value := 5, mem_offset := 8, is_declared := true } ∧
    (process_statement (fun _ => 0)
        (process_statement (fun _ => 0) State.init "int a = 5".toList)
        "int a = b".toList).error_count =
      (process_statement (fun _ => 0) State.init "int a = 5".toList).error_count + 1 ∧
    get_variable (process_statement (fun _ => 0)
        (process_statement (fun _ => 0) State.init "int a = 5".toList)
        "int a = b".toList) ['a'] =
      some { name := ['a'], value := 0, mem_offset := 8, is_declared := true } := by
  decide

/-- C10 (amended): whatever the statement and the stray memory, `process_statement`
leaves the record of every variable other than the target of the declaration as it was
(a statement that is not an accepted declaration has no target and changes no record);
and when the evaluation of the right-hand side of a declaration with target `n` signals
an error, the record of `n` (just declared, or declared before) gets the value 0, the
initial content of the result variable. -/
theorem failed_statement_values (stray : Nat → Int) (s : State) (stmt : List Char) :
    (∀ m : List Char, decl_target stmt ≠ some m →
      get_variable (process_statement stray s stmt) m = get_variable s m) ∧
    (∀ n : List Char, decl_target stmt = some n →
      (compile_expr stray (declare_variable s n) (decl_expr stmt)).state.error_count =
        (eval_input (declare_variable s n) (decl_expr stmt)).error_count + 1 →
      ∃ v, get_variable (declare_variable s n) n = some v ∧
        get_variable (process_statement stray s stmt) n = some { v with value := 0 }) := by
  constructor
  · intro m hm
    cases ht : decl_target stmt with
    | none => exact get_variable_congr _ _ (decl_target_none stray s stmt ht) m
    | some n =>
      have hmn : m ≠ n := by
        intro e
        rw [ht, e] at hm
        exact hm rfl
      simp only [get_variable]
      rw [decl_vars stray s stmt n ht, find_set_value_other _ _ _ _ hmn]
      exact get_variable_declare_other s n m hmn
  · intro n ht herr
    obtain ⟨v, hv⟩ := get_variable_declare_same s n
    refine ⟨v, hv, ?_⟩
    have h0 := compile_expr_failed stray (declare_variable s n) (decl_expr stmt) herr
    simp only [get_variable] at hv ⊢
    rw [decl_vars stray s stmt n ht, find_set_value_same, hv, h0]
    rfl

/-- Witness of C10 (amended): after `int a = 5` and `int c = 7`, the failing statement
`int a = b` keeps the record of `c` and sets the value of `a` to 0. -/
theorem failed_statement_values_witness :
    decl_target "int a = b".toList = some ['a'] ∧
    get_variable (process_statement (fun _ => 0)
        (process_all (fun _ _ => 0) 0 State.init ["int a = 5".toList, "int c = 7".toList])
        "int a = b".toList) ['c'] =
      some { name := ['c'], value := 7, mem_offset := 16, is_declared := true } ∧
    (∃ v, get_variable (declare_variable
          (process_all (fun _ _ => 0) 0 State.init ["int a = 5".toList, "int c = 7".toList])
          ['a']) ['a'] = some v ∧
        get_variable (process_statement (fun _ => 0)
          (process_all (fun _ _ => 0) 0 State.init ["int a = 5".toList, "int c = 7".toList])
          "int a = b".toList) ['a'] = some { v with value := 0 }) ∧
    get_variable (process_statement (fun _ => 0)
        (process_all (fun _ _ => 0) 0 State.init ["int a = 5".toList, "int c = 7".toList])
        "int a = b".toList) ['a'] =
      some { name := ['a'], value := 0, mem_offset := 8, is_declared := true } :=
  ⟨by decide,
    ((failed_statement_values (fun _ => 0)
      (process_all (fun _ _ => 0) 0 State.init ["int a = 5".toList, "int c = 7".toList])
      "int a = b".toList).1 ['c'] (by decide)).trans (by decide),
    (failed_statement_values (fun _ => 0)
      (process_all (fun _ _ => 0) 0 State.init ["int a = 5".toList, "int c = 7".toList])
      "int a = b".toList).2 ['a'] (by decide) (by decide),
    by decide⟩

/-! ## Rejected declarations -/

/-- C14: a statement that starts with `int ` and has no `=`, or has one but an extracted
target name that does not start with a letter or underscore (the empty name included),
is rejected as a whole: the state after it is the state before it with the error count
raised by one, so the symbol table and the instruction list are unchanged. -/
theorem rejected_declaration_atomic (stray : Nat → Int) (s : State) (stmt rest : List Char)
    (hstmt : stmt.dropWhile isspace = "int ".toList ++ rest)
    (hrej : '=' ∉ rest ∨ ('=' ∈ rest ∧ name_rejected (extract_name rest) = true)) :
    process_statement stray s stmt = report_error s ∧
    (process_statement stray s stmt).error_count = s.error_count + 1 ∧
    (process_statement stray s stmt).vars = s.vars ∧
    (process_statement stray s stmt).next_mem_offset = s.next_mem_offset ∧
    (process_statement stray s stmt).instrs = s.instrs := by
  have h : process_statement stray s stmt = report_error s := by
    rcases hrej with h | ⟨h1, h2⟩
    · exact process_statement_no_eq stray s stmt rest hstmt h
    · exact process_statement_bad_name stray s stmt rest hstmt h1 h2
  rw [h]
  exact ⟨rfl, rfl, rfl, rfl, rfl⟩

/-- Witness of C14: `int x` has no `=`, `int 9a = 1` and `int = 1` have a target that is
rejected; each counts one error and leaves table and instructions empty. -/
theorem rejected_declaration_atomic_witness :
    "int x".toList.dropWhile isspace = "int ".toList ++ "x".toList ∧
    '=' ∉ "x".toList ∧
    process_statement (fun _ => 0) State.init "int x".toList = report_error State.init ∧
    process_statement (fun _ => 0) State.init "int 9a = 1".toList = report_error State.init ∧
    process_statement (fun _ => 0) State.init "int = 1".toList = report_error State.init ∧
    (report_error State.init).error_count = 1 ∧ (report_error State.init).vars = [] ∧
    (report_error State.init).instrs = [] :=
  ⟨by decide, by decide,
    (rejected_declaration_atomic (fun _ => 0) State.init "int x".toList "x".toList (by decide)
      (Or.inl (by decide))).1,
    (rejected_declaration_atomic (fun _ => 0) State.init "int 9a = 1".toList "9a = 1".toList
      (by decide) (Or.inr ⟨by decide, by decide⟩)).1,
    (rejected_declaration_atomic (fun _ => 0) State.init "int = 1".toList "= 1".toList
      (by decide) (Or.inr ⟨by decide, by decide⟩)).1,
    by decide, by decide, by decide⟩

/-! ## Runs of the loop and the first failing token -/

/-- After a run of tokens without error exit the loop continues with what follows. -/
theorem eval_loop_append (stray : Nat → Int) (pre rest : List Token) :
    ∀ (i : Nat) (stack : List (Nat × Int)) (s : State) (rv : Int)
      (next : List (Nat × Int) × State),
      eval_steps stray pre i stack s = some next →
      eval_loop stray (pre ++ rest) i stack s rv =
        eval_loop stray rest (i + pre.length) next.1 next.2 rv := by
  induction pre with
  | nil =>
    intro i stack s rv next h
    simp only [eval_steps, Option.some.injEq] at h
    subst h
    simp
  | cons tok pre ih =>
    intro i stack s rv next h
    simp only [eval_steps] at h
    cases hs : eval_step stray tok i stack s with
    | none => rw [hs] at h; exact absurd h (by simp)
    | some n =>
      rw [hs] at h
      rw [List.cons_append, eval_loop, hs]
      simp only []
      rw [ih (i + 1) n.1 n.2 rv next h, List.length_cons]
      congr 1
      omega

/-- A run of tokens without error exit counts no error and only adds records of the
evaluator. -/
theorem eval_steps_frame (stray : Nat → Int) (pre : List Token) :
    ∀ (i : Nat) (stack : List (Nat × Int)) (s : State) (next : List (Nat × Int) × State),
      eval_steps stray pre i stack s = some next →
      EvalFrame s next.2 ∧ next.2.error_count = s.error_count := by
  induction pre with
  | nil =>
    intro i stack s next h
    simp only [eval_steps, Option.some.injEq] at h
    subst h
    exact ⟨EvalFrame.refl s, rfl⟩
  | cons tok pre ih =>
    intro i stack s next h
    simp only [eval_steps] at h
    cases hs : eval_step stray tok i stack s with
    | none => rw [hs] at h; exact absurd h (by simp)
    | some n =>
      rw [hs] at h
      have h1 := eval_step_frame stray tok i stack s n hs
      have h2 := ih (i + 1) n.1 n.2 next h
      exact ⟨EvalFrame.step h1.1 h1.2 h2.1, h2.2.trans h1.2⟩

/-- C11: when the tokens before a VARIABLE token are evaluated without error exit and
the name of that token is not in the symbol table, `evaluate_rpn` stops there whatever
follows: the globals are those reached before the token with one more error and the
register counter advanced by one, so no LD is emitted for the token and nothing for a
later token; the register returned is the counter reached, and `*result_value` is what
the caller had put there. -/
theorem undeclared_variable_aborts (stray : Nat → Int) (s : State) (rv : Int)
    (pre post : List Token) (tok : Token) (reached : List (Nat × Int) × State)
    (hq : s.rpn_queue = pre ++ tok :: post)
    (hpre : eval_steps stray pre 0 [] s = some reached)
    (htok : tok.type = TOK_VARIABLE) (habs : get_variable s tok.str = none) :
    (evaluate_rpn stray s rv).state.error_count = s.error_count + 1 ∧
    (evaluate_rpn stray s rv).result_value = rv ∧
    (evaluate_rpn stray s rv).state.instrs = reached.2.instrs ∧
    (evaluate_rpn stray s rv).reg = reached.2.temp_reg_counter ∧
    (evaluate_rpn stray s rv).state =
      { report_error reached.2 with temp_reg_counter := reached.2.temp_reg_counter + 1 } ∧
    (evaluate_rpn stray s rv).state.vars = s.vars := by
  obtain ⟨hf, he⟩ := eval_steps_frame stray pre 0 [] s reached hpre
  have hg : get_variable reached.2 tok.str = none := by
    rw [get_variable_congr s reached.2 hf.vars, habs]
  have hr : evaluate_rpn stray s rv = eval_fail reached.2 rv := by
    unfold evaluate_rpn
    rw [hq, eval_loop_append stray pre (tok :: post) 0 [] s rv reached hpre,
      eval_loop_variable stray tok post _ _ _ _ htok, hg]
  rw [hr]
  refine ⟨?_, rfl, rfl, rfl, rfl, hf.vars⟩
  simp only [eval_fail, report_error, he]

/-- Witness of C11: in the postfix sequence `1 zz yy` with an empty table the literal is
loaded, the evaluation stops at `zz` with one error, one instruction and the result
value 7 of the caller untouched. -/
theorem undeclared_variable_aborts_witness :
    eval_steps (fun _ => 0) [{ type := TOK_NUMBER, str := ['1'], num_value := 1 }] 0 []
        { State.init with rpn_queue :=
          [{ type := TOK_NUMBER, str := ['1'], num_value := 1 },
           { type := TOK_VARIABLE, str := ['z', 'z'], num_value := 0 },
           { type := TOK_VARIABLE, str := ['y', 'y'], num_value := 0 }] } =
      some ([(1, 1)], emit_daddiu
        { State.init with
          rpn_queue :=
            [{ type := TOK_NUMBER, str := ['1'], num_value := 1 },
             { type := TOK_VARIABLE, str := ['z', 'z'], num_value := 0 },
             { type := TOK_VARIABLE, str := ['y', 'y'], num_value := 0 }],
          temp_reg_counter := 2 } 1 0 1) ∧
    (evaluate_rpn (fun _ => 0)
        { State.init with rpn_queue :=
          [{ type := TOK_NUMBER, str := ['1'], num_value := 1 },
           { type := TOK_VARIABLE, str := ['z', 'z'], num_value := 0 },
           { type := TOK_VARIABLE, str := ['y', 'y'], num_value := 0 }] } 7).state.error_count
      = 1 ∧
    (evaluate_rpn (fun _ => 0)
        { State.init with rpn_queue :=
          [{ type := TOK_NUMBER, str := ['1'], num_value := 1 },
           { type := TOK_VARIABLE, str := ['z', 'z'], num_value := 0 },
           { type := TOK_VARIABLE, str := ['y', 'y'], num_value := 0 }] } 7).result_value = 7 ∧
    (evaluate_rpn (fun _ => 0)
        { State.init with rpn_queue :=
          [{ type := TOK_NUMBER, str := ['1'], num_value := 1 },
           { type := TOK_VARIABLE, str := ['z', 'z'], num_value := 0 },
           { type := TOK_VARIABLE, str := ['y', 'y'], num_value := 0 }] } 7).state.instrs =
      [instr_record (asm_daddiu 1 0 1) (enc_daddiu 1 0 1)] :=
  ⟨by decide,
    (undeclared_variable_aborts (fun _ => 0)
      { State.init with rpn_queue :=
        [{ type := TOK_NUMBER, str := ['1'], num_value := 1 },
         { type := TOK_VARIABLE, str := ['z', 'z'], num_value := 0 },
         { type := TOK_VARIABLE, str := ['y', 'y'], num_value := 0 }] } 7
      [{ type := TOK_NUMBER, str := ['1'], num_value := 1 }]
      [{ type := TOK_VARIABLE, str := ['y', 'y'], num_value := 0 }]
      { type := TOK_VARIABLE, str := ['z', 'z'], num_value := 0 }
      ([(1, 1)], emit_daddiu
        { State.init with
          rpn_queue :=
            [{ type := TOK_NUMBER, str := ['1'], num_value := 1 },
             { type := TOK_VARIABLE, str := ['z', 'z'], num_value := 0 },
             { type := TOK_VARIABLE, str := ['y', 'y'], num_value := 0 }],
          temp_reg_counter := 2 } 1 0 1) rfl (by decide) rfl
      (by decide)).1,
    (undeclared_variable_aborts (fun _ => 0)
      { State.init with rpn_queue :=
        [{ type := TOK_NUMBER, str := ['1'], num_value := 1 },
         { type := TOK_VARIABLE, str := ['z', 'z'], num_value := 0 },
         { type := TOK_VARIABLE, str := ['y', 'y'], num_value := 0 }] } 7
      [{ type := TOK_NUMBER, str := ['1'], num_value := 1 }]
      [{ type := TOK_VARIABLE, str := ['y', 'y'], num_value := 0 }]
      { type := TOK_VARIABLE, str := ['z', 'z'], num_value := 0 }
      ([(1, 1)], emit_daddiu
        { State.init with
          rpn_queue :=
            [{ type := TOK_NUMBER, str := ['1'], num_value := 1 },
             { type := TOK_VARIABLE, str := ['z', 'z'], num_value := 0 },
             { type := TOK_VARIABLE, str := ['y', 'y'], num_value := 0 }],
          temp_reg_counter := 2 } 1 0 1) rfl (by decide) rfl
      (by decide)).2.1,
    by decide⟩

/-! ## Errors of the evaluation and the stack discipline -/

theorem eval_fail_error_count (s : State) (rv : Int) :
    (eval_fail s rv).state.error_count = s.error_count + 1 := rfl

/-- On literals and operators the evaluation counts no error exactly when the stack
discipline is respected from the current stack and one value remains. -/
theorem eval_loop_error_iff (stray : Nat → Int) (toks : List Token)
    (hall : ∀ t ∈ toks, t.type = TOK_NUMBER ∨ isBinopType t.type = true) :
    ∀ (i : Nat) (stack : List (Nat × Int)) (s : State) (rv : Int),
      (eval_loop stray toks i stack s rv).state.error_count = s.error_count ↔
        rpn_depth toks stack.length = some 1 := by
  induction toks with
  | nil =>
    intro i stack s rv
    rw [eval_loop_nil]
    match stack with
    | [] => simp [eval_finish_nil, eval_fail_error_count, rpn_depth]
    | [top] => simp [eval_finish_one, rpn_depth]
    | a :: b :: l => simp [eval_finish_two, eval_fail_error_count, rpn_depth]
  | cons tok rest ih =>
    intro i stack s rv
    have hrest : ∀ t ∈ rest, t.type = TOK_NUMBER ∨ isBinopType t.type = true :=
      fun t ht => hall t (List.mem_cons_of_mem _ ht)
    rcases hall tok (List.mem_cons_self _ _) with hn | hb
    · have hnb : isBinopType tok.type = false := by simp [hn, isBinopType]
      have hop : isOperandType tok.type = true := by simp [hn, isOperandType]
      have h := ih hrest (i + 1) ((s.temp_reg_counter, tok.num_value) :: stack)
        (emit_daddiu { s with temp_reg_counter := s.temp_reg_counter + 1 } s.temp_reg_counter 0
          (wrap32 tok.num_value)) rv
      have he : (emit_daddiu { s with temp_reg_counter := s.temp_reg_counter + 1 }
          s.temp_reg_counter 0 (wrap32 tok.num_value)).error_count = s.error_count := by
        simp [emit_daddiu, emit_instr_error_count]
      rw [he] at h
      rw [eval_loop_number stray tok rest i stack s rv hn, h]
      simp [rpn_depth, hnb, hop]
    · match stack with
      | [] =>
        rw [eval_loop_op_underflow stray tok rest i [] s rv hb (by simp)]
        simp [rpn_depth, hb, eval_fail_error_count]
      | [a] =>
        rw [eval_loop_op_underflow stray tok rest i [a] s rv hb (by simp)]
        simp [rpn_depth, hb, eval_fail_error_count]
      | right :: left :: below =>
        have h := ih hrest (i + 1)
          ((s.temp_reg_counter, fold_op tok.type (read_below stray i below) left.2) :: below)
          (emit_op { s with temp_reg_counter := s.temp_reg_counter + 1 } tok.type
            s.temp_reg_counter left.1 right.1) rv
        have he : (emit_op { s with temp_reg_counter := s.temp_reg_counter + 1 } tok.type
            s.temp_reg_counter left.1 right.1).error_count = s.error_count := by
          simp [emit_op_error_count]
        rw [he] at h
        rw [eval_loop_op stray tok rest i right left below s rv hb, h]
        simp [rpn_depth, hb]

/-- C12: on a postfix sequence of NUMBER tokens and binary operators `evaluate_rpn`
leaves the error count unchanged if and only if the sequence is valid postfix (every
operator finds at least two values on the stack and exactly one value remains at the
end), and otherwise raises it by exactly one; the empty sequence and two literals without
operator are each one error. -/
theorem evaluate_rpn_error_iff_invalid (stray : Nat → Int) (s : State) (rv : Int)
    (hall : ∀ t ∈ s.rpn_queue, t.type = TOK_NUMBER ∨ isBinopType t.type = true) :
    ((evaluate_rpn stray s rv).state.error_count = s.error_count ↔
        validRpn s.rpn_queue = true) ∧
    (validRpn s.rpn_queue = false →
      (evaluate_rpn stray s rv).state.error_count = s.error_count + 1) ∧
    (s.rpn_queue = [] → (evaluate_rpn stray s rv).state.error_count = s.error_count + 1) ∧
    (∀ a b : Token, a.type = TOK_NUMBER → b.type = TOK_NUMBER → s.rpn_queue = [a, b] →
      (evaluate_rpn stray s rv).state.error_count = s.error_count + 1) := by
  have hiff := eval_loop_error_iff stray s.rpn_queue hall 0 [] s rv
  have hout := eval_loop_outcome stray s.rpn_queue 0 [] s rv
  have hinv : validRpn s.rpn_queue = false →
      (evaluate_rpn stray s rv).state.error_count = s.error_count + 1 := by
    intro hv
    rcases hout with h | h
    · have h1 : rpn_depth s.rpn_queue 0 = some 1 := hiff.1 h
      simp only [validRpn, h1, decide_True] at hv
      exact absurd hv (by simp)
    · exact h.1
  refine ⟨?_, hinv, ?_, ?_⟩
  · simp only [evaluate_rpn, validRpn, decide_eq_true_eq]
    exact hiff
  · intro he
    apply hinv
    rw [he]
    rfl
  · intro a b ha hb he
    apply hinv
    rw [he]
    simp [validRpn, rpn_depth, isBinopType, isOperandType, ha, hb]

/-- Witness of C12: `1 2 +` is valid and counts no error, `1 2` and `1 +` are not and
count one error each. -/
theorem evaluate_rpn_error_iff_invalid_witness :
    validRpn [{ type := TOK_NUMBER, str := ['1'], num_value := 1 },
      { type := TOK_NUMBER, str := ['2'], num_value := 2 }, opToken TOK_PLUS '+'] = true ∧
    (evaluate_rpn (fun _ => 0)
      { State.init with rpn_queue :=
        [{ type := TOK_NUMBER, str := ['1'], num_value := 1 },
         { type := TOK_NUMBER, str := ['2'], num_value := 2 }, opToken TOK_PLUS '+'] }
      0).state.error_count = 0 ∧
    (evaluate_rpn (fun _ => 0)
      { State.init with rpn_queue :=
        [{ type := TOK_NUMBER, str := ['1'], num_value := 1 },
         { type := TOK_NUMBER, str := ['2'], num_value := 2 }] } 0).state.error_count = 1 ∧
    (evaluate_rpn (fun _ => 0)
      { State.init with rpn_queue :=
        [{ type := TOK_NUMBER, str := ['1'], num_value := 1 }, opToken TOK_PLUS '+'] }
      0).state.error_count = 1 :=
  ⟨by decide,
    ((evaluate_rpn_error_iff_invalid (fun _ => 0)
      { State.init with rpn_queue :=
        [{ type := TOK_NUMBER, str := ['1'], num_value := 1 },
         { type := TOK_NUMBER, str := ['2'], num_value := 2 }, opToken TOK_PLUS '+'] } 0
      (by decide)).1.2 (by decide)),
    ((evaluate_rpn_error_iff_invalid (fun _ => 0)
      { State.init with rpn_queue :=
        [{ type := TOK_NUMBER, str := ['1'], num_value := 1 },
         { type := TOK_NUMBER, str := ['2'], num_value := 2 }] } 0
      (by decide)).2.1 (by decide)),
    ((evaluate_rpn_error_iff_invalid (fun _ => 0)
      { State.init with rpn_queue :=
        [{ type := TOK_NUMBER, str := ['1'], num_value := 1 }, opToken TOK_PLUS '+'] } 0
      (by decide)).2.1 (by decide))⟩

/-! ## The fold of a division -/

/-- C13 (evaluation at every input of the claim): on the postfix sequence
`a b /` of two literals `evaluate_rpn` counts no error and, with room for four records,
emits DADDIU, DADDIU, DDIV, MFLO as the claim says; but the value it folds is not the
quotient of `a` by `b`: the divisor read is the slot of the left operand, that is `a`,
and the dividend read is the slot in front of the value stack. The result is 0 when
`a` is 0 and `stray / a` otherwise; the literal `b` is not used at all. -/
theorem evaluate_rpn_division_fold (stray : Nat → Int) (s : State) (rv : Int)
    (ta tb td : Token) (ha : ta.type = TOK_NUMBER) (hb : tb.type = TOK_NUMBER)
    (hd : td.type = TOK_DIV) (hq : s.rpn_queue = [ta, tb, td])
    (hroom : s.instrs.length + 4 ≤ MAX_INSTR) :
    (evaluate_rpn stray s rv).result_value =
      (if ta.num_value ≠ 0 then wrap64 (Int.tdiv (stray 2) ta.num_value) else 0) ∧
    (evaluate_rpn stray s rv).state.error_count = s.error_count ∧
    (evaluate_rpn stray s rv).reg = s.temp_reg_counter + 2 ∧
    (evaluate_rpn stray s rv).state.instrs = s.instrs ++
      [instr_record (asm_daddiu s.temp_reg_counter 0 (wrap32 ta.num_value))
        (enc_daddiu s.temp_reg_counter 0 (wrap32 ta.num_value)),
       instr_record (asm_daddiu (s.temp_reg_counter + 1) 0 (wrap32 tb.num_value))
        (enc_daddiu (s.temp_reg_counter + 1) 0 (wrap32 tb.num_value)),
       instr_record (asm_ddiv s.temp_reg_counter (s.temp_reg_counter + 1))
        (enc_ddiv s.temp_reg_counter (s.temp_reg_counter + 1)),
       instr_record (asm_mflo (s.temp_reg_counter + 2)) (enc_mflo (s.temp_reg_counter + 2))] := by
  have hbin : isBinopType td.type = true := by simp [hd, isBinopType]
  unfold evaluate_rpn
  rw [hq, eval_loop_number stray ta _ _ _ _ _ ha, eval_loop_number stray tb _ _ _ _ _ hb,
    eval_loop_op stray td _ _ _ _ _ _ _ hbin, eval_loop_nil, eval_finish_one]
  refine ⟨?_, ?_, ?_, ?_⟩
  · simp [fold_op, read_below, hd]
  · simp [emit_op_error_count, emit_daddiu, emit_instr_error_count]
  · simp [emit_daddiu, emit_instr_temp_reg_counter]
  · simp only [emit_op, hd, emit_ddiv, emit_daddiu, emit_instr_temp_reg_counter]
    simp only [show ¬ (TOK_DIV = TOK_PLUS) by decide, show ¬ (TOK_DIV = TOK_MINUS) by decide,
      show ¬ (TOK_DIV = TOK_MULT) by decide, if_false, if_true]
    have h1 : (emit_instr { s with temp_reg_counter := s.temp_reg_counter + 1 }
        (asm_daddiu s.temp_reg_counter 0 (wrap32 ta.num_value))
        (enc_daddiu s.temp_reg_counter 0 (wrap32 ta.num_value))).instrs = s.instrs ++
          [instr_record (asm_daddiu s.temp_reg_counter 0 (wrap32 ta.num_value))
            (enc_daddiu s.temp_reg_counter 0 (wrap32 ta.num_value))] :=
      emit_instr_instrs _ _ _ (by simp only []; omega)
    rw [emit_instr_instrs _ _ _ (by
        rw [emit_instr_instrs _ _ _ (by
          simp only []
          rw [emit_instr_instrs _ _ _ (by simp only []; rw [h1]; simp; omega), h1]
          simp; omega)]
        simp only []
        rw [emit_instr_instrs _ _ _ (by simp only []; rw [h1]; simp; omega), h1]
        simp; omega),
      emit_instr_instrs _ _ _ (by
        simp only []
        rw [emit_instr_instrs _ _ _ (by simp only []; rw [h1]; simp; omega), h1]
        simp; omega)]
    simp only []
    rw [emit_instr_instrs _ _ _ (by simp only []; rw [h1]; simp; omega), h1]
    simp

/-- Witness of C13: with 100 in the stray slot, `6 3 /` folds to 100 / 6 = 16 and not to
2, and `6 0 /` folds to 16 as well and not to 0. -/
theorem evaluate_rpn_division_fold_witness :
    (evaluate_rpn (fun _ => 100)
      { State.init with rpn_queue :=
        [{ type := TOK_NUMBER, str := ['6'], num_value := 6 },
         { type := TOK_NUMBER, str := ['3'], num_value := 3 }, opToken TOK_DIV '/'] }
      0).result_value = 16 ∧
    (evaluate_rpn (fun _ => 100)
      { State.init with rpn_queue :=
        [{ type := TOK_NUMBER, str := ['6'], num_value := 6 },
         { type := TOK_NUMBER, str := ['0'], num_value := 0 }, opToken TOK_DIV '/'] }
      0).result_value = 16 ∧
    (evaluate_rpn (fun _ => 100)
      { State.init with rpn_queue :=
        [{ type := TOK_NUMBER, str := ['6'], num_value := 6 },
         { type := TOK_NUMBER, str := ['3'], num_value := 3 }, opToken TOK_DIV '/'] }
      0).state.error_count = 0 :=
  ⟨(evaluate_rpn_division_fold (fun _ => 100)
      { State.init with rpn_queue :=
        [{ type := TOK_NUMBER, str := ['6'], num_value := 6 },
         { type := TOK_NUMBER, str := ['3'], num_value := 3 }, opToken TOK_DIV '/'] } 0
      { type := TOK_NUMBER, str := ['6'], num_value := 6 }
      { type := TOK_NUMBER, str := ['3'], num_value := 3 } (opToken TOK_DIV '/')
      rfl rfl rfl rfl (by decide)).1.trans (by decide),
    (evaluate_rpn_division_fold (fun _ => 100)
      { State.init with rpn_queue :=
        [{ type := TOK_NUMBER, str := ['6'], num_value := 6 },
         { type := TOK_NUMBER, str := ['0'], num_value := 0 }, opToken TOK_DIV '/'] } 0
      { type := TOK_NUMBER, str := ['6'], num_value := 6 }
      { type := TOK_NUMBER, str := ['0'], num_value := 0 } (opToken TOK_DIV '/')
      rfl rfl rfl rfl (by decide)).1.trans (by decide),
    (evaluate_rpn_division_fold (fun _ => 100)
      { State.init with rpn_queue :=
        [{ type := TOK_NUMBER, str := ['6'], num_value := 6 },
         { type := TOK_NUMBER, str := ['3'], num_value := 3 }, opToken TOK_DIV '/'] } 0
      { type := TOK_NUMBER, str := ['6'], num_value := 6 }
      { type := TOK_NUMBER, str := ['3'], num_value := 3 } (opToken TOK_DIV '/')
      rfl rfl rfl rfl (by decide)).2.1⟩

/-! ## The records of an evaluation, token by token -/

theorem emit_instr_room (s : State) (a : List Char) (e : Nat)
    (h : s.instrs.length + 1 ≤ MAX_INSTR) :
    (emit_instr s a e).instrs = s.instrs ++ [instr_record a e] :=
  emit_instr_instrs s a e (by omega)

theorem emit_instr_two_room (s : State) (a b : List Char) (e f : Nat)
    (h : s.instrs.length + 2 ≤ MAX_INSTR) :
    (emit_instr (emit_instr s a e) b f).instrs =
      s.instrs ++ [instr_record a e, instr_record b f] := by
  have h1 := emit_instr_room s a e (by omega)
  rw [emit_instr_room _ b f (by rw [h1]; simp; omega), h1]
  simp

theorem op_records_length_le (ty : TokenType) (rd rs rt : Nat) :
    (op_records ty rd rs rt).length ≤ 2 := by
  unfold op_records
  split_ifs <;> simp

/-- With room for them, `emit_op` appends the records of the operator. -/
theorem emit_op_instrs (s : State) (ty : TokenType) (rd rs rt : Nat)
    (h : s.instrs.length + (op_records ty rd rs rt).length ≤ MAX_INSTR) :
    (emit_op s ty rd rs rt).instrs = s.instrs ++ op_records ty rd rs rt := by
  unfold emit_op op_records at *
  split_ifs at h ⊢
  · exact emit_instr_room s _ _ (by simpa using h)
  · exact emit_instr_room s _ _ (by simpa using h)
  · exact emit_instr_two_room s _ _ _ _ (by simpa using h)
  · exact emit_instr_two_room s _ _ _ _ (by simpa using h)
  · simp

theorem isBinopType_iff (ty : TokenType) :
    isBinopType ty = true ↔
      (ty = TOK_PLUS ∨ ty = TOK_MINUS ∨ ty = TOK_MULT ∨ ty = TOK_DIV) := by
  cases ty <;> simp [isBinopType]

/-- One iteration of the loop that takes no error exit appends, with room for them, the
records of its token, and its register bookkeeping is the one of `token_records`. -/
theorem eval_step_records (stray : Nat → Int) (tok : Token) (i : Nat)
    (stack : List (Nat × Int)) (s : State) (next : List (Nat × Int) × State)
    (h : eval_step stray tok i stack s = some next) :
    ∃ recs, token_records s.vars tok s.temp_reg_counter (stack.map Prod.fst) =
        some (recs, next.2.temp_reg_counter, next.1.map Prod.fst) ∧
      (s.instrs.length + recs.length ≤ MAX_INSTR → next.2.instrs = s.instrs ++ recs) := by
  unfold eval_step at h
  unfold token_records
  by_cases h1 : tok.type = TOK_NUMBER
  · rw [if_pos h1] at h
    rw [if_pos h1]
    simp only [Option.some.injEq] at h
    subst h
    refine ⟨[instr_record (asm_daddiu s.temp_reg_counter 0 (wrap32 tok.num_value))
        (enc_daddiu s.temp_reg_counter 0 (wrap32 tok.num_value))], ?_, ?_⟩
    · simp [emit_daddiu, emit_instr_temp_reg_counter]
    · intro hr
      exact emit_instr_room _ _ _ (by simpa using hr)
  rw [if_neg h1] at h
  rw [if_neg h1]
  by_cases h2 : tok.type = TOK_VARIABLE
  · rw [if_pos h2] at h
    rw [if_pos h2]
    simp only [get_variable] at h
    cases hf : s.vars.find? (fun v => v.name = tok.str) with
    | none => rw [hf] at h; exact absurd h (by simp)
    | some var =>
      rw [hf] at h
      simp only [Option.some.injEq] at h
      subst h
      refine ⟨[instr_record (asm_ld s.temp_reg_counter tok.str)
        (enc_ld s.temp_reg_counter var.mem_offset)], ?_, ?_⟩
      · simp [emit_ld, emit_instr_temp_reg_counter]
      · intro hr
        exact emit_instr_room _ _ _ (by simpa using hr)
  rw [if_neg h2] at h
  rw [if_neg h2]
  by_cases h3 : isBinopType tok.type = true
  · rw [if_pos ((isBinopType_iff _).1 h3)] at h
    rw [if_pos h3]
    match stack, h with
    | right :: left :: below, h =>
      simp only [Option.some.injEq] at h
      subst h
      refine ⟨op_records tok.type s.temp_reg_counter left.1 right.1, ?_, ?_⟩
      · simp [emit_op_temp_reg_counter]
      · intro hr
        exact emit_op_instrs _ _ _ _ _ hr
  · rw [if_neg (fun hc => h3 ((isBinopType_iff _).2 hc))] at h
    rw [if_neg h3]
    simp only [Option.some.injEq] at h
    subst h
    exact ⟨[], rfl, fun _ => by simp⟩

/-- An evaluation that counts no error ran every token without error exit and ended with
exactly one value on the stack: it returns the register and value of that entry and the
state reached by the run. -/
theorem eval_loop_success (stray : Nat → Int) (toks : List Token) :
    ∀ (i : Nat) (stack : List (Nat × Int)) (s : State) (rv : Int),
      (eval_loop stray toks i stack s rv).state.error_count = s.error_count →
      ∃ final top, eval_steps stray toks i stack s = some final ∧ final.1 = [top] ∧
        eval_loop stray toks i stack s rv =
          { reg := top.1, result_value := top.2, state := final.2 } := by
  induction toks with
  | nil =>
    intro i stack s rv h
    rw [eval_loop_nil] at h ⊢
    match stack, h with
    | [], h => rw [eval_finish_nil, eval_fail_error_count] at h; omega
    | [top], _ => exact ⟨([top], s), top, rfl, rfl, rfl⟩
    | a :: b :: l, h => rw [eval_finish_two, eval_fail_error_count] at h; omega
  | cons tok rest ih =>
    intro i stack s rv h
    rw [eval_loop] at h ⊢
    rw [eval_steps]
    cases hs : eval_step stray tok i stack s with
    | none =>
      rw [hs] at h
      simp only [eval_fail_error_count] at h
      omega
    | some n =>
      rw [hs] at h
      simp only [] at h ⊢
      have h1 := eval_step_frame stray tok i stack s n hs
      exact ih (i + 1) n.1 n.2 rv (h.trans h1.2.symm)

/-- A run without error exit appends, with room for them, the expected records of its
tokens. -/
theorem eval_steps_records (stray : Nat → Int) (toks : List Token) :
    ∀ (i : Nat) (stack : List (Nat × Int)) (s : State) (final : List (Nat × Int) × State),
      eval_steps stray toks i stack s = some final →
      s.instrs.length +
        (expected_records s.vars toks s.temp_reg_counter (stack.map Prod.fst)).length ≤
          MAX_INSTR →
      final.2.instrs =
        s.instrs ++ expected_records s.vars toks s.temp_reg_counter (stack.map Prod.fst) := by
  induction toks with
  | nil =>
    intro i stack s final h _
    simp only [eval_steps, Option.some.injEq] at h
    subst h
    simp [expected_records]
  | cons tok rest ih =>
    intro i stack s final h hroom
    rw [eval_steps] at h
    cases hs : eval_step stray tok i stack s with
    | none => rw [hs] at h; exact absurd h (by simp)
    | some n =>
      rw [hs] at h
      simp only [] at h
      obtain ⟨recs, hrec, hins⟩ := eval_step_records stray tok i stack s n hs
      have hv : n.2.vars = s.vars := (eval_step_frame stray tok i stack s n hs).1.vars
      rw [expected_records, hrec] at hroom ⊢
      simp only [List.length_append] at hroom
      have h1 := hins (by omega)
      have h2 := ih (i + 1) n.1 n.2 final h (by rw [hv, h1, List.length_append]; omega)
      rw [h2, h1, hv, List.append_assoc]

/-! ## The shapes of the appended records -/

theorem EmitsBelow.same (lo b : Nat) (s t : State) (h : t.instrs = s.instrs) :
    EmitsBelow lo b s t :=
  ⟨[], by simp [h], by simp⟩

theorem Emitted.rtFrom_mono {lo lo2 : Nat} (sh : Emitted) (h : sh.rtFrom lo) (hle : lo2 ≤ lo) :
    sh.rtFrom lo2 := by
  cases sh <;> first | trivial | exact le_trans hle h

theorem EmitsBelow.chain {lo a b : Nat} {s t u : State} (h1 : EmitsBelow lo a s t)
    (h2 : EmitsBelow lo b t u) (hab : a ≤ b) : EmitsBelow lo b s u := by
  obtain ⟨l1, e1, p1⟩ := h1
  obtain ⟨l2, e2, p2⟩ := h2
  refine ⟨l1 ++ l2, by rw [e2, e1, List.map_append, List.append_assoc], ?_⟩
  intro sh hsh
  rcases List.mem_append.1 hsh with h | h
  · exact ⟨fun r hr => lt_of_lt_of_le ((p1 sh h).1 r hr) hab, (p1 sh h).2⟩
  · exact p2 sh h

theorem EmitsBelow.weaken {lo lo2 b : Nat} {s t : State} (h : EmitsBelow lo b s t)
    (hle : lo2 ≤ lo) : EmitsBelow lo2 b s t := by
  obtain ⟨l, e, p⟩ := h
  exact ⟨l, e, fun sh hsh => ⟨(p sh hsh).1, sh.rtFrom_mono (p sh hsh).2 hle⟩⟩

/-- The record of an emitted instruction is appended, or dropped at a full list. -/
theorem EmitsBelow.of_emit_instr (lo b : Nat) (s : State) (sh : Emitted)
    (h : ∀ r ∈ sh.regs, r < b) (hlo : sh.rtFrom lo) :
    EmitsBelow lo b s (emit_instr s sh.text sh.word) := by
  rw [EmitsBelow, emit_instr_instrs_cases]
  by_cases hr : s.instrs.length < MAX_INSTR
  · rw [if_pos hr]
    exact ⟨[sh], rfl, by simpa using ⟨h, hlo⟩⟩
  · rw [if_neg hr]
    exact ⟨[], rfl, by simp⟩

theorem EmitsBelow.of_operator (lo b : Nat) (s : State) (ty : TokenType) (rd rs rt : Nat)
    (hrd : rd < b) (hrs : rs < b) (hrt : rt < b) (hlo : lo ≤ rt) :
    EmitsBelow lo b s (emit_op s ty rd rs rt) := by
  unfold emit_op
  split_ifs
  · exact EmitsBelow.of_emit_instr lo b s (.daddu rd rs rt)
      (by simp [Emitted.regs, hrd, hrs, hrt]) hlo
  · exact EmitsBelow.of_emit_instr lo b s (.dsubu rd rs rt)
      (by simp [Emitted.regs, hrd, hrs, hrt]) trivial
  · exact EmitsBelow.chain
      (EmitsBelow.of_emit_instr lo b s (.dmult rs rt) (by simp [Emitted.regs, hrs, hrt]) trivial)
      (EmitsBelow.of_emit_instr lo b _ (.mflo rd) (by simp [Emitted.regs, hrd]) trivial)
      (le_refl b)
  · exact EmitsBelow.chain
      (EmitsBelow.of_emit_instr lo b s (.ddiv rs rt) (by simp [Emitted.regs, hrs, hrt]) trivial)
      (EmitsBelow.of_emit_instr lo b _ (.mflo rd) (by simp [Emitted.regs, hrd]) trivial)
      (le_refl b)
  · exact EmitsBelow.same lo b s s rfl

/-- One iteration of the loop without error exit: the records it appends print registers
below the counter it leaves (or below 32), its additions take their right operand from
the stack, and the entries of its stack stay between `lo` and the counter. -/
theorem eval_step_below (stray : Nat → Int) (lo : Nat) (tok : Token) (i : Nat)
    (stack : List (Nat × Int)) (s : State) (next : List (Nat × Int) × State)
    (hst : ∀ p ∈ stack, lo ≤ p.1 ∧ p.1 < s.temp_reg_counter)
    (hlo : lo ≤ s.temp_reg_counter)
    (h : eval_step stray tok i stack s = some next) :
    EmitsBelow lo (max next.2.temp_reg_counter 32) s next.2 ∧
      (∀ p ∈ next.1, lo ≤ p.1 ∧ p.1 < next.2.temp_reg_counter) ∧
      s.temp_reg_counter ≤ next.2.temp_reg_counter := by
  unfold eval_step at h
  by_cases h1 : tok.type = TOK_NUMBER
  · rw [if_pos h1] at h
    simp only [Option.some.injEq] at h
    subst h
    have hc : (emit_daddiu { s with temp_reg_counter := s.temp_reg_counter + 1 }
        s.temp_reg_counter 0 (wrap32 tok.num_value)).temp_reg_counter =
        s.temp_reg_counter + 1 := emit_instr_temp_reg_counter _ _ _
    simp only [hc]
    refine ⟨EmitsBelow.chain (EmitsBelow.same _ _ s
        { s with temp_reg_counter := s.temp_reg_counter + 1 } rfl)
      (EmitsBelow.of_emit_instr _ _ _ (.daddiu s.temp_reg_counter 0 (wrap32 tok.num_value))
        (by simp [Emitted.regs]) trivial) (le_refl _), ?_, by omega⟩
    intro p hp
    rcases List.mem_cons.1 hp with hp | hp
    · rw [hp]; exact ⟨hlo, Nat.lt_succ_self _⟩
    · exact ⟨(hst p hp).1, Nat.lt_succ_of_lt (hst p hp).2⟩
  rw [if_neg h1] at h
  by_cases h2 : tok.type = TOK_VARIABLE
  · rw [if_pos h2] at h
    cases hf : get_variable s tok.str with
    | none => rw [hf] at h; exact absurd h (by simp)
    | some var =>
      rw [hf] at h
      simp only [Option.some.injEq] at h
      subst h
      have hc : (emit_ld { s with temp_reg_counter := s.temp_reg_counter + 1 }
          s.temp_reg_counter tok.str var.mem_offset).temp_reg_counter =
          s.temp_reg_counter + 1 := emit_instr_temp_reg_counter _ _ _
      simp only [hc]
      refine ⟨EmitsBelow.chain (EmitsBelow.same _ _ s
          { s with temp_reg_counter := s.temp_reg_counter + 1 } rfl)
        (EmitsBelow.of_emit_instr _ _ _ (.ld s.temp_reg_counter tok.str var.mem_offset)
          (by simp [Emitted.regs]) trivial) (le_refl _), ?_, by omega⟩
      intro p hp
      rcases List.mem_cons.1 hp with hp | hp
      · rw [hp]; exact ⟨hlo, Nat.lt_succ_self _⟩
      · exact ⟨(hst p hp).1, Nat.lt_succ_of_lt (hst p hp).2⟩
  rw [if_neg h2] at h
  by_cases h3 : isBinopType tok.type = true
  · rw [if_pos ((isBinopType_iff _).1 h3)] at h
    match stack, hst, h with
    | right :: left :: below, hst, h =>
      simp only [Option.some.injEq] at h
      subst h
      have hc : (emit_op { s with temp_reg_counter := s.temp_reg_counter + 1 } tok.type
          s.temp_reg_counter left.1 right.1).temp_reg_counter =
          s.temp_reg_counter + 1 := emit_op_temp_reg_counter _ _ _ _ _
      simp only [hc]
      have hr := hst right (by simp)
      have hl := hst left (by simp)
      refine ⟨EmitsBelow.chain (EmitsBelow.same _ _ s
          { s with temp_reg_counter := s.temp_reg_counter + 1 } rfl)
        (EmitsBelow.of_operator _ _ _ _ _ _ _ (by simp) (by simp; omega) (by simp; omega)
          hr.1)
        (le_refl _), ?_, by omega⟩
      intro p hp
      rcases List.mem_cons.1 hp with hp | hp
      · rw [hp]; exact ⟨hlo, Nat.lt_succ_self _⟩
      · have := hst p (by simp [hp])
        exact ⟨this.1, Nat.lt_succ_of_lt this.2⟩
  · rw [if_neg (fun hc => h3 ((isBinopType_iff _).2 hc))] at h
    simp only [Option.some.injEq] at h
    subst h
    exact ⟨EmitsBelow.same _ _ s s rfl, hst, le_refl _⟩

/-- The whole evaluation: the records it appends print registers below the counter it
leaves (or below 32), and the register it returns is below that counter. -/
theorem eval_loop_below (stray : Nat → Int) (lo : Nat) (toks : List Token) :
    ∀ (i : Nat) (stack : List (Nat × Int)) (s : State) (rv : Int),
      (∀ p ∈ stack, lo ≤ p.1 ∧ p.1 < s.temp_reg_counter) → lo ≤ s.temp_reg_counter →
      EmitsBelow lo (max (eval_loop stray toks i stack s rv).state.temp_reg_counter 32) s
          (eval_loop stray toks i stack s rv).state ∧
        (eval_loop stray toks i stack s rv).reg <
          (eval_loop stray toks i stack s rv).state.temp_reg_counter ∧
        s.temp_reg_counter ≤ (eval_loop stray toks i stack s rv).state.temp_reg_counter := by
  have hfail : ∀ (s : State) (rv : Int),
      EmitsBelow lo (max (eval_fail s rv).state.temp_reg_counter 32) s (eval_fail s rv).state ∧
        (eval_fail s rv).reg < (eval_fail s rv).state.temp_reg_counter ∧
        s.temp_reg_counter ≤ (eval_fail s rv).state.temp_reg_counter := by
    intro s rv
    refine ⟨EmitsBelow.same _ _ _ _ rfl, ?_, ?_⟩
    · show s.temp_reg_counter < s.temp_reg_counter + 1
      omega
    · show s.temp_reg_counter ≤ s.temp_reg_counter + 1
      omega
  induction toks with
  | nil =>
    intro i stack s rv hst _
    rw [eval_loop_nil]
    match stack, hst with
    | [], _ => exact hfail s rv
    | [top], hst => exact ⟨EmitsBelow.same _ _ _ _ rfl, (hst top (by simp)).2, le_refl _⟩
    | a :: b :: l, _ => exact hfail s rv
  | cons tok rest ih =>
    intro i stack s rv hst hlo
    rw [eval_loop]
    cases hs : eval_step stray tok i stack s with
    | none => exact hfail s rv
    | some n =>
      simp only []
      obtain ⟨h1, h2, h3⟩ := eval_step_below stray lo tok i stack s n hst hlo hs
      obtain ⟨k1, k2, k3⟩ := ih (i + 1) n.1 n.2 rv h2 (le_trans hlo h3)
      exact ⟨EmitsBelow.chain h1 k1 (max_le_max k3 (le_refl _)), k2, le_trans h3 k3⟩

/-- The evaluation `process_statement` runs starts with the counter at 1 and an empty
stack: its additions take their right operand from a register numbered 1 or higher. -/
theorem compile_expr_below (stray : Nat → Int) (s : State) (e : List Char) :
    EmitsBelow 1 (max (compile_expr stray s e).state.temp_reg_counter 32) s
        (compile_expr stray s e).state ∧
      (compile_expr stray s e).reg < (compile_expr stray s e).state.temp_reg_counter := by
  rw [compile_expr_eq_evaluate]
  obtain ⟨h1, h2, _⟩ := eval_loop_below stray 1 (eval_input s e).rpn_queue 0 []
    (eval_input s e) 0 (by simp) (le_of_eq rfl)
  exact ⟨EmitsBelow.chain (EmitsBelow.same _ _ s (eval_input s e) rfl) h1 (le_refl _), h2⟩

theorem store_result_temp_reg_counter (r : EvalResult) (name : List Char) :
    (store_result r name).temp_reg_counter = r.state.temp_reg_counter := by
  unfold store_result
  split
  · simp only []
    unfold emit_sd emit_daddu
    split_ifs <;> simp only [emit_instr_temp_reg_counter]
  · rfl

theorem store_result_below (r : EvalResult) (name : List Char) (b : Nat)
    (hreg : r.reg < b) (hb : 32 ≤ b) : EmitsBelow 0 b r.state (store_result r name) := by
  unfold store_result
  split
  · rename_i var _
    simp only []
    unfold emit_sd emit_daddu
    split_ifs
    · exact EmitsBelow.chain (EmitsBelow.chain
          (EmitsBelow.same 0 b r.state
            { r.state with vars := set_value r.state.vars name r.result_value } rfl)
          (EmitsBelow.of_emit_instr 0 b _ (.daddu 3 r.reg 0)
            (by simp [Emitted.regs]; omega) (Nat.zero_le _)) (le_refl b))
        (EmitsBelow.of_emit_instr 0 b _ (.sd 3 name var.mem_offset)
          (by simp [Emitted.regs]; omega) trivial) (le_refl b)
    · exact EmitsBelow.chain
        (EmitsBelow.same 0 b r.state
          { r.state with vars := set_value r.state.vars name r.result_value } rfl)
        (EmitsBelow.of_emit_instr 0 b _ (.sd 3 name var.mem_offset)
          (by simp [Emitted.regs]; omega) trivial) (le_refl b)
  · exact EmitsBelow.same 0 b _ _ rfl

/-- Every statement appends records of emitted instructions whose printed registers are
below the register counter it leaves, or below 32. -/
theorem process_statement_below (stray : Nat → Int) (s : State) (stmt : List Char) :
    EmitsBelow 0 (max (process_statement stray s stmt).temp_reg_counter 32) s
      (process_statement stray s stmt) := by
  rcases process_statement_cases stray s stmt with h | h | ⟨e, h⟩ | ⟨name, e, h⟩
  · rw [h]; exact EmitsBelow.same _ _ _ _ rfl
  · rw [h]; exact EmitsBelow.same _ _ _ _ rfl
  · rw [h]; exact (compile_expr_below stray s e).1.weaken (Nat.zero_le _)
  · rw [h, store_result_temp_reg_counter]
    obtain ⟨h1, h2⟩ := compile_expr_below stray (declare_variable s name) e
    have hd : (declare_variable s name).instrs = s.instrs := by
      unfold declare_variable
      split <;> rfl
    exact EmitsBelow.chain
      (EmitsBelow.chain (EmitsBelow.same _ _ s (declare_variable s name) hd)
        (h1.weaken (Nat.zero_le _)) (le_refl _))
      (store_result_below _ name _ (lt_of_lt_of_le h2 (le_max_left _ _)) (le_max_right _ _))
      (le_refl _)

/-- With printed registers below 32 the fields of the word are the printed registers,
and the two renderings of the record denote the word. -/
theorem Emitted.fields_of_regs (sh : Emitted) (h : ∀ r ∈ sh.regs, r < 32) :
    sh.fieldsMatch ∧ binValue sh.record.binary = sh.word ∧
      hexValue sh.record.hex = sh.word := by
  have hw : sh.fieldsMatch ∧ sh.word < 2 ^ 32 := by
    cases sh with
    | daddiu rt rs imm =>
      have hf := enc_daddiu_format rt rs imm (h rt (by simp [Emitted.regs]))
        (h rs (by simp [Emitted.regs]))
      exact ⟨⟨hf.2.1, hf.2.2.1, hf.2.2.2.1⟩, hf.1⟩
    | daddu rd rs rt =>
      have hf := enc_daddu_format rd rs rt (h rd (by simp [Emitted.regs]))
        (h rs (by simp [Emitted.regs])) (h rt (by simp [Emitted.regs]))
      exact ⟨⟨hf.2.1, hf.2.2.1, hf.2.2.2.1, hf.2.2.2.2.1⟩, hf.1⟩
    | dsubu rd rs rt =>
      have hf := enc_dsubu_format rd rs rt (h rd (by simp [Emitted.regs]))
        (h rs (by simp [Emitted.regs])) (h rt (by simp [Emitted.regs]))
      exact ⟨⟨hf.2.1, hf.2.2.1, hf.2.2.2.1, hf.2.2.2.2.1⟩, hf.1⟩
    | dmult rs rt =>
      have hf := enc_dmult_format rs rt (h rs (by simp [Emitted.regs]))
        (h rt (by simp [Emitted.regs]))
      exact ⟨⟨hf.2.1, hf.2.2.1, hf.2.2.2.1⟩, hf.1⟩
    | ddiv rs rt =>
      have hf := enc_ddiv_format rs rt (h rs (by simp [Emitted.regs]))
        (h rt (by simp [Emitted.regs]))
      exact ⟨⟨hf.2.1, hf.2.2.1, hf.2.2.2.1⟩, hf.1⟩
    | mflo rd =>
      have hf := enc_mflo_format rd (h rd (by simp [Emitted.regs]))
      exact ⟨⟨hf.2.1, hf.2.2.2.2.1⟩, hf.1⟩
    | ld rt name offset =>
      have hf := enc_ld_format rt offset (h rt (by simp [Emitted.regs]))
      exact ⟨⟨hf.2.1, hf.2.2.1, hf.2.2.2.1⟩, hf.1⟩
    | sd rt name offset =>
      have hf := enc_sd_format rt offset (h rt (by simp [Emitted.regs]))
      exact ⟨⟨hf.2.1, hf.2.2.1, hf.2.2.2.1⟩, hf.1⟩
  refine ⟨hw.1, ?_, ?_⟩
  · have := (int_to_bin_32_spec sh.word).2.2
    rw [Nat.mod_eq_of_lt hw.2] at this
    exact this
  · have := (fmt_08X_spec sh.word).2.2
    rw [Nat.mod_eq_of_lt hw.2] at this
    exact this


/-! ## The text of a register number -/

theorem digitChar_isdigit (m : Nat) (h : m < 10) : isdigit (Nat.digitChar m) = true := by
  interval_cases m <;> decide

theorem digitChar_ne_zero (m : Nat) (h1 : 1 ≤ m) (h : m < 10) : Nat.digitChar m ≠ '0' := by
  interval_cases m <;> decide

theorem toDigitsCore_isdigit (fuel : Nat) :
    ∀ (n : Nat) (ds : List Char), (∀ c ∈ ds, isdigit c = true) →
      ∀ c ∈ Nat.toDigitsCore 10 fuel n ds, isdigit c = true := by
  induction fuel with
  | zero => intro n ds h; simpa [Nat.toDigitsCore] using h
  | succ f ih =>
    intro n ds h
    have hd : ∀ c ∈ Nat.digitChar (n % 10) :: ds, isdigit c = true := by
      intro c hc
      rcases List.mem_cons.1 hc with hc | hc
      · rw [hc]; exact digitChar_isdigit _ (Nat.mod_lt _ (by norm_num))
      · exact h c hc
    rw [Nat.toDigitsCore]
    split_ifs
    · exact hd
    · exact ih _ _ hd

theorem toDigitsCore_length_pos (fuel n : Nat) (ds : List Char) :
    ds.length + 1 ≤ (Nat.toDigitsCore 10 (fuel + 1) n ds).length := by
  induction fuel generalizing n ds with
  | zero =>
    rw [Nat.toDigitsCore]
    split_ifs
    · simp
    · rw [Nat.toDigitsCore]; simp
  | succ f ih =>
    rw [Nat.toDigitsCore]
    split_ifs
    · simp
    · have := ih (n / 10) (Nat.digitChar (n % 10) :: ds)
      rw [List.length_cons] at this
      omega

theorem fmt_nat_isdigit (n : Nat) : ∀ c ∈ fmt_nat n, isdigit c = true :=
  toDigitsCore_isdigit (n + 1) n [] (by simp)

theorem fmt_nat_small (n : Nat) (h : n < 10) : fmt_nat n = [Nat.digitChar n] := by
  simp [fmt_nat, Nat.toDigits, Nat.toDigitsCore, Nat.div_eq_of_lt h, Nat.mod_eq_of_lt h]

theorem fmt_nat_large (n : Nat) (h : 10 ≤ n) : 2 ≤ (fmt_nat n).length := by
  obtain ⟨m, rfl⟩ : ∃ m, n = m + 1 := ⟨n - 1, by omega⟩
  have hq : (m + 1) / 10 ≠ 0 := by
    intro h0
    have := (Nat.div_eq_zero_iff (by norm_num : 0 < 10)).1 h0
    omega
  unfold fmt_nat Nat.toDigits
  rw [Nat.toDigitsCore]
  simp only [hq, if_false]
  have := toDigitsCore_length_pos m ((m + 1) / 10) [Nat.digitChar ((m + 1) % 10)]
  simpa using this

/-- A text that ends with `, r` and the decimal rendering of `n` ends with `, r0` only
when `n` is 0. -/
theorem register_suffix_zero (x y : List Char) (n : Nat)
    (h : x ++ ", r".toList ++ fmt_nat n = y ++ ", r".toList ++ fmt_nat 0) : n = 0 := by
  have h0 : fmt_nat 0 = ['0'] := rfl
  rw [h0] at h
  by_cases hn : n < 10
  · rw [fmt_nat_small n hn] at h
    have h1 := List.append_inj_right' h rfl
    simp only [List.cons.injEq, and_true] at h1
    by_contra hne
    exact digitChar_ne_zero n (by omega) hn h1
  · exfalso
    have hlen := fmt_nat_large n (by omega)
    have hsplit : fmt_nat n =
        (fmt_nat n).take ((fmt_nat n).length - 2) ++ (fmt_nat n).drop ((fmt_nat n).length - 2) :=
      (List.take_append_drop _ _).symm
    have hl2 : ((fmt_nat n).drop ((fmt_nat n).length - 2)).length = 2 := by
      rw [List.length_drop]
      omega
    have hy : y ++ ", r".toList ++ ['0'] = y ++ ", ".toList ++ ['r', '0'] := by
      simp
    rw [hy, hsplit, ← List.append_assoc] at h
    have h1 := List.append_inj_right' h (by rw [hl2]; rfl)
    have hmem : 'r' ∈ fmt_nat n := by
      rw [hsplit]
      apply List.mem_append_right
      rw [h1]
      simp
    have := fmt_nat_isdigit n 'r' hmem
    exact absurd this (by decide)

theorem asm_daddu_rt_zero (rd rs rt r : Nat) (h : asm_daddu rd rs rt = asm_daddu 3 r 0) :
    rt = 0 := by
  unfold asm_daddu at h
  exact register_suffix_zero _ _ rt h

/-- No record of an emitted instruction whose additions take their right operand from
register 1 or higher is a move `DADDU r3, r, r0`. -/
theorem Emitted.record_ne_move (sh : Emitted) (h : sh.rtFrom 1) (r : Nat) :
    sh.record ≠ instr_record (asm_daddu 3 r 0) (enc_daddu 3 r 0) := by
  intro he
  have hm := congrArg mnemonic he
  have ha := congrArg Instr.assembly he
  rw [mnemonic_daddu] at hm
  cases sh with
  | daddiu rt rs imm => exact absurd ((mnemonic_daddiu rt rs imm _).symm.trans hm) (by decide)
  | daddu rd rs rt =>
    have h0 := asm_daddu_rt_zero rd rs rt r ha
    have h1 : 1 ≤ rt := h
    omega
  | dsubu rd rs rt => exact absurd ((mnemonic_dsubu rd rs rt _).symm.trans hm) (by decide)
  | dmult rs rt => exact absurd ((mnemonic_dmult rs rt _).symm.trans hm) (by decide)
  | ddiv rs rt => exact absurd ((mnemonic_ddiv rs rt _).symm.trans hm) (by decide)
  | mflo rd => exact absurd ((mnemonic_mflo rd _).symm.trans hm) (by decide)
  | ld rt name offset => exact absurd ((mnemonic_ld rt name _).symm.trans hm) (by decide)
  | sd rt name offset => exact absurd ((mnemonic_sd rt name _).symm.trans hm) (by decide)

/-! ## Reading the emitted texts back -/

theorem digitChar_value (m : Nat) (h : m < 10) : (Nat.digitChar m).toNat - 48 = m := by
  interval_cases m <;> rfl

theorem toDigitsCore_append (fuel : Nat) :
    ∀ (n : Nat) (ds : List Char),
      Nat.toDigitsCore 10 fuel n ds = Nat.toDigitsCore 10 fuel n [] ++ ds := by
  induction fuel with
  | zero => intro n ds; simp [Nat.toDigitsCore]
  | succ f ih =>
    intro n ds
    rw [Nat.toDigitsCore, Nat.toDigitsCore]
    split_ifs
    · rfl
    · rw [ih (n / 10) (Nat.digitChar (n % 10) :: ds), ih (n / 10) [Nat.digitChar (n % 10)]]
      simp

/-- The decimal rendering of `n` denotes `n`. -/
theorem toDigitsCore_value (fuel : Nat) :
    ∀ n : Nat, n < fuel →
      (Nat.toDigitsCore 10 fuel n []).foldl (fun a c => 10 * a + (c.toNat - 48)) 0 = n := by
  induction fuel with
  | zero => intro n h; omega
  | succ f ih =>
    intro n h
    rw [Nat.toDigitsCore]
    split_ifs with h0
    · have hn : n < 10 := by
        by_contra hge
        have : 1 ≤ n / 10 := (Nat.le_div_iff_mul_le (by norm_num)).2 (by omega)
        omega
      simp only [List.foldl_cons, List.foldl_nil, Nat.mul_zero, Nat.zero_add]
      rw [Nat.mod_eq_of_lt hn]
      exact digitChar_value n hn
    · rw [toDigitsCore_append, List.foldl_append]
      have hlt : n / 10 < f := by
        have : n / 10 < n := Nat.div_lt_self (by
          by_contra hz
          have : n = 0 := by omega
          subst this
          exact h0 rfl) (by norm_num)
        omega
      rw [ih (n / 10) hlt]
      simp only [List.foldl_cons, List.foldl_nil]
      rw [digitChar_value _ (Nat.mod_lt _ (by norm_num))]
      exact Nat.div_add_mod n 10

theorem fmt_nat_ne_nil (n : Nat) : fmt_nat n ≠ [] := by
  intro h
  have := toDigitsCore_length_pos n n []
  unfold fmt_nat Nat.toDigits at h
  rw [h] at this
  simp at this

theorem read_decimal_fmt_nat (n : Nat) : read_decimal (fmt_nat n) = some n := by
  unfold read_decimal
  have hall : (fmt_nat n).all (fun c => decide (48 ≤ c.toNat ∧ c.toNat ≤ 57)) = true := by
    rw [List.all_eq_true]
    intro c hc
    have := (isdigit_iff c).1 (fmt_nat_isdigit n c hc)
    simpa using this
  rw [if_pos ⟨fmt_nat_ne_nil n, hall⟩]
  exact congrArg some (toDigitsCore_value (n + 1) n (Nat.lt_succ_self n))

theorem read_reg_fmt_nat (n : Nat) : read_reg ('r' :: fmt_nat n) = some n :=
  read_decimal_fmt_nat n

theorem fmt_nat_no_comma (n : Nat) :
    ∀ c ∈ 'r' :: fmt_nat n, (decide (c ≠ ',')) = true := by
  intro c hc
  rcases List.mem_cons.1 hc with h | h
  · subst h; decide
  · have := (isdigit_iff c).1 (fmt_nat_isdigit n c h)
    have hne : c ≠ ',' := by intro e; subst e; revert this; decide
    simpa using hne

/-- A register operand that ends the operands, or is followed by a comma, is the first
operand; the operands after it start behind the comma and its blank. -/
theorem operand_split (n : Nat) (tail : List Char) (h : tail = [] ∨ ∃ r, tail = ',' :: r) :
    first_operand ('r' :: fmt_nat n ++ tail) = 'r' :: fmt_nat n ∧
      after_operand ('r' :: fmt_nat n ++ tail) = tail.drop 2 := by
  unfold first_operand after_operand
  rcases h with h | ⟨r, h⟩
  · subst h
    rw [List.append_nil]
    obtain ⟨h1, h2⟩ := takeWhile_all (fun c => decide (c ≠ ',')) _ (fmt_nat_no_comma n)
    rw [h1, h2]
    exact ⟨rfl, rfl⟩
  · subst h
    obtain ⟨h1, h2⟩ := takeWhile_append_stop (fun c => decide (c ≠ ',')) _ ',' r
      (fmt_nat_no_comma n) (by decide)
    rw [h1, h2]
    exact ⟨rfl, rfl⟩

/-- A mnemonic without a blank, followed by a blank and the operands, is read as such. -/
theorem mnemonic_split (mn rest : List Char) (h : ∀ c ∈ mn, (decide (c ≠ ' ')) = true) :
    (mn ++ ' ' :: rest).takeWhile (fun c => decide (c ≠ ' ')) = mn ∧
      operands (mn ++ ' ' :: rest) = rest := by
  unfold operands
  obtain ⟨h1, h2⟩ := takeWhile_append_stop (fun c => decide (c ≠ ' ')) mn ' ' rest h (by decide)
  rw [h1, h2]
  exact ⟨rfl, rfl⟩

/-- The readings of a text with three, two, one register operands. -/
theorem read_operands_three (mn : List Char) (a b c : Nat)
    (h : ∀ x ∈ mn, (decide (x ≠ ' ')) = true) :
    (mn ++ ' ' :: ('r' :: fmt_nat a ++ ',' :: ' ' :: ('r' :: fmt_nat b ++
        ',' :: ' ' :: ('r' :: fmt_nat c ++ [])))).takeWhile (fun c => decide (c ≠ ' ')) = mn ∧
      read_reg (first_operand (operands (mn ++ ' ' :: ('r' :: fmt_nat a ++ ',' :: ' ' ::
        ('r' :: fmt_nat b ++ ',' :: ' ' :: ('r' :: fmt_nat c ++ [])))))) = some a ∧
      read_reg (first_operand (after_operand (operands (mn ++ ' ' :: ('r' :: fmt_nat a ++
        ',' :: ' ' :: ('r' :: fmt_nat b ++ ',' :: ' ' :: ('r' :: fmt_nat c ++ []))))))) =
          some b ∧
      read_reg (after_operand (after_operand (operands (mn ++ ' ' :: ('r' :: fmt_nat a ++
        ',' :: ' ' :: ('r' :: fmt_nat b ++ ',' :: ' ' :: ('r' :: fmt_nat c ++ []))))))) =
          some c := by
  obtain ⟨h1, h2⟩ := mnemonic_split mn ('r' :: fmt_nat a ++ ',' :: ' ' ::
    ('r' :: fmt_nat b ++ ',' :: ' ' :: ('r' :: fmt_nat c ++ []))) h
  obtain ⟨a1, a2⟩ := operand_split a (',' :: ' ' :: ('r' :: fmt_nat b ++ ',' :: ' ' ::
    ('r' :: fmt_nat c ++ []))) (Or.inr ⟨_, rfl⟩)
  obtain ⟨b1, b2⟩ := operand_split b (',' :: ' ' :: ('r' :: fmt_nat c ++ [])) (Or.inr ⟨_, rfl⟩)
  simp only [List.drop_succ_cons, List.drop_zero] at a2 b2
  rw [h1, h2, a1, a2, b1, b2, List.append_nil]
  exact ⟨rfl, read_reg_fmt_nat a, read_reg_fmt_nat b, read_reg_fmt_nat c⟩

theorem read_operands_two (mn : List Char) (a b : Nat) (tail : List Char)
    (h : ∀ x ∈ mn, (decide (x ≠ ' ')) = true) (ht : tail = [] ∨ ∃ r, tail = ',' :: r) :
    (mn ++ ' ' :: ('r' :: fmt_nat a ++ ',' :: ' ' :: ('r' :: fmt_nat b ++
        tail))).takeWhile (fun c => decide (c ≠ ' ')) = mn ∧
      read_reg (first_operand (operands (mn ++ ' ' :: ('r' :: fmt_nat a ++ ',' :: ' ' ::
        ('r' :: fmt_nat b ++ tail))))) = some a ∧
      read_reg (first_operand (after_operand (operands (mn ++ ' ' :: ('r' :: fmt_nat a ++
        ',' :: ' ' :: ('r' :: fmt_nat b ++ tail)))))) = some b := by
  obtain ⟨h1, h2⟩ := mnemonic_split mn ('r' :: fmt_nat a ++ ',' :: ' ' ::
    ('r' :: fmt_nat b ++ tail)) h
  obtain ⟨a1, a2⟩ := operand_split a (',' :: ' ' :: ('r' :: fmt_nat b ++ tail))
    (Or.inr ⟨_, rfl⟩)
  obtain ⟨b1, _⟩ := operand_split b tail ht
  simp only [List.drop_succ_cons, List.drop_zero] at a2
  rw [h1, h2, a1, a2, b1]
  exact ⟨rfl, read_reg_fmt_nat a, read_reg_fmt_nat b⟩

theorem read_operands_one (mn : List Char) (a : Nat) (tail : List Char)
    (h : ∀ x ∈ mn, (decide (x ≠ ' ')) = true) (ht : tail = [] ∨ ∃ r, tail = ',' :: r) :
    (mn ++ ' ' :: ('r' :: fmt_nat a ++ tail)).takeWhile (fun c => decide (c ≠ ' ')) = mn ∧
      read_reg (first_operand (operands (mn ++ ' ' :: ('r' :: fmt_nat a ++ tail)))) =
        some a := by
  obtain ⟨h1, h2⟩ := mnemonic_split mn ('r' :: fmt_nat a ++ tail) h
  obtain ⟨a1, _⟩ := operand_split a tail ht
  rw [h1, h2, a1]
  exact ⟨rfl, read_reg_fmt_nat a⟩

/-- A text that ends with `(r29)` has the base register 29. -/
theorem base_operand_r29 (x : List Char) :
    read_reg (base_operand (x ++ "(r29)".toList)) = some 29 := by
  have h : (x ++ "(r29)".toList).reverse = ')' :: ('9' :: '2' :: 'r' :: '(' :: x.reverse) := by
    rw [List.reverse_append]
    rfl
  unfold base_operand
  rw [h]
  simp only []
  have ht := (takeWhile_append_stop (fun c => decide (c ≠ '(')) ['9', '2', 'r'] '(' x.reverse
    (by decide) (by decide)).1
  simp only [List.cons_append, List.nil_append] at ht
  rw [ht]
  decide

/-- The emitters write texts that read as the instruction they are called for: the
mnemonic, and each register number under the field of its operand. -/
theorem read_asm_text (sh : Emitted) : read_asm sh.text = some sh.reading := by
  cases sh with
  | daddiu rt rs imm =>
    have ht : asm_daddiu rt rs imm = "DADDIU".toList ++ ' ' :: ('r' :: fmt_nat rt ++
        ',' :: ' ' :: ('r' :: fmt_nat rs ++ (',' :: ' ' :: fmt_d imm))) := by
      simp [asm_daddiu]
    obtain ⟨h1, h2, h3⟩ := read_operands_two "DADDIU".toList rt rs (',' :: ' ' :: fmt_d imm)
      (by decide) (Or.inr ⟨_, rfl⟩)
    simp only [Emitted.text, Emitted.reading, read_asm, ht, h1, h2, h3]
    rw [if_neg (show ¬ ("DADDIU".toList = "DADDU".toList ∨ "DADDIU".toList = "DSUBU".toList) by decide),
      if_pos trivial]
  | daddu rd rs rt =>
    have ht : asm_daddu rd rs rt = "DADDU".toList ++ ' ' :: ('r' :: fmt_nat rd ++
        ',' :: ' ' :: ('r' :: fmt_nat rs ++ ',' :: ' ' :: ('r' :: fmt_nat rt ++ []))) := by
      simp [asm_daddu]
    obtain ⟨h1, h2, h3, h4⟩ := read_operands_three "DADDU".toList rd rs rt (by decide)
    simp only [Emitted.text, Emitted.reading, read_asm, ht, h1, h2, h3, h4]
    rw [if_pos (Or.inl trivial)]
  | dsubu rd rs rt =>
    have ht : asm_dsubu rd rs rt = "DSUBU".toList ++ ' ' :: ('r' :: fmt_nat rd ++
        ',' :: ' ' :: ('r' :: fmt_nat rs ++ ',' :: ' ' :: ('r' :: fmt_nat rt ++ []))) := by
      simp [asm_dsubu]
    obtain ⟨h1, h2, h3, h4⟩ := read_operands_three "DSUBU".toList rd rs rt (by decide)
    simp only [Emitted.text, Emitted.reading, read_asm, ht, h1, h2, h3, h4]
    rw [if_pos (Or.inr trivial)]
  | dmult rs rt =>
    have ht : asm_dmult rs rt = "DMULT".toList ++ ' ' :: ('r' :: fmt_nat rs ++
        ',' :: ' ' :: ('r' :: fmt_nat rt ++ [])) := by
      simp [asm_dmult]
    obtain ⟨h1, h2, h3⟩ := read_operands_two "DMULT".toList rs rt [] (by decide) (Or.inl rfl)
    simp only [Emitted.text, Emitted.reading, read_asm, ht, h1, h2, h3]
    rw [if_neg (show ¬ ("DMULT".toList = "DADDU".toList ∨ "DMULT".toList = "DSUBU".toList) by decide),
      if_neg (show ¬ ("DMULT".toList = "DADDIU".toList) by decide),
      if_pos (Or.inl trivial)]
  | ddiv rs rt =>
    have ht : asm_ddiv rs rt = "DDIV".toList ++ ' ' :: ('r' :: fmt_nat rs ++
        ',' :: ' ' :: ('r' :: fmt_nat rt ++ [])) := by
      simp [asm_ddiv]
    obtain ⟨h1, h2, h3⟩ := read_operands_two "DDIV".toList rs rt [] (by decide) (Or.inl rfl)
    simp only [Emitted.text, Emitted.reading, read_asm, ht, h1, h2, h3]
    rw [if_neg (show ¬ ("DDIV".toList = "DADDU".toList ∨ "DDIV".toList = "DSUBU".toList) by decide),
      if_neg (show ¬ ("DDIV".toList = "DADDIU".toList) by decide),
      if_pos (Or.inr trivial)]
  | mflo rd =>
    have ht : asm_mflo rd = "MFLO".toList ++ ' ' :: ('r' :: fmt_nat rd ++ []) := by
      simp [asm_mflo]
    obtain ⟨h1, h2⟩ := read_operands_one "MFLO".toList rd [] (by decide) (Or.inl rfl)
    simp only [Emitted.text, Emitted.reading, read_asm, ht, h1, h2]
    rw [if_neg (show ¬ ("MFLO".toList = "DADDU".toList ∨ "MFLO".toList = "DSUBU".toList) by decide),
      if_neg (show ¬ ("MFLO".toList = "DADDIU".toList) by decide),
      if_neg (show ¬ ("MFLO".toList = "DMULT".toList ∨ "MFLO".toList = "DDIV".toList) by decide),
      if_pos trivial]
  | ld rt name off =>
    have ht : asm_ld rt name = "LD".toList ++ ' ' :: ('r' :: fmt_nat rt ++
        (',' :: ' ' :: (name ++ "(r29)".toList))) := by
      simp [asm_ld]
    have hb : asm_ld rt name = ("LD r".toList ++ fmt_nat rt ++ ", ".toList ++ name) ++
        "(r29)".toList := by
      simp [asm_ld]
    obtain ⟨h1, h2⟩ := read_operands_one "LD".toList rt (',' :: ' ' :: (name ++ "(r29)".toList))
      (by decide) (Or.inr ⟨_, rfl⟩)
    have h3 := base_operand_r29 ("LD r".toList ++ fmt_nat rt ++ ", ".toList ++ name)
    rw [← hb] at h3
    rw [← ht] at h1 h2
    simp only [Emitted.text, Emitted.reading, read_asm, h1, h2, h3]
    rw [if_neg (show ¬ ("LD".toList = "DADDU".toList ∨ "LD".toList = "DSUBU".toList) by decide),
      if_neg (show ¬ ("LD".toList = "DADDIU".toList) by decide),
      if_neg (show ¬ ("LD".toList = "DMULT".toList ∨ "LD".toList = "DDIV".toList) by decide),
      if_neg (show ¬ ("LD".toList = "MFLO".toList) by decide),
      if_pos (Or.inl trivial)]
  | sd rt name off =>
    have ht : asm_sd rt name = "SD".toList ++ ' ' :: ('r' :: fmt_nat rt ++
        (',' :: ' ' :: (name ++ "(r29)".toList))) := by
      simp [asm_sd]
    have hb : asm_sd rt name = ("SD r".toList ++ fmt_nat rt ++ ", ".toList ++ name) ++
        "(r29)".toList := by
      simp [asm_sd]
    obtain ⟨h1, h2⟩ := read_operands_one "SD".toList rt (',' :: ' ' :: (name ++ "(r29)".toList))
      (by decide) (Or.inr ⟨_, rfl⟩)
    have h3 := base_operand_r29 ("SD r".toList ++ fmt_nat rt ++ ", ".toList ++ name)
    rw [← hb] at h3
    rw [← ht] at h1 h2
    simp only [Emitted.text, Emitted.reading, read_asm, h1, h2, h3]
    rw [if_neg (show ¬ ("SD".toList = "DADDU".toList ∨ "SD".toList = "DSUBU".toList) by decide),
      if_neg (show ¬ ("SD".toList = "DADDIU".toList) by decide),
      if_neg (show ¬ ("SD".toList = "DMULT".toList ∨ "SD".toList = "DDIV".toList) by decide),
      if_neg (show ¬ ("SD".toList = "MFLO".toList) by decide),
      if_pos (Or.inr trivial)]

/-- The record of an emitted instruction with register numbers below 32 agrees with its
text. -/
theorem Emitted.fields_agree_of_regs (sh : Emitted) (h : ∀ r ∈ sh.regs, r < 32) :
    fields_agree sh.record = true ∧ hexValue sh.record.hex = binValue sh.record.binary := by
  obtain ⟨hf, hb, hx⟩ := sh.fields_of_regs h
  refine ⟨?_, by rw [hx, hb]⟩
  have ha : sh.record.assembly = sh.text := rfl
  unfold fields_agree
  rw [ha, read_asm_text, hb]
  cases sh <;>
    simp only [Emitted.fieldsMatch, Emitted.word] at hf ⊢ <;>
    simp [Emitted.reading, mips_opcode, field_holds, hf]

/-- The records of a token read as the readings of the token. -/
theorem op_records_readings (ty : TokenType) (rd rs rt : Nat) (h : isBinopType ty = true) :
    (op_records ty rd rs rt).map (fun x => read_asm x.assembly) =
      (op_readings ty rd rs rt).map some := by
  have h1 := read_asm_text (.daddu rd rs rt)
  have h2 := read_asm_text (.dsubu rd rs rt)
  have h3 := read_asm_text (.dmult rs rt)
  have h4 := read_asm_text (.ddiv rs rt)
  have h5 := read_asm_text (.mflo rd)
  simp only [Emitted.text, Emitted.reading] at h1 h2 h3 h4 h5
  cases ty <;> simp [isBinopType] at h <;>
    simp [op_records, op_readings, instr_record, h1, h2, h3, h4, h5]

theorem token_records_readings (vars : List Variable) (tok : Token) (c : Nat)
    (regs : List Nat) :
    (token_records vars tok c regs).map
        (fun o => (o.1.map (fun x => read_asm x.assembly), o.2)) =
      (token_readings vars tok c regs).map (fun o => (o.1.map some, o.2)) := by
  have h1 := read_asm_text (.daddiu c 0 (wrap32 tok.num_value))
  simp only [Emitted.text, Emitted.reading] at h1
  unfold token_records token_readings
  cases hty : tok.type
  case TOK_NUMBER => simp [instr_record, h1, reading_daddiu]
  case TOK_VARIABLE =>
    simp only [if_neg (show ¬ (TOK_VARIABLE = TOK_NUMBER) by decide), if_true]
    cases hf : vars.find? (fun v => decide (v.name = tok.str)) with
    | none =>
      have ha : vars.any (fun v => decide (v.name = tok.str)) = false := by
        rw [List.find?_eq_none] at hf
        rw [List.any_eq_false]
        exact hf
      simp [ha]
    | some var =>
      have ha : vars.any (fun v => decide (v.name = tok.str)) = true := by
        rw [List.any_eq_true]
        exact ⟨var, List.mem_of_find?_eq_some hf, @List.find?_some _ _ var vars hf⟩
      have h2 := read_asm_text (.ld c tok.str var.mem_offset)
      simp only [Emitted.text, Emitted.reading] at h2
      simp [ha, instr_record, h2, reading_ld]
  case TOK_PLUS =>
    cases regs with
    | nil => simp [isBinopType]
    | cons right l =>
      cases l with
      | nil => simp [isBinopType]
      | cons left below =>
        simp [isBinopType, op_records_readings TOK_PLUS c left right rfl]
  case TOK_MINUS =>
    cases regs with
    | nil => simp [isBinopType]
    | cons right l =>
      cases l with
      | nil => simp [isBinopType]
      | cons left below =>
        simp [isBinopType, op_records_readings TOK_MINUS c left right rfl]
  case TOK_MULT =>
    cases regs with
    | nil => simp [isBinopType]
    | cons right l =>
      cases l with
      | nil => simp [isBinopType]
      | cons left below =>
        simp [isBinopType, op_records_readings TOK_MULT c left right rfl]
  case TOK_DIV =>
    cases regs with
    | nil => simp [isBinopType]
    | cons right l =>
      cases l with
      | nil => simp [isBinopType]
      | cons left below =>
        simp [isBinopType, op_records_readings TOK_DIV c left right rfl]
  all_goals simp [isBinopType]

/-- The expected records read as the expected readings. -/
theorem expected_records_readings (vars : List Variable) (toks : List Token) :
    ∀ (c : Nat) (regs : List Nat),
      (expected_records vars toks c regs).map (fun x => read_asm x.assembly) =
        (expected_readings vars toks c regs).map some := by
  induction toks with
  | nil => intro c regs; rfl
  | cons tok rest ih =>
    intro c regs
    have h := token_records_readings vars tok c regs
    rw [expected_records, expected_readings]
    cases hr : token_records vars tok c regs with
    | none =>
      rw [hr] at h
      cases hd : token_readings vars tok c regs with
      | none => rfl
      | some o => rw [hd] at h; simp at h
    | some out =>
      rw [hr] at h
      cases hd : token_readings vars tok c regs with
      | none => rw [hd] at h; simp at h
      | some o =>
        rw [hd] at h
        simp only [Option.map_some', Option.some.injEq, Prod.mk.injEq] at h
        obtain ⟨h1, h2⟩ := h
        simp only [List.map_append, h1, ih, h2]

/-! ## The records appended by a successful evaluation -/

/-- The evaluation appends records of emitted instructions whose register numbers are
below 32 when the counter ends at 32 or less. -/
theorem evaluate_rpn_below (stray : Nat → Int) (s : State) (rv : Int) :
    EmitsBelow 0 (max (evaluate_rpn stray s rv).state.temp_reg_counter 32) s
      (evaluate_rpn stray s rv).state :=
  (eval_loop_below stray 0 s.rpn_queue 0 [] s rv (by simp) (Nat.zero_le _)).1

theorem expected_readings_length (vars : List Variable) (toks : List Token) (c : Nat)
    (regs : List Nat) :
    (expected_readings vars toks c regs).length = (expected_records vars toks c regs).length := by
  have h := congrArg List.length (expected_records_readings vars toks c regs)
  simpa using h.symm

/-- C18: when `evaluate_rpn` counts no error on a postfix sequence that fits the array
`rpn_queue` and the instruction list has room, the
records already in the list are kept and the appended records are, read as MIPS64
assembly text, exactly `expected_readings`: the concatenation, over the postfix tokens in
order, of one DADDIU per NUMBER, one LD per VARIABLE, one DADDU per PLUS, one DSUBU per
MINUS, a DMULT then an MFLO per MULT and a DDIV then an MFLO per DIV, each with a fresh
destination register, the operator printing as rs the register of its left operand
(second from the top of the stack) and as rt the register of its right operand (top of
the stack). The records are those of `expected_records`, and when the counter ends at 32
or less the rs, rt and rd fields of each appended word hold the registers its text
prints. -/
theorem evaluate_rpn_records (stray : Nat → Int) (s : State) (rv : Int)
    (hok : (evaluate_rpn stray s rv).state.error_count = s.error_count)
    (hroom : s.instrs.length +
      (expected_readings s.vars s.rpn_queue s.temp_reg_counter []).length ≤ MAX_INSTR)
    (hcap : s.rpn_count ≤ MAX_TOKENS) :
    (evaluate_rpn stray s rv).state.instrs.take s.instrs.length = s.instrs ∧
    ((evaluate_rpn stray s rv).state.instrs.drop s.instrs.length).map
        (fun x => read_asm x.assembly) =
      (expected_readings s.vars s.rpn_queue s.temp_reg_counter []).map some ∧
    (evaluate_rpn stray s rv).state.instrs =
      s.instrs ++ expected_records s.vars s.rpn_queue s.temp_reg_counter [] ∧
    ((evaluate_rpn stray s rv).state.temp_reg_counter ≤ 32 →
      ∀ x ∈ (evaluate_rpn stray s rv).state.instrs.drop s.instrs.length,
        fields_agree x = true) := by
  rw [expected_readings_length] at hroom
  obtain ⟨final, top, hrun, _, hres⟩ := eval_loop_success stray s.rpn_queue 0 [] s rv hok
  have h := eval_steps_records stray s.rpn_queue 0 [] s final hrun hroom
  have hi : (evaluate_rpn stray s rv).state.instrs =
      s.instrs ++ expected_records s.vars s.rpn_queue s.temp_reg_counter [] := by
    unfold evaluate_rpn
    rw [hres]
    exact h
  refine ⟨by rw [hi, List.take_left], ?_, hi, ?_⟩
  · rw [hi, List.drop_left]
    exact expected_records_readings _ _ _ _
  · intro hc x hx
    obtain ⟨shapes, h1, h2⟩ := evaluate_rpn_below stray s rv
    rw [max_eq_right hc] at h2
    rw [h1, List.drop_left] at hx
    obtain ⟨sh, hsh, rfl⟩ := List.mem_map.1 hx
    exact (sh.fields_agree_of_regs (h2 sh hsh).1).1

set_option maxRecDepth 20000 in
/-- Witness of C18: with `a` at offset 8 in the table, the postfix sequence `a 5 2 * -`
appends, after the record that was already in the list, records that read LD r1,
DADDIU r2, DADDIU r3, DMULT r2, r3, MFLO r4, DSUBU r5, r1, r4: the product takes the
literal 5 in register 2 as rs and the literal 2 in register 3 as rt, the difference takes
`a` in register 1 as rs and the product in register 4 as rt. -/
theorem evaluate_rpn_records_witness :
    ((evaluate_rpn (fun _ => 0)
      { State.init with
        vars := [{ name := ['a'], value := 9, mem_offset := 8, is_declared := true }],
        instrs := [{ assembly := "SD r3, a(r29)".toList,
                     binary := "11111111101000110000000000001000".toList,
                     hex := "FFA30008".toList }],
        rpn_queue :=
          [{ type := TOK_VARIABLE, str := ['a'], num_value := 0 },
           { type := TOK_NUMBER, str := ['5'], num_value := 5 },
           { type := TOK_NUMBER, str := ['2'], num_value := 2 },
           opToken TOK_MULT '*', opToken TOK_MINUS '-'],
        temp_reg_counter := 1 } 0).state.instrs.drop 1).map (fun x => read_asm x.assembly) =
      [some { mnemonic := "LD".toList, rs := some 29, rt := some 1, rd := none },
       some { mnemonic := "DADDIU".toList, rs := some 0, rt := some 2, rd := none },
       some { mnemonic := "DADDIU".toList, rs := some 0, rt := some 3, rd := none },
       some { mnemonic := "DMULT".toList, rs := some 2, rt := some 3, rd := none },
       some { mnemonic := "MFLO".toList, rs := none, rt := none, rd := some 4 },
       some { mnemonic := "DSUBU".toList, rs := some 1, rt := some 4, rd := some 5 }] ∧
    (evaluate_rpn (fun _ => 0)
      { State.init with
        vars := [{ name := ['a'], value := 9, mem_offset := 8, is_declared := true }],
        instrs := [{ assembly := "SD r3, a(r29)".toList,
                     binary := "11111111101000110000000000001000".toList,
                     hex := "FFA30008".toList }],
        rpn_queue :=
          [{ type := TOK_VARIABLE, str := ['a'], num_value := 0 },
           { type := TOK_NUMBER, str := ['5'], num_value := 5 },
           { type := TOK_NUMBER, str := ['2'], num_value := 2 },
           opToken TOK_MULT '*', opToken TOK_MINUS '-'],
        temp_reg_counter := 1 } 0).state.instrs.map (fun x => (x.assembly, x.hex)) =
      [("SD r3, a(r29)".toList, "FFA30008".toList),
       ("LD r1, a(r29)".toList, "DFA10008".toList),
       ("DADDIU r2, r0, 5".toList, "64020005".toList),
       ("DADDIU r3, r0, 2".toList, "64030002".toList),
       ("DMULT r2, r3".toList, "0043001C".toList),
       ("MFLO r4".toList, "00002012".toList),
       ("DSUBU r5, r1, r4".toList, "0024282F".toList)] :=
  ⟨(evaluate_rpn_records (fun _ => 0)
      { State.init with
        vars := [{ name := ['a'], value := 9, mem_offset := 8, is_declared := true }],
        instrs := [{ assembly := "SD r3, a(r29)".toList,
                     binary := "11111111101000110000000000001000".toList,
                     hex := "FFA30008".toList }],
        rpn_queue :=
          [{ type := TOK_VARIABLE, str := ['a'], num_value := 0 },
           { type := TOK_NUMBER, str := ['5'], num_value := 5 },
           { type := TOK_NUMBER, str := ['2'], num_value := 2 },
           opToken TOK_MULT '*', opToken TOK_MINUS '-'],
        temp_reg_counter := 1 } 0 (by decide) (by decide) (by decide)).2.1.trans (by decide),
    by decide⟩

/-! ## Register allocation -/

theorem eval_steps_append (stray : Nat → Int) (pre rest : List Token) :
    ∀ (i : Nat) (stack : List (Nat × Int)) (s : State) (final : List (Nat × Int) × State),
      eval_steps stray (pre ++ rest) i stack s = some final →
      ∃ mid, eval_steps stray pre i stack s = some mid ∧
        eval_steps stray rest (i + pre.length) mid.1 mid.2 = some final := by
  induction pre with
  | nil =>
    intro i stack s final h
    exact ⟨(stack, s), rfl, by simpa using h⟩
  | cons tok pre ih =>
    intro i stack s final h
    rw [List.cons_append, eval_steps] at h
    rw [eval_steps]
    cases hs : eval_step stray tok i stack s with
    | none => rw [hs] at h; exact absurd h (by simp)
    | some n =>
      rw [hs] at h
      simp only [] at h ⊢
      obtain ⟨mid, h1, h2⟩ := ih (i + 1) n.1 n.2 final h
      refine ⟨mid, h1, ?_⟩
      rw [List.length_cons, show i + (pre.length + 1) = i + 1 + pre.length by omega]
      exact h2

/-- One iteration without error exit: a value-producing token pushes a value in the
register the counter shows and advances the counter by one; another token changes neither
the stack nor the counter. -/
theorem eval_step_alloc (stray : Nat → Int) (tok : Token) (i : Nat)
    (stack : List (Nat × Int)) (s : State) (next : List (Nat × Int) × State)
    (h : eval_step stray tok i stack s = some next) :
    (isValueType tok.type = true →
      next.2.temp_reg_counter = s.temp_reg_counter + 1 ∧
      ∃ v below, next.1 = (s.temp_reg_counter, v) :: below) ∧
    (isValueType tok.type = false →
      next.2.temp_reg_counter = s.temp_reg_counter ∧ next.1 = stack) ∧
    next.1.length + (if isBinopType tok.type then 1 else 0) =
      stack.length + (if isOperandType tok.type then 1 else 0) := by
  unfold eval_step at h
  by_cases h1 : tok.type = TOK_NUMBER
  · rw [if_pos h1] at h
    simp only [Option.some.injEq] at h
    subst h
    simp [isValueType, isOperandType, isBinopType, h1, emit_daddiu,
      emit_instr_temp_reg_counter]
  rw [if_neg h1] at h
  by_cases h2 : tok.type = TOK_VARIABLE
  · rw [if_pos h2] at h
    cases hf : get_variable s tok.str with
    | none => rw [hf] at h; exact absurd h (by simp)
    | some var =>
      rw [hf] at h
      simp only [Option.some.injEq] at h
      subst h
      simp [isValueType, isOperandType, isBinopType, h2, emit_ld,
        emit_instr_temp_reg_counter]
  rw [if_neg h2] at h
  by_cases h3 : isBinopType tok.type = true
  · rw [if_pos ((isBinopType_iff _).1 h3)] at h
    match stack, h with
    | right :: left :: below, h =>
      simp only [Option.some.injEq] at h
      subst h
      simp [isValueType, isOperandType, h1, h2, h3, emit_op_temp_reg_counter]
  · rw [if_neg (fun hc => h3 ((isBinopType_iff _).2 hc))] at h
    simp only [Option.some.injEq] at h
    subst h
    simp [isValueType, isOperandType, h1, h2, h3]

/-- A run without error exit advances the counter by the number of value-producing
tokens, keeps the top of the stack in the register below the counter, and changes the
height of the stack by the number of operands less the number of operators. -/
theorem eval_steps_alloc (stray : Nat → Int) (toks : List Token) :
    ∀ (i : Nat) (stack : List (Nat × Int)) (s : State) (final : List (Nat × Int) × State),
      eval_steps stray toks i stack s = some final →
      final.2.temp_reg_counter = s.temp_reg_counter + valueCount toks ∧
      ((∀ top, stack.head? = some top → top.1 + 1 = s.temp_reg_counter) →
        ∀ top, final.1.head? = some top → top.1 + 1 = final.2.temp_reg_counter) ∧
      final.1.length + toks.countP (fun t => isBinopType t.type) =
        stack.length + toks.countP (fun t => isOperandType t.type) := by
  induction toks with
  | nil =>
    intro i stack s final h
    simp only [eval_steps, Option.some.injEq] at h
    subst h
    simp [valueCount]
  | cons tok rest ih =>
    intro i stack s final h
    rw [eval_steps] at h
    cases hs : eval_step stray tok i stack s with
    | none => rw [hs] at h; exact absurd h (by simp)
    | some n =>
      rw [hs] at h
      simp only [] at h
      obtain ⟨hv, hnv, hlen⟩ := eval_step_alloc stray tok i stack s n hs
      obtain ⟨hc, htop, hl⟩ := ih (i + 1) n.1 n.2 final h
      simp only [valueCount] at hc ⊢
      rw [List.countP_cons, List.countP_cons, List.countP_cons]
      by_cases hval : isValueType tok.type = true
      · obtain ⟨h1, v, below, h2⟩ := hv hval
        refine ⟨?_, ?_, ?_⟩
        · rw [hc, h1, if_pos hval]; omega
        · intro _
          apply htop
          intro top ht
          rw [h2] at ht
          simp only [List.head?_cons, Option.some.injEq] at ht
          rw [← ht, h1]
        · split_ifs at hlen ⊢ <;> omega
      · have hval2 : isValueType tok.type = false := by simpa using hval
        obtain ⟨h1, h2⟩ := hnv hval2
        refine ⟨?_, ?_, ?_⟩
        · rw [hc, h1, if_neg hval]; omega
        · intro hst
          apply htop
          rw [h2, h1]
          exact hst
        · split_ifs at hlen ⊢ <;> omega

theorem valueCount_eq (toks : List Token) :
    valueCount toks =
      toks.countP (fun t => isOperandType t.type) + toks.countP (fun t => isBinopType t.type) := by
  induction toks with
  | nil => rfl
  | cons tok rest ih =>
    simp only [valueCount] at ih ⊢
    rw [List.countP_cons, List.countP_cons, List.countP_cons, ih]
    cases h : tok.type <;> simp [isValueType, isOperandType, isBinopType] <;> omega

theorem valueCount_append (pre rest : List Token) :
    valueCount (pre ++ rest) = valueCount pre + valueCount rest := by
  simp [valueCount, List.countP_append]

/-- C17: with the register counter at 1, an evaluation that counts no error leaves the
counter at k + 1 and returns register k, where k is the number of value-producing tokens
(literals, variables, binary operators) of the postfix sequence. The registers are
handed out in token order without reuse: a value-producing token that follows a prefix
`pre` is reached with the counter at `valueCount pre + 1`, pushes its value in that very
register, its records are those of `token_records` for that destination, and it leaves
the counter one higher. There is one operator less than there are operands, so with n
operands the register returned is 2n - 1. -/
theorem evaluate_rpn_register_allocation (stray : Nat → Int) (s : State) (rv : Int)
    (hc : s.temp_reg_counter = 1)
    (hok : (evaluate_rpn stray s rv).state.error_count = s.error_count) :
    (evaluate_rpn stray s rv).state.temp_reg_counter = valueCount s.rpn_queue + 1 ∧
    (evaluate_rpn stray s rv).reg = valueCount s.rpn_queue ∧
    (∀ pre tok post, s.rpn_queue = pre ++ tok :: post → isValueType tok.type = true →
      ∃ reached after v below recs,
        eval_steps stray pre 0 [] s = some reached ∧
        reached.2.temp_reg_counter = valueCount pre + 1 ∧
        eval_step stray tok pre.length reached.1 reached.2 = some after ∧
        after.1 = (valueCount pre + 1, v) :: below ∧
        after.2.temp_reg_counter = valueCount pre + 2 ∧
        token_records s.vars tok (valueCount pre + 1) (reached.1.map Prod.fst) =
          some (recs, valueCount pre + 2, (valueCount pre + 1) :: below.map Prod.fst)) ∧
    s.rpn_queue.countP (fun t => isOperandType t.type) =
      s.rpn_queue.countP (fun t => isBinopType t.type) + 1 ∧
    ∀ n, s.rpn_queue.countP (fun t => isOperandType t.type) = n →
      (evaluate_rpn stray s rv).reg = 2 * n - 1 := by
  obtain ⟨final, top, hrun, hfin, hres⟩ := eval_loop_success stray s.rpn_queue 0 [] s rv hok
  obtain ⟨hcnt, htop, hlen⟩ := eval_steps_alloc stray s.rpn_queue 0 [] s final hrun
  have hreg : top.1 + 1 = final.2.temp_reg_counter :=
    htop (by intro t ht; simp at ht) top (by rw [hfin]; rfl)
  rw [hfin] at hlen
  simp only [List.length_singleton, List.length_nil] at hlen
  have hres2 : evaluate_rpn stray s rv =
      { reg := top.1, result_value := top.2, state := final.2 } := hres
  rw [hres2]
  simp only []
  have hvc := valueCount_eq s.rpn_queue
  refine ⟨by rw [hcnt, hc]; omega, by omega, ?_, by omega, by intro n hn; omega⟩
  intro pre tok post hq hval
  rw [hq] at hrun
  obtain ⟨mid, hpre, hrest⟩ := eval_steps_append stray pre (tok :: post) 0 [] s final hrun
  rw [eval_steps] at hrest
  cases hs : eval_step stray tok (0 + pre.length) mid.1 mid.2 with
  | none => rw [hs] at hrest; exact absurd hrest (by simp)
  | some after =>
    obtain ⟨hc1, _, _⟩ := eval_steps_alloc stray pre 0 [] s mid hpre
    obtain ⟨hv, _, _⟩ := eval_step_alloc stray tok (0 + pre.length) mid.1 mid.2 after hs
    obtain ⟨h1, v, below, h2⟩ := hv hval
    obtain ⟨recs, hrec, _⟩ := eval_step_records stray tok (0 + pre.length) mid.1 mid.2 after hs
    have hmv : mid.2.vars = s.vars := (eval_steps_frame stray pre 0 [] s mid hpre).1.vars
    have hmc : mid.2.temp_reg_counter = valueCount pre + 1 := by rw [hc1, hc]; omega
    rw [Nat.zero_add] at hs
    refine ⟨mid, after, v, below, recs, hpre, hmc, hs, ?_, ?_, ?_⟩
    · rw [h2, hmc]
    · rw [h1, hmc]
    · rw [hmv, h1, h2, List.map_cons, hmc] at hrec
      exact hrec

set_option maxRecDepth 20000 in
/-- Witness of C17: `a 5 2 * -` has five value-producing tokens, three of them operands:
the evaluation returns register 5 = 2 * 3 - 1 and leaves the counter at 6. -/
theorem evaluate_rpn_register_allocation_witness :
    (evaluate_rpn (fun _ => 0)
      { State.init with
        vars := [{ name := ['a'], value := 9, mem_offset := 8, is_declared := true }],
        rpn_queue :=
          [{ type := TOK_VARIABLE, str := ['a'], num_value := 0 },
           { type := TOK_NUMBER, str := ['5'], num_value := 5 },
           { type := TOK_NUMBER, str := ['2'], num_value := 2 },
           opToken TOK_MULT '*', opToken TOK_MINUS '-'],
        temp_reg_counter := 1 } 0).state.temp_reg_counter = 6 ∧
    (evaluate_rpn (fun _ => 0)
      { State.init with
        vars := [{ name := ['a'], value := 9, mem_offset := 8, is_declared := true }],
        rpn_queue :=
          [{ type := TOK_VARIABLE, str := ['a'], num_value := 0 },
           { type := TOK_NUMBER, str := ['5'], num_value := 5 },
           { type := TOK_NUMBER, str := ['2'], num_value := 2 },
           opToken TOK_MULT '*', opToken TOK_MINUS '-'],
        temp_reg_counter := 1 } 0).reg = 5 :=
  ⟨(evaluate_rpn_register_allocation (fun _ => 0)
      { State.init with
        vars := [{ name := ['a'], value := 9, mem_offset := 8, is_declared := true }],
        rpn_queue :=
          [{ type := TOK_VARIABLE, str := ['a'], num_value := 0 },
           { type := TOK_NUMBER, str := ['5'], num_value := 5 },
           { type := TOK_NUMBER, str := ['2'], num_value := 2 },
           opToken TOK_MULT '*', opToken TOK_MINUS '-'],
        temp_reg_counter := 1 } 0 rfl (by decide)).1.trans (by decide),
   (evaluate_rpn_register_allocation (fun _ => 0)
      { State.init with
        vars := [{ name := ['a'], value := 9, mem_offset := 8, is_declared := true }],
        rpn_queue :=
          [{ type := TOK_VARIABLE, str := ['a'], num_value := 0 },
           { type := TOK_NUMBER, str := ['5'], num_value := 5 },
           { type := TOK_NUMBER, str := ['2'], num_value := 2 },
           opToken TOK_MULT '*', opToken TOK_MINUS '-'],
        temp_reg_counter := 1 } 0 rfl (by decide)).2.2.2.2 3 (by decide)⟩

/-! ## The move and the store that end a declaration -/

theorem emit_instr_full (s : State) (a : List Char) (e : Nat)
    (h : MAX_INSTR ≤ s.instrs.length) : emit_instr s a e = s := by
  unfold emit_instr
  rw [if_pos (by simp only [State.instr_count]; omega)]

/-- With room for two records, the end of a declaration appends the move to register 3
exactly when the result register is not 3, and then the store. -/
theorem store_result_instrs (r : EvalResult) (name : List Char) (var : Variable)
    (hg : get_variable r.state name = some var)
    (hroom : r.state.instrs.length + 2 ≤ MAX_INSTR) :
    (r.reg ≠ 3 → (store_result r name).instrs =
      r.state.instrs ++ [instr_record (asm_daddu 3 r.reg 0) (enc_daddu 3 r.reg 0),
        instr_record (asm_sd 3 name) (enc_sd 3 var.mem_offset)]) ∧
    (r.reg = 3 → (store_result r name).instrs =
      r.state.instrs ++ [instr_record (asm_sd 3 name) (enc_sd 3 var.mem_offset)]) := by
  unfold store_result
  rw [hg]
  simp only []
  constructor
  · intro hr
    rw [if_pos hr]
    unfold emit_sd emit_daddu
    exact emit_instr_two_room _ _ _ _ _ hroom
  · intro hr
    rw [if_neg (not_not.2 hr)]
    unfold emit_sd
    exact emit_instr_room _ _ _ (by simp only []; omega)

/-- At a full instruction list the end of a declaration appends nothing. -/
theorem store_result_full (r : EvalResult) (name : List Char)
    (hfull : MAX_INSTR ≤ r.state.instrs.length) :
    (store_result r name).instrs = r.state.instrs := by
  unfold store_result
  cases hg : get_variable r.state name with
  | none => rfl
  | some var =>
    simp only []
    have hfull3 : ∀ v, MAX_INSTR ≤ ({ r.state with vars := v } : State).instrs.length :=
      fun _ => hfull
    unfold emit_sd emit_daddu
    split_ifs
    · rw [emit_instr_full _ _ _ (hfull3 _), emit_instr_full _ _ _ (hfull3 _)]
    · rw [emit_instr_full _ _ _ (hfull3 _)]

/-- One record short of a full list, the declaration `int x = 1` appends the DADDIU of
its literal and nothing more. -/
theorem declaration_near_full (stray : Nat → Int) (s : State)
    (h : s.instrs.length + 1 = MAX_INSTR) :
    (process_statement stray s "int x = 1".toList).instrs =
      s.instrs ++ [instr_record (asm_daddiu 1 0 1) (enc_daddiu 1 0 1)] := by
  rw [process_statement_decl_run stray s "int x = 1".toList "x = 1".toList ['x'] ['1']
    [{ type := TOK_NUMBER, str := ['1'], num_value := 1 }] 0
    [{ type := TOK_NUMBER, str := ['1'], num_value := 1 }]
    (by decide) (by decide) (by decide) (by decide) (by decide) rfl (by decide)]
  have hd : (declare_variable s ['x']).instrs = s.instrs := by
    unfold declare_variable
    split <;> rfl
  rw [eval_loop_number stray _ _ _ _ _ _ rfl, eval_loop_nil, eval_finish_one]
  have he : ∀ t : State, t.instrs = s.instrs →
      (emit_daddiu t 1 0 (wrap32 1)).instrs =
        s.instrs ++ [instr_record (asm_daddiu 1 0 1) (enc_daddiu 1 0 1)] := by
    intro t ht
    unfold emit_daddiu
    rw [emit_instr_room _ _ _ (by rw [ht]; omega), ht]
    rfl
  rw [store_result_full]
  · exact he _ hd
  · simp only []
    rw [he _ (by exact hd), List.length_append, List.length_singleton]
    omega

/-- C15 as stated fails at the end of the instruction list: with 4095 records in the
list, the accepted declaration `int x = 1` appends the DADDIU of its literal, which
fills the list; the move from register 1 to register 3 and the SD are dropped by
`emit_instr`, so the appended instructions do not end with an SD. -/
theorem declaration_store_dropped :
    (process_statement (fun _ => 0)
      { State.init with instrs := List.replicate 4095 (instr_record (asm_mflo 1) (enc_mflo 1)) }
      "int x = 1".toList).instrs =
      List.replicate 4095 (instr_record (asm_mflo 1) (enc_mflo 1)) ++
        [instr_record (asm_daddiu 1 0 1) (enc_daddiu 1 0 1)] :=
  declaration_near_full (fun _ => 0)
    { State.init with instrs := List.replicate 4095 (instr_record (asm_mflo 1) (enc_mflo 1)) }
    (by
      show (List.replicate 4095 (instr_record (asm_mflo 1) (enc_mflo 1))).length + 1 = MAX_INSTR
      rw [List.length_replicate]
      rfl)

/-- C15 (amended): for a declaration that passes the `=` and target-name checks, with
`var` the record of the target in the table after `declare_variable` and `r` the result
of the evaluation of the right-hand side, and with room for two more records in the
instruction list after the evaluation: the list after the statement is the list after
the evaluation (the old list followed by records of the evaluator, none of which is a
move `DADDU r3, r, r0`) followed by the move `DADDU r3, r, r0` and the store
`SD r3, name(r29)` when the returned register `r` is not 3, and followed by the store
alone when it is 3. The word of the store has opcode 0x3F, base register 29, register 3
and the low 16 bits of the offset of the target. -/
theorem declaration_move_and_store (stray : Nat → Int) (s : State) (stmt rest : List Char)
    (var : Variable)
    (hstmt : stmt.dropWhile isspace = "int ".toList ++ rest) (heq : '=' ∈ rest)
    (hname : name_rejected (extract_name rest) = false)
    (hvar : get_variable (declare_variable s (extract_name rest)) (extract_name rest) =
      some var)
    (hroom : (compile_expr stray (declare_variable s (extract_name rest))
      (extract_expr rest)).state.instrs.length + 2 ≤ MAX_INSTR) :
    (∃ added,
      (compile_expr stray (declare_variable s (extract_name rest))
        (extract_expr rest)).state.instrs = s.instrs ++ added ∧
      (∀ x ∈ added, mnemonic x ∈ evalMnemonics) ∧
      ∀ x ∈ added, ∀ r, x ≠ instr_record (asm_daddu 3 r 0) (enc_daddu 3 r 0)) ∧
    ((compile_expr stray (declare_variable s (extract_name rest)) (extract_expr rest)).reg ≠ 3 →
      (process_statement stray s stmt).instrs =
        (compile_expr stray (declare_variable s (extract_name rest))
          (extract_expr rest)).state.instrs ++
        [instr_record
          (asm_daddu 3 (compile_expr stray (declare_variable s (extract_name rest))
            (extract_expr rest)).reg 0)
          (enc_daddu 3 (compile_expr stray (declare_variable s (extract_name rest))
            (extract_expr rest)).reg 0),
         instr_record (asm_sd 3 (extract_name rest)) (enc_sd 3 var.mem_offset)]) ∧
    ((compile_expr stray (declare_variable s (extract_name rest)) (extract_expr rest)).reg = 3 →
      (process_statement stray s stmt).instrs =
        (compile_expr stray (declare_variable s (extract_name rest))
          (extract_expr rest)).state.instrs ++
        [instr_record (asm_sd 3 (extract_name rest)) (enc_sd 3 var.mem_offset)]) ∧
    IFormat (enc_sd 3 var.mem_offset) 0x3F 29 3 (var.mem_offset % 65536).toNat := by
  have hc := compile_expr_vars stray (declare_variable s (extract_name rest)) (extract_expr rest)
  have hg : get_variable (compile_expr stray (declare_variable s (extract_name rest))
      (extract_expr rest)).state (extract_name rest) = some var := by
    rw [get_variable_congr _ _ hc.1, hvar]
  have hst := store_result_instrs _ _ var hg hroom
  have hfr := evaluate_rpn_frame stray (eval_input (declare_variable s (extract_name rest))
    (extract_expr rest)) 0
  rw [process_statement_decl stray s stmt rest hstmt heq hname]
  refine ⟨?_, hst.1, hst.2, enc_sd_format 3 _ (by norm_num)⟩
  obtain ⟨added, h1, h2⟩ := hfr.instrs
  obtain ⟨⟨shapes, k1, k2⟩, _⟩ :=
    compile_expr_below stray (declare_variable s (extract_name rest)) (extract_expr rest)
  have hd : (declare_variable s (extract_name rest)).instrs = s.instrs := by
    unfold declare_variable
    split <;> rfl
  have h3 : (compile_expr stray (declare_variable s (extract_name rest))
      (extract_expr rest)).state.instrs = s.instrs ++ added := by
    rw [compile_expr_eq_evaluate, h1, ← hd]
    rfl
  have h4 : added = shapes.map Emitted.record := by
    rw [k1, hd] at h3
    exact (List.append_cancel_left h3).symm
  refine ⟨added, h3, h2, ?_⟩
  intro x hx r
  rw [h4] at hx
  obtain ⟨sh, hsh, rfl⟩ := List.mem_map.1 hx
  exact sh.record_ne_move (k2 sh hsh).2 r

set_option maxRecDepth 20000 in
/-- Witness of C15: from the initial state `int x = 1` returns register 1 and appends
the DADDIU, the move `DADDU r3, r1, r0` and `SD r3, x(r29)` at offset 8; `int y = 1 + 2`
returns register 3 and its SD follows the DADDU of the sum without a move. -/
theorem declaration_move_and_store_witness :
    (process_statement (fun _ => 0) State.init "int x = 1".toList).instrs =
      [instr_record (asm_daddiu 1 0 1) (enc_daddiu 1 0 1),
       instr_record (asm_daddu 3 1 0) (enc_daddu 3 1 0),
       instr_record (asm_sd 3 ['x']) (enc_sd 3 8)] ∧
    (process_statement (fun _ => 0) State.init "int y = 1 + 2".toList).instrs =
      [instr_record (asm_daddiu 1 0 1) (enc_daddiu 1 0 1),
       instr_record (asm_daddiu 2 0 2) (enc_daddiu 2 0 2),
       instr_record (asm_daddu 3 1 2) (enc_daddu 3 1 2),
       instr_record (asm_sd 3 ['y']) (enc_sd 3 8)] :=
  ⟨((declaration_move_and_store (fun _ => 0) State.init "int x = 1".toList "x = 1".toList
      { name := ['x'], value := 0, mem_offset := 8, is_declared := true }
      (by decide) (by decide) (by decide) (by decide) (by decide)).2.1 (by decide)).trans
      (by decide),
   ((declaration_move_and_store (fun _ => 0) State.init "int y = 1 + 2".toList
      "y = 1 + 2".toList
      { name := ['y'], value := 0, mem_offset := 8, is_declared := true }
      (by decide) (by decide) (by decide) (by decide) (by decide)).2.2.1 (by decide)).trans
      (by decide)⟩

/-! ## Register fields of the appended records -/

/-- The counter after an evaluation is at most the counter before it plus the number of
value-producing tokens plus one (the increment of an error exit). -/
theorem eval_loop_counter_le (stray : Nat → Int) (toks : List Token) :
    ∀ (i : Nat) (stack : List (Nat × Int)) (s : State) (rv : Int),
      (eval_loop stray toks i stack s rv).state.temp_reg_counter ≤
        s.temp_reg_counter + valueCount toks + 1 := by
  induction toks with
  | nil =>
    intro i stack s rv
    rw [eval_loop_nil]
    match stack with
    | [] => exact le_of_eq rfl
    | [top] => exact Nat.le_add_right _ _
    | a :: b :: l => exact le_of_eq rfl
  | cons tok rest ih =>
    intro i stack s rv
    rw [eval_loop]
    cases hs : eval_step stray tok i stack s with
    | none =>
      show s.temp_reg_counter + 1 ≤ _
      omega
    | some n =>
      simp only []
      obtain ⟨hv, hnv, _⟩ := eval_step_alloc stray tok i stack s n hs
      have h := ih (i + 1) n.1 n.2 rv
      have hcons : valueCount (tok :: rest) =
          valueCount rest + (if isValueType tok.type = true then 1 else 0) := by
        simp only [valueCount, List.countP_cons]
      rw [hcons]
      by_cases hval : isValueType tok.type = true
      · rw [if_pos hval]
        have := (hv hval).1
        omega
      · rw [if_neg hval]
        have := (hnv (by simpa using hval)).1
        omega

set_option maxRecDepth 100000 in
/-- C16 as stated fails for an expression with many operands: compiling the bare
statement `1+1+...+1` with 18 literals counts no error and appends, for the 32nd value,
the record `DADDIU r32, r0, 1` with the word 0x64200001, whose `rs` field is 1 and whose
`rt` field is 0, and for the last sum the record `DADDU r35, r33, r34` with the word
0x0423182D, whose opcode field is 1. -/
theorem register_fields_overflow :
    (process_statement (fun _ => 0) State.init
      "1+1+1+1+1+1+1+1+1+1+1+1+1+1+1+1+1+1".toList).error_count = 0 ∧
    (process_statement (fun _ => 0) State.init
      "1+1+1+1+1+1+1+1+1+1+1+1+1+1+1+1+1+1".toList).instrs[31]? =
      some (instr_record (asm_daddiu 32 0 1) (enc_daddiu 32 0 1)) ∧
    (instr_record (asm_daddiu 32 0 1) (enc_daddiu 32 0 1)).assembly =
      "DADDIU r32, r0, 1".toList ∧
    (instr_record (asm_daddiu 32 0 1) (enc_daddiu 32 0 1)).hex = "64200001".toList ∧
    field 0x64200001 25 21 = 1 ∧ field 0x64200001 20 16 = 0 ∧
    (process_statement (fun _ => 0) State.init
      "1+1+1+1+1+1+1+1+1+1+1+1+1+1+1+1+1+1".toList).instrs[34]? =
      some (instr_record (asm_daddu 35 33 34) (enc_daddu 35 33 34)) ∧
    (instr_record (asm_daddu 35 33 34) (enc_daddu 35 33 34)).assembly =
      "DADDU r35, r33, r34".toList ∧
    (instr_record (asm_daddu 35 33 34) (enc_daddu 35 33 34)).hex = "0423182D".toList ∧
    field 0x0423182D 31 26 = 1 ∧
    fields_agree { assembly := "DADDIU r32, r0, 1".toList,
                   binary := "01100100001000000000000000000001".toList,
                   hex := "64200001".toList } = false ∧
    fields_agree { assembly := "DADDU r35, r33, r34".toList,
                   binary := "00000100001000110001100000101101".toList,
                   hex := "0423182D".toList } = false ∧
    (instr_record (asm_daddiu 32 0 1) (enc_daddiu 32 0 1)).binary =
      "01100100001000000000000000000001".toList ∧
    (instr_record (asm_daddu 35 33 34) (enc_daddu 35 33 34)).binary =
      "00000100001000110001100000101101".toList := by
  decide

/-- C16 (amended): when the register counter is at most 32 after a statement whose
tokens fit the token array, so that the statement used registers below 32 only, the
records of the list are kept and every
record the statement appends agrees with its own assembly text, read as MIPS64 assembly:
bits 31-26 of the word written in its binary string are the opcode of the mnemonic of
the text (0 for DADDU, DSUBU, DMULT, DDIV and MFLO), and the `rs`, `rt` and `rd` fields
are the register numbers the text prints; the hex string denotes the same word. The
counter stays at or below 32 when the postfix sequence of the expression has at most 30
value-producing tokens. -/
theorem appended_records_fields (stray : Nat → Int) (s : State) (stmt : List Char)
    (hc : (process_statement stray s stmt).temp_reg_counter ≤ 32)
    (hfit : tokens_fit (process_statement stray s stmt)) :
    (process_statement stray s stmt).instrs.take s.instrs.length = s.instrs ∧
    (∀ x ∈ (process_statement stray s stmt).instrs.drop s.instrs.length,
      fields_agree x = true ∧ hexValue x.hex = binValue x.binary) ∧
    ∀ (t : State) (e : List Char), valueCount (eval_input t e).rpn_queue ≤ 30 →
      (compile_expr stray t e).state.temp_reg_counter ≤ 32 := by
  refine ⟨?_, ?_, ?_⟩
  · obtain ⟨shapes, h1, _⟩ := process_statement_below stray s stmt
    rw [h1, List.take_left]
  · obtain ⟨shapes, h1, h2⟩ := process_statement_below stray s stmt
    rw [max_eq_right hc] at h2
    intro x hx
    rw [h1, List.drop_left] at hx
    obtain ⟨sh, hsh, rfl⟩ := List.mem_map.1 hx
    exact sh.fields_agree_of_regs (h2 sh hsh).1
  · intro t e hv
    rw [compile_expr_eq_evaluate]
    have h := eval_loop_counter_le stray (eval_input t e).rpn_queue 0 [] (eval_input t e) 0
    have h1 : (eval_input t e).temp_reg_counter = 1 := rfl
    rw [h1] at h
    unfold evaluate_rpn
    omega

set_option maxRecDepth 20000 in
/-- Witness of C16: `int x = 1 + 2` from the initial state leaves the counter at 4 and
appends four records, each of which agrees with its text; the third one is
`DADDU r3, r1, r2` with the word 0x0022182D, whose fields read opcode 0, rs 1, rt 2,
rd 3. -/
theorem appended_records_fields_witness :
    (process_statement (fun _ => 0) State.init "int x = 1 + 2".toList).temp_reg_counter = 4 ∧
    (process_statement (fun _ => 0) State.init "int x = 1 + 2".toList).instrs.map
        (fun x => (x.assembly, x.hex)) =
      [("DADDIU r1, r0, 1".toList, "64010001".toList),
       ("DADDIU r2, r0, 2".toList, "64020002".toList),
       ("DADDU r3, r1, r2".toList, "0022182D".toList),
       ("SD r3, x(r29)".toList, "FFA30008".toList)] ∧
    (field 0x0022182D 31 26 = 0 ∧ field 0x0022182D 25 21 = 1 ∧ field 0x0022182D 20 16 = 2 ∧
      field 0x0022182D 15 11 = 3) ∧
    ∀ x ∈ (process_statement (fun _ => 0) State.init "int x = 1 + 2".toList).instrs.drop
        State.init.instrs.length,
      fields_agree x = true ∧ hexValue x.hex = binValue x.binary :=
  ⟨by decide, by decide, by decide,
    (appended_records_fields (fun _ => 0) State.init "int x = 1 + 2".toList (by decide)
      (by decide)).2.1⟩

/-! ## The tokens of the postfix sequence -/

/-- The inner loop of the closing parenthesis moves a run of tokens that are not opening
parentheses from the stack to the output and stops at an opening parenthesis or at the
empty stack. -/
theorem pop_to_lparen_split (ops : List Token) :
    ∀ out : List Token, ∃ moved,
      (pop_to_lparen ops out).2 = out ++ moved ∧ ops = moved ++ (pop_to_lparen ops out).1 ∧
      (∀ t ∈ moved, t.type ≠ TOK_LPAREN) ∧
      ((pop_to_lparen ops out).1 = [] ∨
        ∃ lp rest, (pop_to_lparen ops out).1 = lp :: rest ∧ lp.type = TOK_LPAREN) := by
  induction ops with
  | nil => intro out; exact ⟨[], by simp [pop_to_lparen]⟩
  | cons t ops ih =>
    intro out
    by_cases h : t.type ≠ TOK_LPAREN
    · obtain ⟨moved, h1, h2, h3, h4⟩ := ih (out ++ [t])
      refine ⟨t :: moved, ?_, ?_, ?_, ?_⟩
      · rw [pop_to_lparen, if_pos h, h1]; simp
      · rw [pop_to_lparen, if_pos h]
        rw [List.cons_append, ← h2]
      · intro x hx
        rcases List.mem_cons.1 hx with hx | hx
        · rw [hx]; exact h
        · exact h3 x hx
      · rw [pop_to_lparen, if_pos h]; exact h4
    · refine ⟨[], ?_, ?_, by simp, ?_⟩
      · rw [pop_to_lparen, if_neg h]; simp
      · rw [pop_to_lparen, if_neg h]; simp
      · rw [pop_to_lparen, if_neg h]
        exact Or.inr ⟨t, ops, rfl, not_not.1 h⟩

/-- The inner loop of an operator moves a run of tokens that are not opening
parentheses from the stack to the output. -/
theorem pop_higher_split (tok : Token) (ops : List Token) :
    ∀ out : List Token, ∃ moved,
      (pop_higher tok ops out).2 = out ++ moved ∧ ops = moved ++ (pop_higher tok ops out).1 ∧
      (∀ t ∈ moved, t.type ≠ TOK_LPAREN) := by
  induction ops with
  | nil => intro out; exact ⟨[], by simp [pop_higher]⟩
  | cons t ops ih =>
    intro out
    by_cases h : t.type ≠ TOK_LPAREN ∧ get_precedence t.type ≥ get_precedence tok.type
    · obtain ⟨moved, h1, h2, h3⟩ := ih (out ++ [t])
      refine ⟨t :: moved, ?_, ?_, ?_⟩
      · rw [pop_higher, if_pos h, h1]; simp
      · rw [pop_higher, if_pos h]
        rw [List.cons_append, ← h2]
      · intro x hx
        rcases List.mem_cons.1 hx with hx | hx
        · rw [hx]; exact h.1
        · exact h3 x hx
    · refine ⟨[], ?_, ?_, by simp⟩
      · rw [pop_higher, if_neg h]; simp
      · rw [pop_higher, if_neg h]; simp

theorem open_parens_snoc (pre : List Token) (tok : Token) :
    open_parens (pre ++ [tok]) =
      if tok.type = TOK_LPAREN then open_parens pre + 1
      else if tok.type = TOK_RPAREN then open_parens pre - 1 else open_parens pre := by
  simp [open_parens, List.foldl_append]

theorem ConvInv.start : ConvInv [] ([], []) :=
  ⟨by simp, by simp, by simp, by simp, by simp [open_parens]⟩

theorem isKept_of_moved (t : Token)
    (hk : t.type = TOK_LPAREN ∨ isBinopType t.type = true) (hn : t.type ≠ TOK_LPAREN) :
    isKept t = true ∧ isOperandType t.type = false := by
  rcases hk with hk | hk
  · exact absurd hk hn
  · rw [isBinopType_iff] at hk
    rcases hk with hk | hk | hk | hk <;> simp [isKept, isOperandType, isBinopType, hk]

theorem filter_operand_moved (moved : List Token)
    (h : ∀ t ∈ moved, isOperandType t.type = false) :
    moved.filter (fun t => isOperandType t.type) = [] := by
  rw [List.filter_eq_nil_iff]
  intro t ht
  rw [h t ht]
  simp

theorem countP_lparen_moved (moved : List Token) (h : ∀ t ∈ moved, t.type ≠ TOK_LPAREN) :
    moved.countP (fun t => t.type = TOK_LPAREN) = 0 := by
  rw [List.countP_eq_zero]
  intro t ht
  simpa using h t ht

/-- One iteration of the main loop of the conversion keeps the invariant. -/
theorem ConvInv.advance {pre : List Token} {st : List Token × List Token} (h : ConvInv pre st)
    (tok : Token) : ConvInv (pre ++ [tok]) (rpn_step st tok) := by
  obtain ⟨ops, out⟩ := st
  obtain ⟨h1, h2, h3, h4, h5⟩ := h
  simp only at h1 h2 h3 h4 h5
  unfold rpn_step
  by_cases c1 : tok.type = TOK_NUMBER ∨ tok.type = TOK_VARIABLE
  · rw [if_pos c1]
    have hk : isKept tok = true := by
      rcases c1 with c | c <;> simp [isKept, isOperandType, c]
    have ho : isOperandType tok.type = true := by
      rcases c1 with c | c <;> simp [isOperandType, c]
    have hl : tok.type ≠ TOK_LPAREN := by
      rcases c1 with c | c <;> rw [c] <;> decide
    have hr : tok.type ≠ TOK_RPAREN := by
      rcases c1 with c | c <;> rw [c] <;> decide
    refine ⟨?_, h2, ?_, ?_, ?_⟩
    · intro t ht
      rcases List.mem_append.1 ht with ht | ht
      · exact h1 t ht
      · rw [List.mem_singleton.1 ht]; exact hk
    · simp only [List.filter_append, List.filter_cons, hk, if_true, List.filter_nil,
        List.append_assoc]
      have hp : (List.filter isKept out ++ ([tok] ++ List.filter isKept ops)).Perm
          ((List.filter isKept out ++ List.filter isKept ops) ++ [tok]) := by
        rw [List.append_assoc]
        exact List.Perm.append_left _ List.perm_append_comm
      refine hp.trans ?_
      rw [← List.filter_append]
      exact List.Perm.append_right _ h3
    · simp only [List.filter_append, List.filter_cons, ho, if_true, List.filter_nil, h4]
    · rw [open_parens_snoc, if_neg hl, if_neg hr]
      exact h5
  rw [if_neg c1]
  have hno : isOperandType tok.type = false := by
    simpa [isOperandType] using c1
  by_cases c2 : tok.type = TOK_LPAREN
  · rw [if_pos c2]
    have hk : isKept tok = false := by simp [isKept, isOperandType, isBinopType, c2]
    refine ⟨h1, ?_, ?_, ?_, ?_⟩
    · intro t ht
      rcases List.mem_cons.1 ht with ht | ht
      · rw [ht]; exact Or.inl c2
      · exact h2 t ht
    · simp only [List.filter_append, List.filter_cons, hk, List.filter_nil, List.append_nil]
      simp only [List.filter_append] at h3
      simpa using h3
    · simp only [List.filter_append, List.filter_cons, hno, List.filter_nil, List.append_nil]
      simpa using h4
    · rw [open_parens_snoc, if_pos c2, List.countP_cons, h5]
      simp [c2]
  rw [if_neg c2]
  by_cases c3 : tok.type = TOK_RPAREN
  · rw [if_pos c3]
    have hk : isKept tok = false := by simp [isKept, isOperandType, isBinopType, c3]
    obtain ⟨moved, m1, m2, m3, m4⟩ := pop_to_lparen_split ops out
    have hmoved : ∀ t ∈ moved, isKept t = true ∧ isOperandType t.type = false := by
      intro t ht
      exact isKept_of_moved t (h2 t (by rw [m2]; exact List.mem_append_left _ ht)) (m3 t ht)
    simp only []
    have hpre : (pre ++ [tok]).filter isKept = pre.filter isKept := by
      simp [List.filter_append, hk]
    have hpreo : (pre ++ [tok]).filter (fun t => isOperandType t.type) =
        pre.filter (fun t => isOperandType t.type) := by
      simp [List.filter_append, hno]
    refine ⟨?_, ?_, ?_, ?_, ?_⟩
    · intro t ht
      rw [m1] at ht
      rcases List.mem_append.1 ht with ht | ht
      · exact h1 t ht
      · exact (hmoved t ht).1
    · intro t ht
      exact h2 t (by rw [m2]; exact List.mem_append_right _ (List.mem_of_mem_tail ht))
    · have key : ((pop_to_lparen ops out).2 ++ (pop_to_lparen ops out).1.tail).filter isKept =
          (out ++ ops).filter isKept := by
        rw [m1]
        conv_rhs => rw [m2]
        rcases m4 with m4 | ⟨lp, rest, m4, hlp⟩
        · rw [m4]; simp
        · have hklp : isKept lp = false := by simp [isKept, isOperandType, isBinopType, hlp]
          rw [m4]
          simp [List.filter_append, List.filter_cons, hklp]
      rw [hpre, key]
      exact h3
    · rw [hpreo, m1, List.filter_append,
        filter_operand_moved moved (fun t ht => (hmoved t ht).2), List.append_nil]
      exact h4
    · rw [open_parens_snoc, if_neg c2, if_pos c3, ← h5]
      have hc : ops.countP (fun t => t.type = TOK_LPAREN) =
          (pop_to_lparen ops out).1.countP (fun t => t.type = TOK_LPAREN) := by
        conv_lhs => rw [m2]
        rw [List.countP_append, countP_lparen_moved moved m3, Nat.zero_add]
      rw [hc]
      rcases m4 with m4 | ⟨lp, rest, m4, hlp⟩
      · rw [m4]; rfl
      · rw [m4, List.tail_cons, List.countP_cons]
        simp [hlp]
  rw [if_neg c3]
  by_cases c4 : tok.type = TOK_PLUS ∨ tok.type = TOK_MINUS ∨ tok.type = TOK_MULT ∨
      tok.type = TOK_DIV
  · rw [if_pos c4]
    have hb : isBinopType tok.type = true := (isBinopType_iff _).2 c4
    have hk : isKept tok = true := by simp [isKept, hb]
    obtain ⟨moved, m1, m2, m3⟩ := pop_higher_split tok ops out
    have hmoved : ∀ t ∈ moved, isKept t = true ∧ isOperandType t.type = false := by
      intro t ht
      exact isKept_of_moved t (h2 t (by rw [m2]; exact List.mem_append_left _ ht)) (m3 t ht)
    simp only []
    refine ⟨?_, ?_, ?_, ?_, ?_⟩
    · intro t ht
      rw [m1] at ht
      rcases List.mem_append.1 ht with ht | ht
      · exact h1 t ht
      · exact (hmoved t ht).1
    · intro t ht
      rcases List.mem_cons.1 ht with ht | ht
      · rw [ht]; exact Or.inr hb
      · exact h2 t (by rw [m2]; exact List.mem_append_right _ ht)
    · have e1 : (pop_higher tok ops out).2 ++ tok :: (pop_higher tok ops out).1 =
          out ++ moved ++ ([tok] ++ (pop_higher tok ops out).1) := by
        rw [m1]; rfl
      have e2 : out ++ ops = out ++ moved ++ (pop_higher tok ops out).1 := by
        conv_lhs => rw [m2]
        rw [List.append_assoc]
      rw [e1, List.filter_append pre, List.filter_append (out ++ moved)]
      rw [e2, List.filter_append (out ++ moved)] at h3
      have hp : (List.filter isKept (out ++ moved) ++
            List.filter isKept ([tok] ++ (pop_higher tok ops out).1)).Perm
          ((List.filter isKept (out ++ moved) ++
            List.filter isKept (pop_higher tok ops out).1) ++ List.filter isKept [tok]) := by
        rw [List.filter_append [tok], List.append_assoc (List.filter isKept (out ++ moved))]
        exact List.Perm.append_left _ List.perm_append_comm
      exact hp.trans (List.Perm.append_right _ h3)
    · rw [m1, List.filter_append,
        filter_operand_moved moved (fun t ht => (hmoved t ht).2), List.append_nil,
        List.filter_append, h4]
      simp [hno]
    · have hl : tok.type ≠ TOK_LPAREN := c2
      rw [open_parens_snoc, if_neg c2, if_neg c3, ← h5, List.countP_cons]
      conv_rhs => rw [m2]
      rw [List.countP_append, countP_lparen_moved moved m3]
      simp [hl]
  · rw [if_neg c4]
    have hb : isBinopType tok.type = false := by
      cases hbt : isBinopType tok.type with
      | false => rfl
      | true => exact absurd ((isBinopType_iff _).1 hbt) c4
    have hk : isKept tok = false := by simp [isKept, hno, hb]
    refine ⟨h1, h2, ?_, ?_, ?_⟩
    · simpa [List.filter_append, hk] using h3
    · simpa [List.filter_append, hno] using h4
    · rw [open_parens_snoc, if_neg c2, if_neg c3]
      exact h5

/-- The invariant holds after the main loop of the conversion. -/
theorem ConvInv.run (toks : List Token) :
    ∀ (pre : List Token) (st : List Token × List Token), ConvInv pre st →
      ConvInv (pre ++ toks) (toks.foldl rpn_step st) := by
  induction toks with
  | nil => intro pre st h; simpa using h
  | cons tok rest ih =>
    intro pre st h
    have := ih (pre ++ [tok]) (rpn_step st tok) (h.advance tok)
    simpa using this

/-- The tokens of the converted sequence, for every input. -/
theorem rpn_of_tokens (toks : List Token) :
    (∀ t ∈ rpn_of toks, isKept t = true ∨ t.type = TOK_LPAREN) ∧
    ((rpn_of toks).filter isKept).Perm (toks.filter isKept) ∧
    (rpn_of toks).filter (fun t => isOperandType t.type) =
      toks.filter (fun t => isOperandType t.type) ∧
    (rpn_of toks).countP (fun t => t.type = TOK_LPAREN) = open_parens toks := by
  have h := ConvInv.run toks [] ([], []) ConvInv.start
  rw [List.nil_append] at h
  obtain ⟨h1, h2, h3, h4, h5⟩ := h
  have hr : rpn_of toks =
      (toks.foldl rpn_step ([], [])).2 ++ (toks.foldl rpn_step ([], [])).1 := by
    simp only [rpn_of, pop_all_eq]
  have hk : ∀ t ∈ (toks.foldl rpn_step ([], [])).2, t.type ≠ TOK_LPAREN := by
    intro t ht hl
    have := h1 t ht
    simp [isKept, isOperandType, isBinopType, hl] at this
  rw [hr]
  refine ⟨?_, h3, ?_, ?_⟩
  · intro t ht
    rcases List.mem_append.1 ht with ht | ht
    · exact Or.inl (h1 t ht)
    · rcases h2 t ht with hl | hb
      · exact Or.inr hl
      · exact Or.inl (by simp [isKept, hb])
  · rw [List.filter_append, h4]
    have : (toks.foldl rpn_step ([], [])).1.filter (fun t => isOperandType t.type) = [] := by
      rw [List.filter_eq_nil_iff]
      intro t ht
      rcases h2 t ht with hl | hb
      · simp [isOperandType, hl]
      · rw [isBinopType_iff] at hb
        rcases hb with hb | hb | hb | hb <;> simp [isOperandType, hb]
    rw [this, List.append_nil]
  · rw [List.countP_append, countP_lparen_moved _ hk, Nat.zero_add]
    exact h5

/-- C19 as stated fails for an opening parenthesis that is never closed: the text `(3`
is scanned as an opening parenthesis and the literal 3, and the converted sequence is
the literal followed by the opening parenthesis. -/
theorem unclosed_paren_in_output :
    (tokenize_expression State.init "(3".toList).tokens =
      [opToken TOK_LPAREN '(', { type := TOK_NUMBER, str := ['3'], num_value := 3 },
        endToken] ∧
    (convert_to_rpn (tokenize_expression State.init "(3".toList)).rpn_queue =
      [{ type := TOK_NUMBER, str := ['3'], num_value := 3 }, opToken TOK_LPAREN '('] := by
  decide

/-- C19 (amended): for every token sequence, balanced or not, the output of
`convert_to_rpn` holds no closing parenthesis: each of its tokens is an operand, an
operator or an opening parenthesis. Its operands and operators are exactly those of the
input (same multiset), the operands in their original order. It holds one opening
parenthesis for each opening parenthesis of the input that no later closing parenthesis
closes; when there is none, it holds no parenthesis at all and is a rearrangement of the
operands and operators of the input. -/
theorem convert_to_rpn_tokens (s : State) :
    (∀ t ∈ (convert_to_rpn s).rpn_queue, t.type ≠ TOK_RPAREN) ∧
    (∀ t ∈ (convert_to_rpn s).rpn_queue, isKept t = true ∨ t.type = TOK_LPAREN) ∧
    ((convert_to_rpn s).rpn_queue.filter isKept).Perm
      ((s.tokens.take s.token_count).filter isKept) ∧
    (convert_to_rpn s).rpn_queue.filter (fun t => isOperandType t.type) =
      (s.tokens.take s.token_count).filter (fun t => isOperandType t.type) ∧
    (convert_to_rpn s).rpn_queue.countP (fun t => t.type = TOK_LPAREN) =
      open_parens (s.tokens.take s.token_count) ∧
    (open_parens (s.tokens.take s.token_count) = 0 →
      (∀ t ∈ (convert_to_rpn s).rpn_queue, t.type ≠ TOK_LPAREN) ∧
      (convert_to_rpn s).rpn_queue.Perm ((s.tokens.take s.token_count).filter isKept)) := by
  obtain ⟨h1, h2, h3, h4⟩ := rpn_of_tokens (s.tokens.take s.token_count)
  have hq : (convert_to_rpn s).rpn_queue = rpn_of (s.tokens.take s.token_count) := rfl
  rw [hq]
  refine ⟨?_, h1, h2, h3, h4, ?_⟩
  · intro t ht hr
    rcases h1 t ht with hk | hl
    · simp [isKept, isOperandType, isBinopType, hr] at hk
    · rw [hr] at hl
      exact absurd hl (by decide)
  · intro h0
    rw [h0, List.countP_eq_zero] at h4
    have hnl : ∀ t ∈ rpn_of (s.tokens.take s.token_count), t.type ≠ TOK_LPAREN := by
      intro t ht
      simpa using h4 t ht
    refine ⟨hnl, ?_⟩
    have hall : (rpn_of (s.tokens.take s.token_count)).filter isKept =
        rpn_of (s.tokens.take s.token_count) := by
      rw [List.filter_eq_self]
      intro t ht
      rcases h1 t ht with hk | hl
      · exact hk
      · exact absurd hl (hnl t ht)
    rw [← hall]
    exact h2

/-- Witness of C19: in `(1+2)*3` every parenthesis is closed, and the converted
sequence `1 2 + 3 *` holds no opening parenthesis. -/
theorem convert_to_rpn_tokens_witness :
    open_parens ((tokenize_expression State.init "(1+2)*3".toList).tokens.take
      (tokenize_expression State.init "(1+2)*3".toList).token_count) = 0 ∧
    ∀ t ∈ (convert_to_rpn (tokenize_expression State.init "(1+2)*3".toList)).rpn_queue,
      t.type ≠ TOK_LPAREN :=
  ⟨by decide,
    ((convert_to_rpn_tokens (tokenize_expression State.init "(1+2)*3".toList)).2.2.2.2.2
      (by decide)).1⟩

/-! ## Unknown characters -/

theorem tokenize_loop_congr (old : List Token) (fuel i : Nat) (a b : List Char)
    (h : a.dropWhile isspace = b.dropWhile isspace) :
    tokenize_loop old fuel i a = tokenize_loop old fuel i b := by
  cases fuel with
  | zero => rfl
  | succ n => rw [tokenize_loop, tokenize_loop, h]

theorem dropWhile_head_false (p : Char → Bool) (l : List Char) (c : Char) (rest : List Char)
    (h : l.dropWhile p = c :: rest) : p c = false := by
  induction l with
  | nil => simp at h
  | cons x xs ih =>
    rw [List.dropWhile_cons] at h
    by_cases hx : p x = true
    · rw [if_pos hx] at h; exact ih h
    · rw [if_neg hx] at h
      simp only [List.cons.injEq] at h
      rw [← h.1]
      simpa using hx

theorem blank_char_known (c : Char) (h : isUnknown c = false) : blank_char c = c := by
  simp [blank_char, h]

theorem blank_char_unknown (c : Char) (h : isUnknown c = true) : blank_char c = ' ' := by
  simp [blank_char, h]

theorem isUnknown_of_isspace (c : Char) (h : isspace c = true) : isUnknown c = false := by
  simp [isUnknown, h]

theorem isUnknown_of_isdigit (c : Char) (h : isdigit c = true) : isUnknown c = false := by
  simp [isUnknown, h]

theorem isUnknown_of_isIdentChar (c : Char) (h : isIdentChar c = true) :
    isUnknown c = false := by
  simp only [isIdentChar, isalnum, Bool.or_eq_true, decide_eq_true_eq] at h
  rcases h with (h | h) | h <;> simp [isUnknown, h]

theorem isdigit_blank_char (c : Char) : isdigit (blank_char c) = isdigit c := by
  cases h : isUnknown c with
  | false => rw [blank_char_known c h]
  | true =>
    rw [blank_char_unknown c h]
    cases hd : isdigit c with
    | false => decide
    | true => rw [isUnknown_of_isdigit c hd] at h; exact absurd h (by decide)

theorem isIdentChar_blank_char (c : Char) : isIdentChar (blank_char c) = isIdentChar c := by
  cases h : isUnknown c with
  | false => rw [blank_char_known c h]
  | true =>
    rw [blank_char_unknown c h]
    cases hd : isIdentChar c with
    | false => decide
    | true => rw [isUnknown_of_isIdentChar c hd] at h; exact absurd h (by decide)

/-- Scanning a run of characters of a class that holds no unknown character commutes
with the replacement of the unknown characters. -/
theorem span_blank (p : Char → Bool) (hp : ∀ c, p (blank_char c) = p c)
    (hk : ∀ c, p c = true → isUnknown c = false) (l : List Char) :
    (blank_unknown l).takeWhile p = l.takeWhile p ∧
    (blank_unknown l).dropWhile p = blank_unknown (l.dropWhile p) ∧
    (l.dropWhile p).countP isUnknown = l.countP isUnknown ∧
    (l.dropWhile p).length ≤ l.length := by
  induction l with
  | nil => simp [blank_unknown]
  | cons x xs ih =>
    obtain ⟨i1, i2, i3, i4⟩ := ih
    simp only [blank_unknown] at i1 i2
    by_cases hx : p x = true
    · have hb := blank_char_known x (hk x hx)
      simp only [blank_unknown, List.map_cons, List.takeWhile_cons, List.dropWhile_cons, hp, hx,
        if_true, hb, List.countP_cons, hk x hx, List.length_cons]
      exact ⟨by rw [i1], i2, by simpa using i3, by omega⟩
    · have hf : p x = false := by simpa using hx
      simp [blank_unknown, List.takeWhile_cons, List.dropWhile_cons, hp, hf]

theorem starts_with_digit_blank (rest : List Char) :
    starts_with_digit (blank_unknown rest) = starts_with_digit rest := by
  cases rest with
  | nil => rfl
  | cons d tl => exact isdigit_blank_char d

/-- An unknown character produces no token and one call of `report_error`. -/
theorem scan_token_unknown (cur : Token) (c : Char) (rest : List Char)
    (h : isUnknown c = true) : scan_token cur c rest = (none, rest, 1) := by
  simp only [isUnknown, Bool.and_eq_true, Bool.not_eq_true', decide_eq_true_eq, ne_eq,
    decide_not] at h
  obtain ⟨⟨⟨⟨⟨⟨⟨⟨⟨h1, h2⟩, h3⟩, h4⟩, h5⟩, h6⟩, h7⟩, h8⟩, h9⟩, h10⟩ := h
  simp only [decide_eq_false_iff_not] at h4 h5 h6 h7 h8 h9 h10
  simp [scan_token, h2, h3, h4, h5, h6, h7, h8, h9, h10]

/-- At a character that is neither white space nor unknown, one iteration produces the
same token on the text with the unknown characters replaced, leaves the replaced rest,
reports no error, consumes at least that character and no unknown character. -/
theorem scan_token_known (cur : Token) (c : Char) (rest : List Char)
    (hk : isUnknown c = false) (hs : isspace c = false) :
    scan_token cur c (blank_unknown rest) =
        ((scan_token cur c rest).1, blank_unknown (scan_token cur c rest).2.1, 0) ∧
      (scan_token cur c rest).2.2 = 0 ∧
      (scan_token cur c rest).2.1.countP isUnknown = rest.countP isUnknown ∧
      (scan_token cur c rest).2.1.length ≤ rest.length := by
  have hbc : blank_unknown (c :: rest) = c :: blank_unknown rest := by
    simp [blank_unknown, blank_char_known c hk]
  have hcnt : (c :: rest).countP isUnknown = rest.countP isUnknown := by
    simp [List.countP_cons, hk]
  simp only [scan_token, starts_with_digit_blank]
  by_cases h1 : (isdigit c || (decide (c = '-') && starts_with_digit rest)) = true
  · rw [if_pos h1, if_pos h1]
    by_cases hm : c = '-'
    · obtain ⟨s1, s2, s3, s4⟩ := span_blank isdigit isdigit_blank_char isUnknown_of_isdigit rest
      simp only [hm, if_true, s1, s2, s3]
      exact ⟨trivial, trivial, trivial, s4⟩
    · have hd : isdigit c = true := by simpa [hm] using h1
      obtain ⟨s1, s2, s3, s4⟩ :=
        span_blank isdigit isdigit_blank_char isUnknown_of_isdigit (c :: rest)
      rw [hbc] at s1 s2
      simp only [hm, if_false, s1, s2, s3, hcnt]
      refine ⟨trivial, trivial, trivial, ?_⟩
      rw [List.dropWhile_cons, if_pos hd]
      exact (span_blank isdigit isdigit_blank_char isUnknown_of_isdigit rest).2.2.2
  rw [if_neg h1, if_neg h1]
  by_cases h2 : (isalpha c || decide (c = '_')) = true
  · rw [if_pos h2, if_pos h2]
    have hi : isIdentChar c = true := by
      simp only [Bool.or_eq_true, decide_eq_true_eq] at h2
      rcases h2 with h2 | h2 <;> simp [isIdentChar, isalnum, h2]
    obtain ⟨s1, s2, s3, s4⟩ :=
      span_blank isIdentChar isIdentChar_blank_char isUnknown_of_isIdentChar (c :: rest)
    rw [hbc] at s1 s2
    simp only [s1, s2, s3, hcnt]
    refine ⟨trivial, trivial, trivial, ?_⟩
    rw [List.dropWhile_cons, if_pos hi]
    exact (span_blank isIdentChar isIdentChar_blank_char isUnknown_of_isIdentChar rest).2.2.2
  rw [if_neg h2, if_neg h2]
  simp only [Bool.or_eq_true, Bool.and_eq_true, decide_eq_true_eq, not_or, not_and] at h1 h2
  by_cases c3 : c = '+'
  · simp [c3]
  by_cases c4 : c = '-'
  · simp [c4]
  by_cases c5 : c = '*'
  · simp [c5]
  by_cases c6 : c = '/'
  · simp [c6]
  by_cases c7 : c = '('
  · simp [c7]
  by_cases c8 : c = ')'
  · simp [c8]
  exfalso
  have : isUnknown c = true := by
    simp [isUnknown, hs, h1.1, h2.1, h2.2, c3, c4, c5, c6, c7, c8]
  rw [hk] at this
  exact absurd this (by decide)

theorem takeWhile_isspace_known (cs : List Char) :
    blank_unknown (cs.takeWhile isspace) = cs.takeWhile isspace ∧
      (cs.takeWhile isspace).countP isUnknown = 0 := by
  have h : ∀ x ∈ cs.takeWhile isspace, isUnknown x = false := fun x hx =>
    isUnknown_of_isspace x (List.mem_takeWhile_imp hx)
  constructor
  · simp only [blank_unknown]
    conv_rhs => rw [← List.map_id (cs.takeWhile isspace)]
    exact List.map_congr_left (fun x hx => blank_char_known x (h x hx))
  · rw [List.countP_eq_zero]
    intro x hx
    simp [h x hx]

/-- The loop of the tokenizer on a text and on the text with the unknown characters
replaced by spaces: the same tokens, one call of `report_error` for each unknown
character of the text, none for the replaced text. -/
theorem tokenize_loop_unknown (old : List Token) (fuel : Nat) :
    ∀ (cs : List Char) (fuel2 i : Nat), cs.length ≤ fuel → cs.length ≤ fuel2 →
      (tokenize_loop old fuel i cs).1 = (tokenize_loop old fuel2 i (blank_unknown cs)).1 ∧
      (tokenize_loop old fuel i cs).2 = cs.countP isUnknown ∧
      (tokenize_loop old fuel2 i (blank_unknown cs)).2 = 0 := by
  induction fuel with
  | zero =>
    intro cs fuel2 i h1 _
    have hnil : cs = [] := List.length_eq_zero.1 (Nat.le_zero.1 h1)
    subst hnil
    simp [blank_unknown, tokenize_loop_nil]
  | succ n ih =>
    intro cs fuel2 i h1 h2
    obtain ⟨hw1, hw2⟩ := takeWhile_isspace_known cs
    have hsplit : cs = cs.takeWhile isspace ++ cs.dropWhile isspace :=
      (List.takeWhile_append_dropWhile isspace cs).symm
    have hall : ∀ x ∈ cs.takeWhile isspace, isspace x = true :=
      fun x hx => List.mem_takeWhile_imp hx
    have hblank : blank_unknown cs =
        cs.takeWhile isspace ++ blank_unknown (cs.dropWhile isspace) := by
      conv_lhs => rw [hsplit]
      simp only [blank_unknown, List.map_append]
      simp only [blank_unknown] at hw1
      rw [hw1]
    have hcount : cs.countP isUnknown = (cs.dropWhile isspace).countP isUnknown := by
      conv_lhs => rw [hsplit]
      rw [List.countP_append, hw2, Nat.zero_add]
    have hlen : (cs.dropWhile isspace).length ≤ cs.length := by
      conv_rhs => rw [hsplit]
      rw [List.length_append]
      omega
    cases htail : cs.dropWhile isspace with
    | nil =>
      rw [htail] at hblank hcount
      rw [tokenize_loop_blank _ _ _ cs htail, hcount,
        tokenize_loop_blank old fuel2 i (blank_unknown cs) (by
          rw [hblank, dropWhile_append_all isspace _ _ hall]; rfl)]
      simp
    | cons c rest =>
      rw [htail] at hblank hcount hlen
      rw [List.length_cons] at hlen
      have hsp : isspace c = false := dropWhile_head_false isspace cs c rest htail
      obtain ⟨m, hm⟩ : ∃ m, fuel2 = m + 1 := ⟨fuel2 - 1, by omega⟩
      subst hm
      rw [tokenize_loop_step old n i cs c rest htail]
      cases hu : isUnknown c with
      | true =>
        rw [scan_token_unknown _ c rest hu]
        have hb : (blank_unknown cs).dropWhile isspace =
            (blank_unknown rest).dropWhile isspace := by
          rw [hblank, dropWhile_append_all isspace _ _ hall]
          simp only [blank_unknown, List.map_cons, blank_char_unknown c hu]
          rw [List.dropWhile_cons, if_pos (by decide)]
        rw [tokenize_loop_congr old (m + 1) i _ _ hb]
        obtain ⟨i1, i2, i3⟩ := ih rest (m + 1) i (by omega) (by omega)
        simp only [Option.toList, List.nil_append, List.length_nil, Nat.add_zero]
        refine ⟨i1, ?_, i3⟩
        rw [i2, hcount, List.countP_cons, hu]
        simp
      | false =>
        obtain ⟨k1, k2, k3, k4⟩ := scan_token_known (slot old i) c rest hu hsp
        have hb : (blank_unknown cs).dropWhile isspace = c :: blank_unknown rest := by
          rw [hblank, dropWhile_append_all isspace _ _ hall]
          simp only [blank_unknown, List.map_cons, blank_char_known c hu]
          rw [List.dropWhile_cons, if_neg (by simp [hsp])]
        rw [tokenize_loop_step old m i _ c _ hb, k1]
        obtain ⟨i1, i2, i3⟩ := ih (scan_token (slot old i) c rest).2.1 m
          (i + (scan_token (slot old i) c rest).1.toList.length) (by omega) (by omega)
        simp only []
        refine ⟨by rw [i1], ?_, by rw [i3]⟩
        rw [i2, k2, k3, hcount, List.countP_cons, hu]
        simp

/-- C20: for every expression text, `tokenize_expression` adds to the error count the
number of characters of the text that are neither white space, nor part of a number or
identifier, nor one of `+ - * / ( )`; the tokens and the token count it produces are
those of the same text with each such character replaced by a space, a text for which it
counts no error. -/
theorem tokenize_expression_unknown (s : State) (expr : List Char) :
    (tokenize_expression s expr).error_count = s.error_count + (expr.countP isUnknown : Nat) ∧
    (tokenize_expression s expr).tokens = (tokenize_expression s (blank_unknown expr)).tokens ∧
    (tokenize_expression s expr).token_count =
      (tokenize_expression s (blank_unknown expr)).token_count ∧
    (tokenize_expression s (blank_unknown expr)).error_count = s.error_count := by
  have hl : (blank_unknown expr).length = expr.length := by simp [blank_unknown]
  obtain ⟨h1, h2, h3⟩ := tokenize_loop_unknown s.tokens expr.length expr expr.length 0
    (le_refl _) (le_refl _)
  simp only [tokenize_expression, hl, h1, h2, h3]
  simp

/-- Witness of C20: in `a @ 5$` the characters `@` and `$` are unknown; two errors are
counted and the tokens are those of `a   5 `, the variable `a` and the literal 5. -/
theorem tokenize_expression_unknown_witness :
    (tokenize_expression State.init "a @ 5$".toList).error_count = 2 ∧
    (tokenize_expression State.init "a @ 5$".toList).tokens =
      [{ type := TOK_VARIABLE, str := ['a'], num_value := 0 },
       { type := TOK_NUMBER, str := ['5'], num_value := 5 }, endToken] :=
  ⟨(tokenize_expression_unknown State.init "a @ 5$".toList).1.trans (by decide),
    (tokenize_expression_unknown State.init "a @ 5$".toList).2.1.trans (by decide)⟩

end Mips1
